import Mathlib

/-!
# Verification of the trimesh-boolean core

Shallow embedding of the Boolean core of the `trimesh-boolean` library
(triangle-soup boolean operations) and proofs about it.

Modelling conventions:

* JS numbers are modelled as exact rationals (`ℚ`).  `Math.sqrt` is modelled
  by an explicit square-root function; every embedded function that uses it
  is parametrised over a model `sq : ℚ → ℚ`, and the concrete executable
  instance `jsSqrt` (exact on perfect rational squares, relative error at
  most `10⁻¹²` otherwise) is used when evaluating on concrete inputs.
* JS string-keyed objects are modelled as association lists preserving
  insertion order; the fixed-6-decimal vertex keys produced by `toFixed(6)`
  are modelled as sign/magnitude pairs, which agree with string equality of
  the printed keys (including the `"-0.000000"` versus `"0.000000"`
  distinction).  Canonical (unordered) edge keys only need *some* total
  order on vertex keys, so an explicit encoding order is used in place of
  JS lexicographic string order; all uses in the source are
  order-insensitive canonicalisation.
* The external Delaunay triangulator (`Delaunator` + `Constrainautor`) is an
  npm dependency, not code of this repository; it is modelled as an explicit
  function parameter producing either `none` (a thrown exception) or a list
  of triangles over the supplied point indices.
-/

set_option maxRecDepth 100000
set_option maxHeartbeats 2000000

/-- `List.foldl` with the accumulator seed first, so that JS
accumulation loops read `list.foldI seed fun acc x => …`. -/
def List.foldI {α β : Type} (l : List β) (i : α) (f : α → β → α) : α :=
  List.foldl f i l

theorem List.foldI_nil {α β : Type} (i : α) (f : α → β → α) :
    List.foldI [] i f = i := rfl

theorem List.foldI_cons {α β : Type} (x : β) (xs : List β) (i : α)
    (f : α → β → α) : List.foldI (x :: xs) i f = List.foldI xs (f i x) f := rfl

theorem List.foldI_eq_foldl {α β : Type} (l : List β) (i : α)
    (f : α → β → α) : List.foldI l i f = List.foldl f i l := rfl

namespace TrimeshBoolean

/-- 3-D vertex: the JS record `{x, y, z}`, with numbers as exact rationals. -/
structure V3 where
  x : ℚ
  y : ℚ
  z : ℚ
deriving DecidableEq, Repr

/-- Triangle in soup form: the JS record `{v0, v1, v2}`. -/
structure Tri where
  v0 : V3
  v1 : V3
  v2 : V3
deriving DecidableEq, Repr

/-- Intersection segment `{p0, p1}` (src/intersect/triTriIntersection.js). -/
structure Seg where
  p0 : V3
  p1 : V3
deriving DecidableEq, Repr

/-- Tagged intersection segment `{p0, p1, idxA, idxB}`
(src/intersect/intersectMeshPair.js). -/
structure TaggedSeg where
  p0 : V3
  p1 : V3
  idxA : ℕ
  idxB : ℕ
deriving DecidableEq, Repr

/-- A square-root model: stands for JS `Math.sqrt` on nonnegative inputs. -/
abbrev SqrtFn := ℚ → ℚ

/-- Fuel-driven integer square root (`⌊√n⌋` whenever `4 ^ fuel > n`),
written with structural recursion so that concrete values reduce inside the
kernel. -/
def isqrtAux (n : ℕ) : ℕ → ℕ
  | 0 => 0
  | fuel + 1 =>
      if n = 0 then 0
      else
        let r := 2 * isqrtAux (n / 4) fuel
        if (r + 1) * (r + 1) ≤ n then r + 1 else r

/-- Integer square root with enough fuel for numbers below `4 ^ 4096`. -/
def intSqrt (n : ℕ) : ℕ := isqrtAux n 4096

/-- Concrete executable square-root model: integer square root of the value
scaled by `10²⁴`.  Exact on perfect rational squares, relative error at most
`10⁻¹²` otherwise, and positive on positive inputs. -/
def jsSqrt (q : ℚ) : ℚ :=
  if q ≤ 0 then 0
  else (intSqrt (q.num.toNat * q.den * 10 ^ 24) : ℚ) / ((q.den : ℚ) * 10 ^ 12)

/-! ## src/util/math.js -/

/-- `dist3`: Euclidean distance (uses `Math.sqrt`). -/
def dist3 (sq : SqrtFn) (a b : V3) : ℚ :=
  let dx := a.x - b.x
  let dy := a.y - b.y
  let dz := a.z - b.z
  sq (dx * dx + dy * dy + dz * dz)

/-- `distSq3`: squared distance. -/
def distSq3 (a b : V3) : ℚ :=
  let dx := a.x - b.x
  let dy := a.y - b.y
  let dz := a.z - b.z
  dx * dx + dy * dy + dz * dz

/-- `cross`: 3-D cross product. -/
def cross (a b : V3) : V3 :=
  ⟨a.y * b.z - a.z * b.y, a.z * b.x - a.x * b.z, a.x * b.y - a.y * b.x⟩

/-- `lerpVert`: linear interpolation between two vertices. -/
def lerpVert (a b : V3) (t : ℚ) : V3 :=
  ⟨a.x + t * (b.x - a.x), a.y + t * (b.y - a.y), a.z + t * (b.z - a.z)⟩

/-- One fixed-decimal coordinate key, the result of JS `x.toFixed(6)`:
a sign flag together with `round(|x|·10⁶)` (ties away from zero, per the
ECMAScript `toFixed` algorithm).  `(true, 0)` models the string
`"-0.000000"`, which differs from `"0.000000"`. -/
def fix6 (q : ℚ) : Bool × ℕ :=
  if q < 0 then (true, (⌊(-q) * 10 ^ 6 + 1 / 2⌋).toNat)
  else (false, (⌊q * 10 ^ 6 + 1 / 2⌋).toNat)

/-- Vertex key at precision 6: the triple of fixed-decimal coordinates
(`vKey` in src/util/math.js, and the local `vk` closures). -/
abbrev VKey := (Bool × ℕ) × (Bool × ℕ) × (Bool × ℕ)

/-- `vKey`: precision-6 vertex key. -/
def vKey (v : V3) : VKey := (fix6 v.x, fix6 v.y, fix6 v.z)

/-- Injective integer encoding of one fixed-decimal coordinate
(used only to order keys for canonicalisation). -/
def fxEnc (p : Bool × ℕ) : ℤ :=
  if p.1 then -((p.2 : ℤ) + 1) else (p.2 : ℤ)

/-- A total order on vertex keys.  The JS source orders keys as strings; any
total order yields the same canonical unordered edge keys, which is the only
way key order is used. -/
def keyLt (a b : VKey) : Bool :=
  let ea := (fxEnc a.1, fxEnc a.2.1, fxEnc a.2.2)
  let eb := (fxEnc b.1, fxEnc b.2.1, fxEnc b.2.2)
  decide (ea.1 < eb.1 ∨ (ea.1 = eb.1 ∧
    (ea.2.1 < eb.2.1 ∨ (ea.2.1 = eb.2.1 ∧ ea.2.2 < eb.2.2))))

/-- Canonical unordered edge key built from two vertex keys
(`edgeKey` in src/util/math.js: `ka < kb ? ka+"|"+kb : kb+"|"+ka`). -/
def edgeKey (ka kb : VKey) : VKey × VKey :=
  if keyLt ka kb then (ka, kb) else (kb, ka)

/-! ## Association-list helpers (JS objects used as dictionaries) -/

/-- Append `i` to the bucket for key `k`, creating the bucket at the end on
first use — the JS pattern `if (!m[k]) m[k] = []; m[k].push(i)`. -/
def bucketPush {K V : Type} [DecidableEq K] :
    List (K × List V) → K → V → List (K × List V)
  | [], k, i => [(k, [i])]
  | (k', l) :: t, k, i =>
      if k = k' then (k', l ++ [i]) :: t else (k', l) :: bucketPush t k i

/-- Look up a bucket, defaulting to the empty list. -/
def bucketGet {K V : Type} [DecidableEq K] (m : List (K × List V)) (k : K) :
    List V :=
  match m.find? (fun p => decide (p.1 = k)) with
  | some p => p.2
  | none => []

/-- Integer range `a, a+1, …, b` (empty if `b < a`): a JS
`for (g = a; g <= b; g++)` loop. -/
def intRange (a b : ℤ) : List ℤ :=
  (List.range (b + 1 - a).toNat).map (fun n => a + (n : ℤ))

/-! ## src/intersect/spatialGrid.js -/

/-- Axis-aligned 3-D bounding box. -/
structure BBox where
  minX : ℚ
  minY : ℚ
  minZ : ℚ
  maxX : ℚ
  maxY : ℚ
  maxZ : ℚ
deriving DecidableEq, Repr

/-- 2-D query box (the `{minX, minY, maxX, maxY}` fields used by grid
queries; a full `BBox` is accepted wherever JS passes one). -/
structure BB2 where
  minX : ℚ
  minY : ℚ
  maxX : ℚ
  maxY : ℚ
deriving DecidableEq, Repr

/-- The 2-D fields of a 3-D box. -/
def BBox.toBB2 (bb : BBox) : BB2 := ⟨bb.minX, bb.minY, bb.maxX, bb.maxY⟩

/-- Spatial hash grid: cell coordinates to triangle-index buckets. -/
abbrev Grid := List ((ℤ × ℤ) × List ℕ)

/-- `triBBox`: bounding box of one triangle. -/
def triBBox (t : Tri) : BBox :=
  { minX := min (min t.v0.x t.v1.x) t.v2.x
    minY := min (min t.v0.y t.v1.y) t.v2.y
    minZ := min (min t.v0.z t.v1.z) t.v2.z
    maxX := max (max t.v0.x t.v1.x) t.v2.x
    maxY := max (max t.v0.y t.v1.y) t.v2.y
    maxZ := max (max t.v0.z t.v1.z) t.v2.z }

/-- `computeBBox`: bounding box of a triangle array (starting from the empty
`(+∞, −∞)` box, folded with per-vertex min/max; for nonempty input this is
the min/max over all vertices, which is all callers use). -/
def computeBBox (tris : List Tri) : Option BBox :=
  match tris with
  | [] => none
  | t :: rest =>
      some <| rest.foldI (triBBox t) fun bb t' =>
        let b := triBBox t'
        { minX := min bb.minX b.minX, minY := min bb.minY b.minY
          minZ := min bb.minZ b.minZ, maxX := max bb.maxX b.maxX
          maxY := max bb.maxY b.maxY, maxZ := max bb.maxZ b.maxZ }

/-- `bboxOverlap`: 3-axis AABB overlap test. -/
def bboxOverlap (a b : BBox) : Bool :=
  decide (a.minX ≤ b.maxX ∧ a.maxX ≥ b.minX ∧
          a.minY ≤ b.maxY ∧ a.maxY ≥ b.minY ∧
          a.minZ ≤ b.maxZ ∧ a.maxZ ≥ b.minZ)

/-- `buildSpatialGrid`: insert every triangle index into each XY cell its
bounding box overlaps. -/
def buildSpatialGrid (tris : List Tri) (cellSize : ℚ) : Grid :=
  tris.enum.foldI [] fun g p =>
    let i := p.1
    let bb := triBBox p.2
    let x0 := ⌊bb.minX / cellSize⌋
    let y0 := ⌊bb.minY / cellSize⌋
    let x1 := ⌊bb.maxX / cellSize⌋
    let y1 := ⌊bb.maxY / cellSize⌋
    (intRange x0 x1).foldI g fun g gx =>
      (intRange y0 y1).foldI g fun g gy =>
        bucketPush g (gx, gy) i

/-- `queryGrid`: collect de-duplicated triangle indices from all cells
overlapping the query box, in first-seen order. -/
def queryGrid (g : Grid) (bb : BB2) (cellSize : ℚ) : List ℕ :=
  let x0 := ⌊bb.minX / cellSize⌋
  let y0 := ⌊bb.minY / cellSize⌋
  let x1 := ⌊bb.maxX / cellSize⌋
  let y1 := ⌊bb.maxY / cellSize⌋
  (intRange x0 x1).foldI [] fun acc gx =>
    (intRange y0 y1).foldI acc fun acc gy =>
      (bucketGet g (gx, gy)).foldI acc fun acc idx =>
        if idx ∈ acc then acc else acc ++ [idx]

/-- `estimateAvgEdge`: mean edge length over the first 100 triangles
(1.0 for empty input). -/
def estimateAvgEdge (sq : SqrtFn) (tris : List Tri) : ℚ :=
  match tris with
  | [] => 1
  | _ =>
      let count := min tris.length 100
      let total := (tris.take count).foldI (0 : ℚ) fun acc t =>
        acc + dist3 sq t.v0 t.v1 + dist3 sq t.v1 t.v2 + dist3 sq t.v2 t.v0
      total / (count * 3 : ℚ)

/-- Modelled from the spec: `buildSpatialGridOnAxes` — the current revision
of src/intersect/spatialGrid.js exporting it is missing from the snapshot
(only the declaration in src/index.js and call sites exist).  Per §4.1 of
the spec it is the grid build parameterised by a projection plane: each
triangle index is inserted into every cell its projected bounding box
overlaps, with the projection given by two coordinate accessors. -/
def buildSpatialGridOnAxes (tris : List Tri) (cellSize : ℚ)
    (getU getV : V3 → ℚ) : Grid :=
  tris.enum.foldI [] fun g p =>
    let i := p.1
    let t := p.2
    let minU := min (min (getU t.v0) (getU t.v1)) (getU t.v2)
    let maxU := max (max (getU t.v0) (getU t.v1)) (getU t.v2)
    let minV := min (min (getV t.v0) (getV t.v1)) (getV t.v2)
    let maxV := max (max (getV t.v0) (getV t.v1)) (getV t.v2)
    let u0 := ⌊minU / cellSize⌋
    let v0 := ⌊minV / cellSize⌋
    let u1 := ⌊maxU / cellSize⌋
    let v1 := ⌊maxV / cellSize⌋
    (intRange u0 u1).foldI g fun g gu =>
      (intRange v0 v1).foldI g fun g gv =>
        bucketPush g (gu, gv) i

/-- Modelled from the spec: `queryGridOnAxes` — missing from the snapshot
like `buildSpatialGridOnAxes`.  Per §4.1 (`queryPoint`) it returns the
indices from the single cell containing the projected point. -/
def queryGridOnAxes (g : Grid) (a b : ℚ) (cellSize : ℚ) : List ℕ :=
  bucketGet g (⌊a / cellSize⌋, ⌊b / cellSize⌋)

/-! ## src/normals/triNormal.js -/

/-- `triNormal`: unit face normal via normalised edge cross product, with
Z-up fallback `{0,0,1}` for degenerate triangles. -/
def triNormal (sq : SqrtFn) (tri : Tri) : V3 :=
  let e1 : V3 := ⟨tri.v1.x - tri.v0.x, tri.v1.y - tri.v0.y, tri.v1.z - tri.v0.z⟩
  let e2 : V3 := ⟨tri.v2.x - tri.v0.x, tri.v2.y - tri.v0.y, tri.v2.z - tri.v0.z⟩
  let n := cross e1 e2
  let len := sq (n.x * n.x + n.y * n.y + n.z * n.z)
  if len < 1 / 10 ^ 15 then ⟨0, 0, 1⟩
  else ⟨n.x / len, n.y / len, n.z / len⟩

/-! ## src/intersect/triTriIntersection.js -/

/-- `computeTriInterval`: parametric interval where a triangle crosses the
plane–plane intersection line.  Strictly sign-changing edges contribute the
projection of the crossing point; vertices with `|d| < 1e-10` contribute
their own projection.  Fewer than two values means no interval; otherwise
the result is the min and max of the collected values (the source sorts and
takes the first and last element). -/
def computeTriInterval (tri : Tri) (lineDir linePoint : V3)
    (d0 d1 d2 : ℚ) : Option (ℚ × ℚ) :=
  let verts := [tri.v0, tri.v1, tri.v2]
  let dists := [d0, d1, d2]
  let params := (List.range 3).foldI ([] : List ℚ) fun ps i =>
    let j := (i + 1) % 3
    let di := dists.getD i 0
    let dj := dists.getD j 0
    let vi := verts.getD i ⟨0, 0, 0⟩
    let vj := verts.getD j ⟨0, 0, 0⟩
    if (di > 0 ∧ dj < 0) ∨ (di < 0 ∧ dj > 0) then
      let t := di / (di - dj)
      let pt : V3 := ⟨vi.x + t * (vj.x - vi.x), vi.y + t * (vj.y - vi.y),
        vi.z + t * (vj.z - vi.z)⟩
      let param := (pt.x - linePoint.x) * lineDir.x +
        (pt.y - linePoint.y) * lineDir.y + (pt.z - linePoint.z) * lineDir.z
      ps ++ [param]
    else if |di| < 1 / 10 ^ 10 then
      let param := (vi.x - linePoint.x) * lineDir.x +
        (vi.y - linePoint.y) * lineDir.y + (vi.z - linePoint.z) * lineDir.z
      ps ++ [param]
    else ps
  if params.length < 2 then none
  else
    match params with
    | [] => none
    | p :: rest => some (rest.foldl min p, rest.foldl max p)

/-- `findLinePoint`: a point on the intersection line of two planes, fixing
the dominant component of the direction to zero and solving the remaining
2×2 system by Cramer's rule. -/
def findLinePoint (nA : V3) (dA : ℚ) (nB : V3) (dB : ℚ) (lineDir : V3) :
    Option V3 :=
  let ax := |lineDir.x|
  let ay := |lineDir.y|
  let az := |lineDir.z|
  if az ≥ ax ∧ az ≥ ay then
    let det := nA.x * nB.y - nA.y * nB.x
    if |det| < 1 / 10 ^ 12 then none
    else some ⟨(-dA * nB.y + dB * nA.y) / det,
      (nA.x * (-dB) - nB.x * (-dA)) / det, 0⟩
  else if ay ≥ ax then
    let det := nA.x * nB.z - nA.z * nB.x
    if |det| < 1 / 10 ^ 12 then none
    else some ⟨(-dA * nB.z + dB * nA.z) / det, 0,
      (nA.x * (-dB) - nB.x * (-dA)) / det⟩
  else
    let det := nA.y * nB.z - nA.z * nB.y
    if |det| < 1 / 10 ^ 12 then none
    else some ⟨0, (-dA * nB.z + dB * nA.z) / det,
      (nA.y * (-dB) - nB.y * (-dA)) / det⟩

/-- `triTriIntersection`: Möller separating-axis triangle–triangle
intersection, producing the 3-D segment or `none`. -/
def triTriIntersection (sq : SqrtFn) (triA triB : Tri) : Option Seg :=
  let nB := triNormal sq triB
  let dB := -(nB.x * triB.v0.x + nB.y * triB.v0.y + nB.z * triB.v0.z)
  let dA0 := nB.x * triA.v0.x + nB.y * triA.v0.y + nB.z * triA.v0.z + dB
  let dA1 := nB.x * triA.v1.x + nB.y * triA.v1.y + nB.z * triA.v1.z + dB
  let dA2 := nB.x * triA.v2.x + nB.y * triA.v2.y + nB.z * triA.v2.z + dB
  if dA0 > 0 ∧ dA1 > 0 ∧ dA2 > 0 then none
  else if dA0 < 0 ∧ dA1 < 0 ∧ dA2 < 0 then none
  else
    let nA := triNormal sq triA
    let dA := -(nA.x * triA.v0.x + nA.y * triA.v0.y + nA.z * triA.v0.z)
    let dB0 := nA.x * triB.v0.x + nA.y * triB.v0.y + nA.z * triB.v0.z + dA
    let dB1 := nA.x * triB.v1.x + nA.y * triB.v1.y + nA.z * triB.v1.z + dA
    let dB2 := nA.x * triB.v2.x + nA.y * triB.v2.y + nA.z * triB.v2.z + dA
    if dB0 > 0 ∧ dB1 > 0 ∧ dB2 > 0 then none
    else if dB0 < 0 ∧ dB1 < 0 ∧ dB2 < 0 then none
    else
      let dotN := nA.x * nB.x + nA.y * nB.y + nA.z * nB.z
      if |dotN| > 9999 / 10000 then none
      else
        let ld := cross nA nB
        let lineDirLen := sq (ld.x * ld.x + ld.y * ld.y + ld.z * ld.z)
        if lineDirLen < 1 / 10 ^ 12 then none
        else
          let lineDir : V3 :=
            ⟨ld.x / lineDirLen, ld.y / lineDirLen, ld.z / lineDirLen⟩
          match findLinePoint nA dA nB dB lineDir with
          | none => none
          | some linePoint =>
            match computeTriInterval triA lineDir linePoint dA0 dA1 dA2 with
            | none => none
            | some intervalA =>
              match computeTriInterval triB lineDir linePoint dB0 dB1 dB2 with
              | none => none
              | some intervalB =>
                let overlapMin := max intervalA.1 intervalB.1
                let overlapMax := min intervalA.2 intervalB.2
                if overlapMin ≥ overlapMax - 1 / 10 ^ 10 then none
                else
                  let p0 : V3 := ⟨linePoint.x + lineDir.x * overlapMin,
                    linePoint.y + lineDir.y * overlapMin,
                    linePoint.z + lineDir.z * overlapMin⟩
                  let p1 : V3 := ⟨linePoint.x + lineDir.x * overlapMax,
                    linePoint.y + lineDir.y * overlapMax,
                    linePoint.z + lineDir.z * overlapMax⟩
                  let dx := p0.x - p1.x
                  let dy := p0.y - p1.y
                  let dz := p0.z - p1.z
                  if sq (dx * dx + dy * dy + dz * dz) < 1 / 10 ^ 8 then none
                  else some ⟨p0, p1⟩

/-- Signed-distance metadata returned by the detailed intersector. -/
structure TriTriDetail where
  dA : ℚ × ℚ × ℚ
  dB : ℚ × ℚ × ℚ
  segLen : ℚ
deriving DecidableEq, Repr

/-- `triTriIntersectionDetailed`: same rejection cascade as
`triTriIntersection`, returning the signed distances and the parametric
segment length instead of the 3-D segment. -/
def triTriIntersectionDetailed (sq : SqrtFn) (triA triB : Tri) :
    Option TriTriDetail :=
  let nB := triNormal sq triB
  let dB := -(nB.x * triB.v0.x + nB.y * triB.v0.y + nB.z * triB.v0.z)
  let dA0 := nB.x * triA.v0.x + nB.y * triA.v0.y + nB.z * triA.v0.z + dB
  let dA1 := nB.x * triA.v1.x + nB.y * triA.v1.y + nB.z * triA.v1.z + dB
  let dA2 := nB.x * triA.v2.x + nB.y * triA.v2.y + nB.z * triA.v2.z + dB
  if dA0 > 0 ∧ dA1 > 0 ∧ dA2 > 0 then none
  else if dA0 < 0 ∧ dA1 < 0 ∧ dA2 < 0 then none
  else
    let nA := triNormal sq triA
    let dA := -(nA.x * triA.v0.x + nA.y * triA.v0.y + nA.z * triA.v0.z)
    let dB0 := nA.x * triB.v0.x + nA.y * triB.v0.y + nA.z * triB.v0.z + dA
    let dB1 := nA.x * triB.v1.x + nA.y * triB.v1.y + nA.z * triB.v1.z + dA
    let dB2 := nA.x * triB.v2.x + nA.y * triB.v2.y + nA.z * triB.v2.z + dA
    if dB0 > 0 ∧ dB1 > 0 ∧ dB2 > 0 then none
    else if dB0 < 0 ∧ dB1 < 0 ∧ dB2 < 0 then none
    else
      let dotN := nA.x * nB.x + nA.y * nB.y + nA.z * nB.z
      if |dotN| > 9999 / 10000 then none
      else
        let ld := cross nA nB
        let lineDirLen := sq (ld.x * ld.x + ld.y * ld.y + ld.z * ld.z)
        if lineDirLen < 1 / 10 ^ 12 then none
        else
          let lineDir : V3 :=
            ⟨ld.x / lineDirLen, ld.y / lineDirLen, ld.z / lineDirLen⟩
          match findLinePoint nA dA nB dB lineDir with
          | none => none
          | some linePoint =>
            match computeTriInterval triA lineDir linePoint dA0 dA1 dA2 with
            | none => none
            | some intervalA =>
              match computeTriInterval triB lineDir linePoint dB0 dB1 dB2 with
              | none => none
              | some intervalB =>
                let overlapMin := max intervalA.1 intervalB.1
                let overlapMax := min intervalA.2 intervalB.2
                if overlapMin ≥ overlapMax - 1 / 10 ^ 10 then none
                else
                  let segLen := overlapMax - overlapMin
                  if segLen < 1 / 10 ^ 8 then none
                  else some ⟨(dA0, dA1, dA2), (dB0, dB1, dB2), segLen⟩

/-! ## src/intersect/intersectMeshPair.js -/

/-- `intersectMeshPairTagged`: build a grid on mesh B (cell size
`max(2·avgEdge(B), 0.1)`), query candidates for each triangle of A by its
bounding box, and emit every non-null Möller segment tagged with its source
indices. -/
def intersectMeshPairTagged (sq : SqrtFn) (trisA trisB : List Tri) :
    List TaggedSeg :=
  let avgEdge := estimateAvgEdge sq trisB
  let cellSize := max (avgEdge * 2) (1 / 10)
  let gridB := buildSpatialGrid trisB cellSize
  trisA.enum.foldI [] fun segments p =>
    let i := p.1
    let triA := p.2
    let bbA := triBBox triA
    let candidates := queryGrid gridB bbA.toBB2 cellSize
    candidates.foldI segments fun segments j =>
      let triB := trisB.getD j ⟨⟨0,0,0⟩,⟨0,0,0⟩,⟨0,0,0⟩⟩
      match triTriIntersection sq triA triB with
      | some seg => segments ++ [⟨seg.p0, seg.p1, i, j⟩]
      | none => segments

/-- `intersectMeshPair`: untagged variant. -/
def intersectMeshPair (sq : SqrtFn) (trisA trisB : List Tri) : List Seg :=
  let avgEdge := estimateAvgEdge sq trisB
  let cellSize := max (avgEdge * 2) (1 / 10)
  let gridB := buildSpatialGrid trisB cellSize
  trisA.foldI [] fun segments triA =>
    let bbA := triBBox triA
    let candidates := queryGrid gridB bbA.toBB2 cellSize
    candidates.foldI segments fun segments j =>
      match triTriIntersection sq triA (trisB.getD j ⟨⟨0,0,0⟩,⟨0,0,0⟩,⟨0,0,0⟩⟩) with
      | some seg => segments ++ [seg]
      | none => segments

/-! ## src/boolean/classifyTriangles.js (current multi-axis revision) -/

/-- Ray axis: `'z'`, `'x'` or `'y'`. -/
inductive Axis where
  | z
  | x
  | y
deriving DecidableEq, Repr

/-- The deterministic jitter offsets `JITTERS` (exact rational constants). -/
def jitters : Axis → List (ℚ × ℚ)
  | .z => [(537 / 10 ^ 7, 241 / 10 ^ 7), (-319 / 10 ^ 7, 673 / 10 ^ 7),
           (157 / 10 ^ 7, -489 / 10 ^ 7)]
  | .x => [(443 / 10 ^ 7, -317 / 10 ^ 7), (-261 / 10 ^ 7, 559 / 10 ^ 7),
           (189 / 10 ^ 7, 371 / 10 ^ 7)]
  | .y => [(-397 / 10 ^ 7, 283 / 10 ^ 7), (521 / 10 ^ 7, -447 / 10 ^ 7),
           (-173 / 10 ^ 7, 613 / 10 ^ 7)]

/-- Projection of a vertex for an axis: the two projection coordinates and
the ray coordinate, `(a, b, r)`. -/
def axisProj (axis : Axis) (v : V3) : ℚ × ℚ × ℚ :=
  match axis with
  | .z => (v.x, v.y, v.z)
  | .x => (v.y, v.z, v.x)
  | .y => (v.x, v.z, v.y)

/-- `castRayOnAxis`: count positive-direction hits of one jittered ray. -/
def castRayOnAxis (pa pb pr : ℚ) (candidates : List ℕ) (otherTris : List Tri)
    (axis : Axis) : ℕ :=
  candidates.foldI 0 fun countPos c =>
    match otherTris.getD c ⟨⟨0,0,0⟩,⟨0,0,0⟩,⟨0,0,0⟩⟩ with
    | tri =>
      let q0 := axisProj axis tri.v0
      let q1 := axisProj axis tri.v1
      let q2 := axisProj axis tri.v2
      let d := (q1.2.1 - q2.2.1) * (q0.1 - q2.1) + (q2.1 - q1.1) * (q0.2.1 - q2.2.1)
      if |d| < 1 / 10 ^ 12 then countPos
      else
        let u := ((q1.2.1 - q2.2.1) * (pa - q2.1) + (q2.1 - q1.1) * (pb - q2.2.1)) / d
        let v := ((q2.2.1 - q0.2.1) * (pa - q2.1) + (q0.1 - q2.1) * (pb - q2.2.1)) / d
        let w := 1 - u - v
        if u < -(1 / 10 ^ 10) ∨ v < -(1 / 10 ^ 10) ∨ w < -(1 / 10 ^ 10) then countPos
        else
          let rHit := u * q0.2.2 + v * q1.2.2 + w * q2.2.2
          if rHit > pr then countPos + 1 else countPos

/-- One grid together with the cell size it was built with. -/
structure AxisGrid where
  grid : Grid
  cellSize : ℚ

/-- The three per-projection grids `{xy, yz, xz}` consumed by the
multi-axis classifier. -/
structure Grids where
  xy : AxisGrid
  yz : AxisGrid
  xz : AxisGrid

/-- `classifyPointOnAxis`: three jittered rays on one axis, majority vote.
Returns `0` (no ray hit anything), `1` (inside) or `2` (outside). -/
def classifyPointOnAxis (point : V3) (otherTris : List Tri) (grid : Grid)
    (cellSize : ℚ) (axis : Axis) : ℕ :=
  let base := axisProj axis point
  let basePa := base.1
  let basePb := base.2.1
  let pr := base.2.2
  let votes := (jitters axis).foldI ((0 : ℕ), (0 : ℕ)) fun acc jit =>
    let pa := basePa + jit.1
    let pb := basePb + jit.2
    let candidates :=
      match axis with
      | .z => queryGrid grid ⟨pa, pb, pa, pb⟩ cellSize
      | _ => queryGridOnAxes grid pa pb cellSize
    let count := castRayOnAxis pa pb pr candidates otherTris axis
    (acc.1 + (if count % 2 = 1 then 1 else 0), acc.2 + (if count > 0 then 1 else 0))
  if votes.2 = 0 then 0
  else if votes.1 ≥ 2 then 1 else 2

/-- `classifyPointMultiAxis`: majority vote across the +Z, +X and +Y axes.
Returns `1` (inside) or `-1` (outside). -/
def classifyPointMultiAxis (point : V3) (otherTris : List Tri)
    (grids : Grids) : ℤ :=
  let zCount := classifyPointOnAxis point otherTris grids.xy.grid grids.xy.cellSize .z
  let xCount := classifyPointOnAxis point otherTris grids.yz.grid grids.yz.cellSize .x
  let yCount := classifyPointOnAxis point otherTris grids.xz.grid grids.xz.cellSize .y
  let insideVotes := (if zCount = 1 then 1 else 0) + (if xCount = 1 then 1 else 0)
    + (if yCount = 1 then 1 else 0)
  let outsideVotes := (if zCount = 2 then 1 else 0) + (if xCount = 2 then 1 else 0)
    + (if yCount = 2 then 1 else 0)
  if insideVotes ≥ 2 then 1
  else if outsideVotes ≥ 1 then -1
  else if insideVotes = 1 then 1
  else -1

/-- Crossed-set: triangle index to the tagged segments crossing it (a JS
object keyed by index). -/
abbrev CrossedMap := List (ℕ × List TaggedSeg)

/-- Lookup in a crossed-set. -/
def crossedGet (m : CrossedMap) (i : ℕ) : Option (List TaggedSeg) :=
  match m.find? (fun p => decide (p.1 = i)) with
  | some p => some p.2
  | none => none

/-- Membership in a crossed-set (`crossedMap[i]` truthiness; buckets are
created non-empty, so truthiness is key presence). -/
def isCrossed (m : CrossedMap) (i : ℕ) : Bool := (crossedGet m i).isSome

/-- Centroid of a triangle (the seed point used by the flood fill). -/
def triCentroid (t : Tri) : V3 :=
  ⟨(t.v0.x + t.v1.x + t.v2.x) / 3, (t.v0.y + t.v1.y + t.v2.y) / 3,
   (t.v0.z + t.v1.z + t.v2.z) / 3⟩

/-- The three canonical edge keys of a triangle (in source order
`v0v1, v1v2, v2v0`). -/
def triEdgeKeys (t : Tri) : List (VKey × VKey) :=
  let k0 := vKey t.v0
  let k1 := vKey t.v1
  let k2 := vKey t.v2
  [edgeKey k0 k1, edgeKey k1 k2, edgeKey k2 k0]

/-- Edge-to-triangles adjacency over the non-crossed triangles only
(the first half of `classifyByFloodFill`). -/
def edgeToTrisNonCrossed (tris : List Tri) (crossedMap : CrossedMap) :
    List ((VKey × VKey) × List ℕ) :=
  tris.enum.foldI [] fun m p =>
    if isCrossed crossedMap p.1 then m
    else (triEdgeKeys p.2).foldI m fun m ek => bucketPush m ek p.1

/-- Neighbour lists from shared edges (all pairs within each bucket). -/
def buildNeighbors (n : ℕ) (edgeToTris : List ((VKey × VKey) × List ℕ)) :
    List (List ℕ) :=
  edgeToTris.foldI (List.replicate n []) fun nbrs bucket =>
    let l := bucket.2
    (List.range l.length).foldI nbrs fun nbrs a =>
      (List.range l.length).foldI nbrs fun nbrs b =>
        if a < b then
          let ta := l.getD a 0
          let tb := l.getD b 0
          let nbrs := nbrs.set ta ((nbrs.getD ta []) ++ [tb])
          nbrs.set tb ((nbrs.getD tb []) ++ [ta])
        else nbrs

/-- One BFS flood from a queue, propagating `seedClass`; `fuel` bounds the
number of dequeues (the JS loop dequeues each triangle at most once). -/
def floodBFS (neighbors : List (List ℕ)) (seedClass : ℤ) :
    ℕ → List ℕ → List Bool → List ℤ → List Bool × List ℤ
  | 0, _, visited, result => (visited, result)
  | _ + 1, [], visited, result => (visited, result)
  | fuel + 1, cur :: rest, visited, result =>
      let step := (neighbors.getD cur []).foldI (rest, visited, result)
        fun acc nb =>
          if acc.2.1.getD nb false then acc
          else (acc.1 ++ [nb], acc.2.1.set nb true, acc.2.2.set nb seedClass)
      floodBFS neighbors seedClass fuel step.1 step.2.1 step.2.2

/-- `classifyByFloodFill` (multi-axis revision): partition the non-crossed
triangles into edge-connected components, classify one seed per component
with `classifyPointMultiAxis` against the other mesh's three grids, and
propagate by BFS.  Result: per-triangle `1` / `-1` (`0` for crossed
triangles, which are never visited). -/
def classifyByFloodFill (tris : List Tri) (crossedMap : CrossedMap)
    (otherTris : List Tri) (otherGrids : Grids) : List ℤ :=
  let n := tris.length
  let e2t := edgeToTrisNonCrossed tris crossedMap
  let neighbors := buildNeighbors n e2t
  let start : List Bool × List ℤ := (List.replicate n false, List.replicate n 0)
  let final := (List.range n).foldI start fun st seed =>
    if st.1.getD seed false ∨ isCrossed crossedMap seed then st
    else
      let seedClass := classifyPointMultiAxis
        (triCentroid (tris.getD seed ⟨⟨0,0,0⟩,⟨0,0,0⟩,⟨0,0,0⟩⟩)) otherTris otherGrids
      floodBFS neighbors seedClass n [seed] (st.1.set seed true)
        (st.2.set seed seedClass)
  final.2

/-! ## src/boolean/splitTriangles.js -/

/-- Model of the external Delaunay triangulator (`Delaunator` constrained by
`Constrainautor`, both npm dependencies outside this repository): from the
local 2-D coordinates of the points and the attempted constraint edges it
either fails (`none`, a thrown `Delaunator` constructor exception) or
produces triangles as index triples into the point list.  Individual
constraint failures are silently swallowed by the source, so they are folded
into the model's choice of output. -/
abbrev DelaunayModel := List (ℚ × ℚ) → List (ℕ × ℕ) → Option (List (ℕ × ℕ × ℕ))

/-- Set a key to a value in an association list (JS object assignment:
replace if present, append if absent). -/
def alSet {K V : Type} [DecidableEq K] :
    List (K × V) → K → V → List (K × V)
  | [], k, v => [(k, v)]
  | (k', v') :: t, k, v =>
      if k = k' then (k, v) :: t else (k', v') :: alSet t k v

/-- Association-list lookup. -/
def alGet {K V : Type} [DecidableEq K] (m : List (K × V)) (k : K) : Option V :=
  match m.find? (fun p => decide (p.1 = k)) with
  | some p => some p.2
  | none => none

/-- The step-1 data of `retriangulateWithSteinerPoints`: the 2-D frame on
the triangle's plane and the barycentric determinant. -/
structure Frame where
  origin : V3
  lu : V3
  lv : V3
  l0 : ℚ × ℚ
  l1 : ℚ × ℚ
  l2 : ℚ × ℚ
  baryD : ℚ
deriving DecidableEq, Repr

/-- Project a 3-D point into a frame's local 2-D coordinates (`toLocal`). -/
def Frame.toLocal (fr : Frame) (p : V3) : ℚ × ℚ :=
  ((p.x - fr.origin.x) * fr.lu.x + (p.y - fr.origin.y) * fr.lu.y +
    (p.z - fr.origin.z) * fr.lu.z,
   (p.x - fr.origin.x) * fr.lv.x + (p.y - fr.origin.y) * fr.lv.y +
    (p.z - fr.origin.z) * fr.lv.z)

/-- Barycentric coordinates in a frame (`baryCoords`). -/
def Frame.bary (fr : Frame) (pu pv : ℚ) : ℚ × ℚ × ℚ :=
  let u := ((fr.l1.2 - fr.l2.2) * (pu - fr.l2.1) +
    (fr.l2.1 - fr.l1.1) * (pv - fr.l2.2)) / fr.baryD
  let v := ((fr.l2.2 - fr.l0.2) * (pu - fr.l2.1) +
    (fr.l0.1 - fr.l2.1) * (pv - fr.l2.2)) / fr.baryD
  (u, v, 1 - u - v)

/-- Step 1 of `retriangulateWithSteinerPoints`: build the orthonormal local
frame and barycentric determinant, rejecting (`none`) when any of the three
lengths or the determinant falls below `1e-12`. -/
def triFrame (sq : SqrtFn) (tri : Tri) : Option Frame :=
  let e1x := tri.v1.x - tri.v0.x
  let e1y := tri.v1.y - tri.v0.y
  let e1z := tri.v1.z - tri.v0.z
  let e2x := tri.v2.x - tri.v0.x
  let e2y := tri.v2.y - tri.v0.y
  let e2z := tri.v2.z - tri.v0.z
  let e1Len := sq (e1x * e1x + e1y * e1y + e1z * e1z)
  if e1Len < 1 / 10 ^ 12 then none
  else
    let lu : V3 := ⟨e1x / e1Len, e1y / e1Len, e1z / e1Len⟩
    let lnx := e1y * e2z - e1z * e2y
    let lny := e1z * e2x - e1x * e2z
    let lnz := e1x * e2y - e1y * e2x
    let lnLen := sq (lnx * lnx + lny * lny + lnz * lnz)
    if lnLen < 1 / 10 ^ 12 then none
    else
      let lvx0 := lny * lu.z - lnz * lu.y
      let lvy0 := lnz * lu.x - lnx * lu.z
      let lvz0 := lnx * lu.y - lny * lu.x
      let lvLen := sq (lvx0 * lvx0 + lvy0 * lvy0 + lvz0 * lvz0)
      if lvLen < 1 / 10 ^ 12 then none
      else
        let lv : V3 := ⟨lvx0 / lvLen, lvy0 / lvLen, lvz0 / lvLen⟩
        let fr0 : Frame := ⟨tri.v0, lu, lv, (0, 0), (0, 0), (0, 0), 0⟩
        let l0 := fr0.toLocal tri.v0
        let l1 := fr0.toLocal tri.v1
        let l2 := fr0.toLocal tri.v2
        let baryD := (l1.2 - l2.2) * (l0.1 - l2.1) + (l2.1 - l1.1) * (l0.2 - l2.2)
        if |baryD| < 1 / 10 ^ 12 then none
        else some ⟨tri.v0, lu, lv, l0, l1, l2, baryD⟩

/-- Step 2 of `retriangulateWithSteinerPoints`: collect the unique segment
endpoints that are not corners of the parent triangle and whose barycentric
coordinates pass the `-1e-4` slop test. -/
def collectSteiner (fr : Frame) (tri : Tri) (segments : List TaggedSeg) :
    List (V3 × VKey) :=
  let seen0 : List VKey := [vKey tri.v0, vKey tri.v1, vKey tri.v2]
  (segments.foldI (seen0, ([] : List (V3 × VKey))) fun acc seg =>
    [seg.p0, seg.p1].foldI acc fun acc p =>
      let key := vKey p
      if key ∈ acc.1 then acc
      else
        let seen' := acc.1 ++ [key]
        let lp := fr.toLocal p
        let bc := fr.bary lp.1 lp.2
        if bc.1 < -(1 / 10 ^ 4) ∨ bc.2.1 < -(1 / 10 ^ 4) ∨
            bc.2.2 < -(1 / 10 ^ 4) then (seen', acc.2)
        else (seen', acc.2 ++ [(p, key)])).2

/-- The point list fed to the triangulator: the parent corners followed by
the surviving Steiner points. -/
def steinerPts (tri : Tri) (validSteiner : List (V3 × VKey)) : List V3 :=
  [tri.v0, tri.v1, tri.v2] ++ validSteiner.map Prod.fst

/-- The key-to-index map over the triangulated points. -/
def steinerKeyToIndex (tri : Tri) (validSteiner : List (V3 × VKey)) :
    List (VKey × ℕ) :=
  let keyToIndex0 :=
    alSet (alSet (alSet [] (vKey tri.v0) 0) (vKey tri.v1) 1) (vKey tri.v2) 2
  (validSteiner.enum).foldI keyToIndex0 fun m p => alSet m p.2.2 (3 + p.1)

/-- The constraint edges attempted on the triangulation: segments whose two
endpoint keys both resolve to distinct point indices. -/
def steinerConstraints (tri : Tri) (validSteiner : List (V3 × VKey))
    (segments : List TaggedSeg) : List (ℕ × ℕ) :=
  let keyToIndex := steinerKeyToIndex tri validSteiner
  segments.foldI ([] : List (ℕ × ℕ)) fun cs seg =>
    match alGet keyToIndex (vKey seg.p0), alGet keyToIndex (vKey seg.p1) with
    | some idx0, some idx1 =>
        if idx0 ≠ idx1 then cs ++ [(idx0, idx1)] else cs
    | _, _ => cs

/-- Step 4 of `retriangulateWithSteinerPoints`: keep the triangulator's
output triangles whose centroid passes the `-1e-6` barycentric test and
whose area is at least `1e-8` of the parent's, mapped back to 3-D. -/
def filterSubTris (fr : Frame) (pts : List V3) (locals : List (ℚ × ℚ))
    (delTris : List (ℕ × ℕ × ℕ)) : List Tri :=
  let triArea2D := |fr.baryD| * (1 / 2)
  delTris.foldI ([] : List Tri) fun res t3 =>
    let la := locals.getD t3.1 (0, 0)
    let lb := locals.getD t3.2.1 (0, 0)
    let lc := locals.getD t3.2.2 (0, 0)
    let cx := (la.1 + lb.1 + lc.1) / 3
    let cy := (la.2 + lb.2 + lc.2) / 3
    let cBary := fr.bary cx cy
    if cBary.1 < -(1 / 10 ^ 6) ∨ cBary.2.1 < -(1 / 10 ^ 6) ∨
        cBary.2.2 < -(1 / 10 ^ 6) then res
    else
      let subArea := |(lb.1 - la.1) * (lc.2 - la.2) -
        (lc.1 - la.1) * (lb.2 - la.2)| * (1 / 2)
      if subArea < triArea2D * (1 / 10 ^ 8) then res
      else res ++ [⟨pts.getD t3.1 ⟨0, 0, 0⟩, pts.getD t3.2.1 ⟨0, 0, 0⟩,
        pts.getD t3.2.2 ⟨0, 0, 0⟩⟩]

/-- `retriangulateWithSteinerPoints`: re-triangulate a crossed triangle with
the intersection-segment endpoints as Steiner points, returning `[tri]` on
any failure.  `F` is the external Delaunay model. -/
def retriangulateWithSteinerPoints (F : DelaunayModel) (sq : SqrtFn)
    (tri : Tri) (segments : List TaggedSeg) : List Tri :=
  if segments.isEmpty then [tri]
  else
    match triFrame sq tri with
    | none => [tri]
    | some fr =>
      let validSteiner := collectSteiner fr tri segments
      if validSteiner.isEmpty then [tri]
      else
        let pts := steinerPts tri validSteiner
        let locals := pts.map fr.toLocal
        let constraints := steinerConstraints tri validSteiner segments
        match F locals constraints with
        | none => [tri]
        | some delTris =>
          let result := filterSubTris fr pts locals delTris
          if result.isEmpty then [tri] else result

/-- Inside/outside groups. -/
structure InOut where
  inside : List Tri
  outside : List Tri
deriving DecidableEq, Repr

/-- `splitStraddlingAndClassify` (current vertex-adjacency revision):
non-crossed triangles go by their flood-fill class; crossed triangles are
re-triangulated and each sub-triangle inherits the class of its first
non-Steiner vertex found in the vertex-class map, falling back to
multi-axis ray casting at the centroid. -/
def splitStraddlingAndClassify (F : DelaunayModel) (sq : SqrtFn)
    (tris : List Tri) (classifications : List ℤ) (crossedMap : CrossedMap)
    (otherTris : List Tri) (otherGrids : Grids) : InOut :=
  let vertexClassMap := tris.enum.foldI ([] : List (VKey × ℤ))
    fun m p =>
      if isCrossed crossedMap p.1 then m
      else
        let cls := classifications.getD p.1 0
        [p.2.v0, p.2.v1, p.2.v2].foldI m fun m v =>
          let key := vKey v
          match alGet m key with
          | some _ => m
          | none => alSet m key cls
  let steinerKeys := crossedMap.foldI ([] : List VKey) fun s entry =>
    entry.2.foldI s fun s seg =>
      let s := if vKey seg.p0 ∈ s then s else s ++ [vKey seg.p0]
      if vKey seg.p1 ∈ s then s else s ++ [vKey seg.p1]
  tris.enum.foldI (⟨[], []⟩ : InOut) fun groups p =>
    match crossedGet crossedMap p.1 with
    | none =>
        if classifications.getD p.1 0 = 1 then
          { groups with inside := groups.inside ++ [p.2] }
        else { groups with outside := groups.outside ++ [p.2] }
    | some segments =>
        let current := retriangulateWithSteinerPoints F sq p.2 segments
        current.foldI groups fun groups sub =>
          let found := [sub.v0, sub.v1, sub.v2].foldI
            (0 : ℤ) fun fc v =>
              if fc ≠ 0 then fc
              else
                let svKey := vKey v
                if svKey ∈ steinerKeys then fc
                else
                  match alGet vertexClassMap svKey with
                  | some adjClass => adjClass
                  | none => fc
          let foundClass :=
            if found = 0 then
              classifyPointMultiAxis (triCentroid sub) otherTris otherGrids
            else found
          if foundClass = 1 then
            { groups with inside := groups.inside ++ [sub] }
          else { groups with outside := groups.outside ++ [sub] }

/-! ## src/repair/weldVertices.js -/

/-- 3-D weld grid: integer cell to point indices. -/
abbrev Grid3 := List ((ℤ × ℤ × ℤ) × List ℕ)

/-- A welded indexed triangle, storing three vertex copies
(`{vertices: [v0, v1, v2]}`). -/
structure WeldedTri where
  w0 : V3
  w1 : V3
  w2 : V3
deriving DecidableEq, Repr

/-- Welded indexed mesh `{points, triangles}`. -/
structure Welded where
  points : List V3
  triangles : List WeldedTri
deriving DecidableEq, Repr

/-- The 27 cell keys scanned around a home cell, in the JS loop order
(`dx`, then `dy`, then `dz`, each from −1 to 1). -/
def neighborCells (gx gy gz : ℤ) : List (ℤ × ℤ × ℤ) :=
  (intRange (-1) 1).flatMap fun dx =>
    (intRange (-1) 1).flatMap fun dy =>
      (intRange (-1) 1).map fun dz => (gx + dx, gy + dy, gz + dz)

/-- Home cell of a vertex in the weld grid. -/
def weldHome (cellSize : ℚ) (v : V3) : ℤ × ℤ × ℤ :=
  (⌊v.x / cellSize⌋, ⌊v.y / cellSize⌋, ⌊v.z / cellSize⌋)

/-- The lookup half of `getOrAddPoint`: first already-welded point within
`tolSq` of `v`, scanning the 27 neighbouring cells in order. -/
def weldLookup (points : List V3) (grid : Grid3) (cellSize tolSq : ℚ)
    (v : V3) : Option ℕ :=
  let home := weldHome cellSize v
  ((neighborCells home.1 home.2.1 home.2.2).flatMap fun key => bucketGet grid key).find?
    fun idx => decide (distSq3 (points.getD idx ⟨0, 0, 0⟩) v ≤ tolSq)

/-- `getOrAddPoint`: return the index of an existing in-tolerance point or
register `v` as a new pool point in its home cell. -/
def getOrAddPoint (cellSize tolSq : ℚ) (st : List V3 × Grid3) (v : V3) :
    (List V3 × Grid3) × ℕ :=
  match weldLookup st.1 st.2 cellSize tolSq v with
  | some idx => (st, idx)
  | none =>
      let idx := st.1.length
      ((st.1 ++ [v], bucketPush st.2 (weldHome cellSize v) idx), idx)

/-- One triangle step of the `weldVertices` loop: weld the three vertices
in order and emit the indexed triangle unless two of the three pool indices
coincide. -/
def weldStep (cellSize tolSq : ℚ)
    (st : (List V3 × Grid3) × List WeldedTri) (tri : Tri) :
    (List V3 × Grid3) × List WeldedTri :=
  let r0 := getOrAddPoint cellSize tolSq st.1 tri.v0
  let r1 := getOrAddPoint cellSize tolSq r0.1 tri.v1
  let r2 := getOrAddPoint cellSize tolSq r1.1 tri.v2
  let pts := r2.1.1
  if r0.2 = r1.2 ∨ r1.2 = r2.2 ∨ r0.2 = r2.2 then (r2.1, st.2)
  else
    (r2.1, st.2 ++ [⟨pts.getD r0.2 ⟨0, 0, 0⟩, pts.getD r1.2 ⟨0, 0, 0⟩,
      pts.getD r2.2 ⟨0, 0, 0⟩⟩])

/-- `weldVertices`: weld a soup into an indexed mesh, merging vertices
within `tolerance`.  Triangles whose three vertices merge to fewer than
three distinct pool points are dropped.  For `tolerance ≤ 0`, every vertex
becomes its own pool point and nothing is dropped. -/
def weldVertices (tris : List Tri) (tolerance : ℚ) : Welded :=
  if tolerance ≤ 0 then
    { points := tris.flatMap fun t => [t.v0, t.v1, t.v2]
      triangles := tris.map fun t => ⟨t.v0, t.v1, t.v2⟩ }
  else
    let final := tris.foldl
      (weldStep (max (tolerance * 2) (2 / 1000)) (tolerance * tolerance))
      ((([] : List V3), ([] : Grid3)), ([] : List WeldedTri))
    { points := final.1.1, triangles := final.2 }

/-- `weldedToSoup`: convert welded triangles back to soup form. -/
def weldedToSoup (weldedTriangles : List WeldedTri) : List Tri :=
  weldedTriangles.map fun t => ⟨t.w0, t.w1, t.w2⟩

/-! ## src/repair/deduplicateVertices.js -/

/-- Best (strictly closest within tolerance) canonical vertex for `v`,
scanning the 27 neighbouring cells; earlier candidates win ties. -/
def dedupFindBest (canonical : List V3) (grid : Grid3) (invCell tolSq : ℚ)
    (v : V3) : Option ℕ :=
  let cx := ⌊v.x * invCell⌋
  let cy := ⌊v.y * invCell⌋
  let cz := ⌊v.z * invCell⌋
  let scan := ((neighborCells cx cy cz).flatMap fun key => bucketGet grid key)
  (scan.foldI (tolSq, (none : Option ℕ)) fun best idx =>
    let dSq := distSq3 (canonical.getD idx ⟨0, 0, 0⟩) v
    if dSq < best.1 then (dSq, some idx) else best).2

/-- `findOrRegister` of `deduplicateSeamVertices`. -/
def dedupFindOrRegister (invCell tolSq : ℚ) (st : List V3 × Grid3) (v : V3) :
    (List V3 × Grid3) × ℕ :=
  match dedupFindBest st.1 st.2 invCell tolSq v with
  | some idx => (st, idx)
  | none =>
      let idx := st.1.length
      let key := (⌊v.x * invCell⌋, ⌊v.y * invCell⌋, ⌊v.z * invCell⌋)
      ((st.1 ++ [v], bucketPush st.2 key idx), idx)

/-- `deduplicateSeamVertices`: merge seam vertices within `tolerance` to a
canonical representative (nearest within tolerance, earliest on ties) and
drop triangles that become degenerate.  Canonical identity is by pool
index, matching JS object identity. -/
def deduplicateSeamVertices (tris : List Tri) (tolerance : ℚ) : List Tri :=
  if tris.isEmpty then tris
  else
    let cellSize := tolerance * 3
    let invCell := 1 / cellSize
    let tolSq := tolerance * tolerance
    let final := tris.foldI
      ((([] : List V3), ([] : Grid3)), ([] : List Tri))
      fun st tri =>
        let r0 := dedupFindOrRegister invCell tolSq st.1 tri.v0
        let r1 := dedupFindOrRegister invCell tolSq r0.1 tri.v1
        let r2 := dedupFindOrRegister invCell tolSq r1.1 tri.v2
        if r0.2 = r1.2 ∨ r1.2 = r2.2 ∨ r2.2 = r0.2 then (r2.1, st.2)
        else
          let pts := r2.1.1
          (r2.1, st.2 ++ [⟨pts.getD r0.2 ⟨0, 0, 0⟩, pts.getD r1.2 ⟨0, 0, 0⟩,
            pts.getD r2.2 ⟨0, 0, 0⟩⟩])
    final.2

/-! ## src/normals/alignNormals.js -/

/-- `ensureZUpNormals`: flip any triangle whose face normal has
`z < -0.01` by swapping `v1` and `v2`. -/
def ensureZUpNormals (sq : SqrtFn) (tris : List Tri) : List Tri :=
  tris.map fun tri =>
    let n := triNormal sq tri
    if n.z < -(1 / 100) then ⟨tri.v0, tri.v2, tri.v1⟩ else tri

/-- `flipAllNormals`: unconditionally swap `v1` and `v2` of every triangle. -/
def flipAllNormals (tris : List Tri) : List Tri :=
  tris.map fun tri => ⟨tri.v0, tri.v2, tri.v1⟩

/-! ## src/boolean/booleanOp.js -/

/-- A directed half-edge record `{triIdx, from, to}`. -/
structure HalfEdge where
  triIdx : ℕ
  src : VKey
  dst : VKey
deriving DecidableEq, Repr

/-- The half-edge map of `propagateNormals`: canonical edge key to the list
of half-edge records of the triangles containing that edge. -/
def propEdgeMap (tris : List Tri) : List ((VKey × VKey) × List HalfEdge) :=
  tris.enum.foldI [] fun m p =>
    let k0 := vKey p.2.v0
    let k1 := vKey p.2.v1
    let k2 := vKey p.2.v2
    [(k0, k1), (k1, k2), (k2, k0)].foldI m fun m e =>
      bucketPush m (edgeKey e.1 e.2) ⟨p.1, e.1, e.2⟩

/-- Neighbour lists for `propagateNormals`: per triangle, the adjacent
triangle across each shared edge together with the `sameDirection` flag
(both triangles traverse the shared edge from the same key). -/
def propNeighbors (n : ℕ) (edgeMap : List ((VKey × VKey) × List HalfEdge)) :
    List (List (ℕ × Bool)) :=
  edgeMap.foldI (List.replicate n []) fun nbrs bucket =>
    match bucket.2 with
    | [t0, t1] =>
        let sameDir := decide (t0.src = t1.src)
        let nbrs := nbrs.set t0.triIdx ((nbrs.getD t0.triIdx []) ++ [(t1.triIdx, sameDir)])
        nbrs.set t1.triIdx ((nbrs.getD t1.triIdx []) ++ [(t0.triIdx, sameDir)])
    | _ => nbrs

/-- One neighbour visit of the winding BFS: skip if visited, otherwise mark
visited and set the neighbour's flip flag (`opposite` of the current flag
when the shared edge is traversed in the same direction). -/
def windingVisit (cur : ℕ) (acc : List ℕ × List Bool × List Bool)
    (nb : ℕ × Bool) : List ℕ × List Bool × List Bool :=
  if acc.2.1.getD nb.1 false then acc
  else
    let curFlipped := acc.2.2.getD cur false
    let newFlip := if nb.2 then !curFlipped else curFlipped
    (acc.1 ++ [nb.1], acc.2.1.set nb.1 true, acc.2.2.set nb.1 newFlip)

/-- The winding BFS of `propagateNormals`: propagate flip flags from the
queue across shared edges (`fuel` bounds the number of dequeues). -/
def windingBFS (neighbors : List (List (ℕ × Bool))) :
    ℕ → List ℕ → List Bool → List Bool → List Bool × List Bool
  | 0, _, visited, flipped => (visited, flipped)
  | _ + 1, [], visited, flipped => (visited, flipped)
  | fuel + 1, cur :: rest, visited, flipped =>
      let step := (neighbors.getD cur []).foldl (windingVisit cur)
        (rest, visited, flipped)
      windingBFS neighbors fuel step.1 step.2.1 step.2.2

/-- `propagateNormals`: if the group is manifold (every edge key shared by
exactly two triangles), BFS from triangle 0 enforcing that adjacent
triangles traverse their shared edge in opposite directions, then apply the
flips; otherwise fall back to `ensureZUpNormals`. -/
def propagateNormals (sq : SqrtFn) (tris : List Tri) : List Tri :=
  if tris.isEmpty then tris
  else
    let edgeMap := propEdgeMap tris
    let isManifold := edgeMap.all fun b => b.2.length = 2
    if ¬ isManifold then ensureZUpNormals sq tris
    else
      let neighbors := propNeighbors tris.length edgeMap
      let bfs := windingBFS neighbors tris.length [0]
        ((List.replicate tris.length false).set 0 true)
        (List.replicate tris.length false)
      tris.enum.map fun p =>
        if bfs.2.getD p.1 false then ⟨p.2.v0, p.2.v2, p.2.v1⟩ else p.2

/-- `flipSoup`: flip the winding of every triangle. -/
def flipSoup (tris : List Tri) : List Tri :=
  tris.map fun t => ⟨t.v0, t.v2, t.v1⟩

/-- Boolean operation selector (the `"subtract" | "union" | "intersect"`
strings accepted by `boolean`). -/
inductive BoolOp where
  | subtract
  | union
  | intersect
deriving DecidableEq, Repr

/-- Result record `{soup, points, triangles}` of `boolean`. -/
structure BoolResult where
  soup : List Tri
  points : List V3
  triangles : List WeldedTri
deriving DecidableEq, Repr

/-- Modelled from the spec: the three per-mesh spatial grids built by the
current booleanOp.js, which is missing from the snapshot (the copy in
src/unnamed/part_008 is a stale pre-multi-axis revision whose
classification calls do not match the current classifyTriangles.js).
Per §4.9 step 4, §4.1 and the test fixture `buildGrids`: one grid per
projection plane (XY, YZ, XZ), all with cell size
`max(2·avgEdge(mesh), 0.1)`. -/
def buildGrids (sq : SqrtFn) (tris : List Tri) : Grids :=
  let avgEdge := estimateAvgEdge sq tris
  let cellSize := max (avgEdge * 2) (1 / 10)
  { xy := ⟨buildSpatialGrid tris cellSize, cellSize⟩
    yz := ⟨buildSpatialGridOnAxes tris cellSize (fun v => v.y) (fun v => v.z), cellSize⟩
    xz := ⟨buildSpatialGridOnAxes tris cellSize (fun v => v.x) (fun v => v.z), cellSize⟩ }

/-- The crossed-sets of step 2 of `boolean`: partition the tagged segments
by `idxA` and by `idxB`. -/
def buildCrossedSets (taggedSegments : List TaggedSeg) :
    CrossedMap × CrossedMap :=
  taggedSegments.foldI (([] : CrossedMap), ([] : CrossedMap))
    fun maps seg =>
      (bucketPush maps.1 seg.idxA seg, bucketPush maps.2 seg.idxB seg)

/-- Steps 2–8 of `boolean` on the intersecting path: crossed-sets, grids,
flood-fill classification, split-and-classify, seam dedup, winding
propagation, and the per-operation combination. -/
def booleanCombined (F : DelaunayModel) (sq : SqrtFn)
    (soupA soupB : List Tri) (taggedSegments : List TaggedSeg)
    (operation : BoolOp) : List Tri :=
  let crossedSets := buildCrossedSets taggedSegments
  let crossedSetA := crossedSets.1
  let crossedSetB := crossedSets.2
  let gridsA := buildGrids sq soupA
  let gridsB := buildGrids sq soupB
  let classA := classifyByFloodFill soupA crossedSetA soupB gridsB
  let classB := classifyByFloodFill soupB crossedSetB soupA gridsA
  let groupsA := splitStraddlingAndClassify F sq soupA classA crossedSetA soupB gridsB
  let groupsB := splitStraddlingAndClassify F sq soupB classB crossedSetB soupA gridsA
  let aInside := if groupsA.inside.length > 0 then
    deduplicateSeamVertices groupsA.inside (1 / 10 ^ 4) else groupsA.inside
  let aOutside := if groupsA.outside.length > 0 then
    deduplicateSeamVertices groupsA.outside (1 / 10 ^ 4) else groupsA.outside
  let bInside := if groupsB.inside.length > 0 then
    deduplicateSeamVertices groupsB.inside (1 / 10 ^ 4) else groupsB.inside
  let bOutside := if groupsB.outside.length > 0 then
    deduplicateSeamVertices groupsB.outside (1 / 10 ^ 4) else groupsB.outside
  let aInside := if aInside.length > 0 then propagateNormals sq aInside else aInside
  let aOutside := if aOutside.length > 0 then propagateNormals sq aOutside else aOutside
  let bInside := if bInside.length > 0 then propagateNormals sq bInside else bInside
  let bOutside := if bOutside.length > 0 then propagateNormals sq bOutside else bOutside
  match operation with
  | .subtract => aOutside ++ flipSoup bInside
  | .union => aOutside ++ bOutside
  | .intersect => aInside ++ bInside

/-- `boolean`: the public entry point.  Returns `none` for empty inputs;
for no intersection returns the naive union, `none` for intersect, or a
copy of A for subtract; otherwise runs the classify-then-split pipeline and
welds the combined soup (or returns `none` when it is empty). -/
def boolean (F : DelaunayModel) (sq : SqrtFn) (soupA soupB : List Tri)
    (operation : BoolOp) : Option BoolResult :=
  if soupA.isEmpty ∨ soupB.isEmpty then none
  else
    let taggedSegments := intersectMeshPairTagged sq soupA soupB
    if taggedSegments.isEmpty then
      match operation with
      | .intersect => none
      | .union =>
          let resultSoup := soupA ++ soupB
          let welded := weldVertices resultSoup 0
          some ⟨resultSoup, welded.points, welded.triangles⟩
      | .subtract =>
          let resultSoup := soupA
          let welded := weldVertices resultSoup 0
          some ⟨resultSoup, welded.points, welded.triangles⟩
    else
      let combined := booleanCombined F sq soupA soupB taggedSegments operation
      if combined.isEmpty then none
      else
        let finalWelded := weldVertices combined (1 / 10 ^ 4)
        some ⟨combined, finalWelded.points, finalWelded.triangles⟩

/-! ## Claim C1: behaviour of `boolean` when no tagged segments exist -/

/-- C1.  For all non-empty soups A and B whose tagged-segment set is empty
(the situation produced in particular by inputs with disjoint bounding
boxes), `boolean` returns `none` for intersect, a result whose soup is the
concatenation `A ++ B` (of length `|A| + |B|`) for union, and a result
whose soup equals `A` for subtract. -/
theorem boolean_no_intersection_spec (F : DelaunayModel) (sq : SqrtFn)
    (soupA soupB : List Tri) (hA : soupA ≠ []) (hB : soupB ≠ [])
    (hseg : intersectMeshPairTagged sq soupA soupB = []) :
    boolean F sq soupA soupB .intersect = none ∧
    (∃ r : BoolResult, boolean F sq soupA soupB .union = some r ∧
      r.soup = soupA ++ soupB ∧
      r.soup.length = soupA.length + soupB.length) ∧
    (∃ r : BoolResult, boolean F sq soupA soupB .subtract = some r ∧
      r.soup = soupA) := by
  have hA' : soupA.isEmpty = false := by
    simpa [List.isEmpty_iff] using hA
  have hB' : soupB.isEmpty = false := by
    simpa [List.isEmpty_iff] using hB
  refine ⟨?_, ?_, ?_⟩
  · simp [boolean, hA', hB', hseg]
  · refine ⟨⟨soupA ++ soupB, (weldVertices (soupA ++ soupB) 0).points,
      (weldVertices (soupA ++ soupB) 0).triangles⟩, ?_, rfl, by simp⟩
    simp [boolean, hA', hB', hseg]
  · refine ⟨⟨soupA, (weldVertices soupA 0).points,
      (weldVertices soupA 0).triangles⟩, ?_, rfl⟩
    simp [boolean, hA', hB', hseg]

unseal Rat.add Rat.mul Rat.sub Rat.inv in
/-- C1 witness: two far-apart one-triangle soups. -/
theorem boolean_no_intersection_spec_witness :
    ([⟨⟨0,0,0⟩,⟨2,0,0⟩,⟨1,2,0⟩⟩] : List Tri) ≠ [] ∧
    ([⟨⟨10,10,10⟩,⟨12,10,10⟩,⟨11,12,10⟩⟩] : List Tri) ≠ [] ∧
    intersectMeshPairTagged jsSqrt [⟨⟨0,0,0⟩,⟨2,0,0⟩,⟨1,2,0⟩⟩]
      [⟨⟨10,10,10⟩,⟨12,10,10⟩,⟨11,12,10⟩⟩] = [] ∧
    (boolean (fun _ _ => none) jsSqrt [⟨⟨0,0,0⟩,⟨2,0,0⟩,⟨1,2,0⟩⟩]
      [⟨⟨10,10,10⟩,⟨12,10,10⟩,⟨11,12,10⟩⟩] .intersect = none ∧
     (∃ r : BoolResult, boolean (fun _ _ => none) jsSqrt
        [⟨⟨0,0,0⟩,⟨2,0,0⟩,⟨1,2,0⟩⟩] [⟨⟨10,10,10⟩,⟨12,10,10⟩,⟨11,12,10⟩⟩]
        .union = some r ∧
      r.soup = [⟨⟨0,0,0⟩,⟨2,0,0⟩,⟨1,2,0⟩⟩] ++ [⟨⟨10,10,10⟩,⟨12,10,10⟩,⟨11,12,10⟩⟩] ∧
      r.soup.length = 1 + 1) ∧
     (∃ r : BoolResult, boolean (fun _ _ => none) jsSqrt
        [⟨⟨0,0,0⟩,⟨2,0,0⟩,⟨1,2,0⟩⟩] [⟨⟨10,10,10⟩,⟨12,10,10⟩,⟨11,12,10⟩⟩]
        .subtract = some r ∧
      r.soup = [⟨⟨0,0,0⟩,⟨2,0,0⟩,⟨1,2,0⟩⟩])) :=
  ⟨by decide, by decide, by decide,
    boolean_no_intersection_spec _ jsSqrt _ _ (by decide) (by decide) (by decide)⟩

/-! ## Claim C2: `boolean` returns `none` exactly in the sentinel cases -/

/-- C2.  For each of the three operations, `boolean` returns `none` exactly
when an input soup is empty, or the operation is intersect and the tagged
segment set is empty, or the combined soup assembled for the operation after
classification is empty; in every other case it returns a
`{soup, points, triangles}` record.  (The embedding is a total function, so
no call diverges or throws.) -/
theorem boolean_none_iff (F : DelaunayModel) (sq : SqrtFn)
    (soupA soupB : List Tri) (op : BoolOp) :
    boolean F sq soupA soupB op = none ↔
      soupA = [] ∨ soupB = [] ∨
      (intersectMeshPairTagged sq soupA soupB = [] ∧ op = .intersect) ∨
      (intersectMeshPairTagged sq soupA soupB ≠ [] ∧
        booleanCombined F sq soupA soupB
          (intersectMeshPairTagged sq soupA soupB) op = []) := by
  by_cases hA : soupA = []
  · simp [boolean, hA]
  · by_cases hB : soupB = []
    · simp [boolean, hA, hB, List.isEmpty_iff]
    · have hA' : soupA.isEmpty = false := by simpa [List.isEmpty_iff] using hA
      have hB' : soupB.isEmpty = false := by simpa [List.isEmpty_iff] using hB
      by_cases hseg : intersectMeshPairTagged sq soupA soupB = []
      · cases op <;> simp [boolean, hA', hB', hseg, hA, hB]
      · have hseg' : (intersectMeshPairTagged sq soupA soupB).isEmpty = false := by
          simpa [List.isEmpty_iff] using hseg
        by_cases hcomb : booleanCombined F sq soupA soupB
            (intersectMeshPairTagged sq soupA soupB) op = []
        · simp [boolean, hA', hB', hseg', hA, hB, hseg, hcomb]
        · have hcomb' : (booleanCombined F sq soupA soupB
              (intersectMeshPairTagged sq soupA soupB) op).isEmpty = false := by
            simpa [List.isEmpty_iff] using hcomb
          simp [boolean, hA', hB', hseg', hA, hB, hseg, hcomb, hcomb']

/-! ## Claim C4: the axis-combination rule of `classifyPointMultiAxis` -/

/-- The three per-axis votes (+Z, +X, +Y) that `classifyPointMultiAxis`
combines: each is `0` (no ray hit anything on that axis), `1` (inside) or
`2` (outside). -/
def axisVotes (point : V3) (otherTris : List Tri) (grids : Grids) : List ℕ :=
  [classifyPointOnAxis point otherTris grids.xy.grid grids.xy.cellSize .z,
   classifyPointOnAxis point otherTris grids.yz.grid grids.yz.cellSize .x,
   classifyPointOnAxis point otherTris grids.xz.grid grids.xz.cellSize .y]

/-- A per-axis vote is always `0`, `1` or `2`. -/
theorem classifyPointOnAxis_cases (point : V3) (otherTris : List Tri)
    (grid : Grid) (cellSize : ℚ) (axis : Axis) :
    classifyPointOnAxis point otherTris grid cellSize axis = 0 ∨
    classifyPointOnAxis point otherTris grid cellSize axis = 1 ∨
    classifyPointOnAxis point otherTris grid cellSize axis = 2 := by
  simp only [classifyPointOnAxis]
  split_ifs <;> simp

/-- C4.  `classifyPointMultiAxis` returns inside (`1`) exactly when at least
two axes vote inside, or exactly one axis had any ray hits and that axis
voted inside; in every other case (at least one outside vote with at most
one inside vote, or no axis with hits) it returns outside (`-1`). -/
theorem classifyPointMultiAxis_spec (point : V3) (otherTris : List Tri)
    (grids : Grids) :
    (classifyPointMultiAxis point otherTris grids = 1 ↔
      2 ≤ (axisVotes point otherTris grids).count 1 ∨
      (((axisVotes point otherTris grids).filter (fun v => v ≠ 0)).length = 1 ∧
        (axisVotes point otherTris grids).count 1 = 1)) ∧
    (classifyPointMultiAxis point otherTris grids = 1 ∨
     classifyPointMultiAxis point otherTris grids = -1) := by
  obtain hz | hz | hz := classifyPointOnAxis_cases point otherTris
      grids.xy.grid grids.xy.cellSize .z <;>
    obtain hx | hx | hx := classifyPointOnAxis_cases point otherTris
      grids.yz.grid grids.yz.cellSize .x <;>
    obtain hy | hy | hy := classifyPointOnAxis_cases point otherTris
      grids.xz.grid grids.xz.cellSize .y <;>
    simp [classifyPointMultiAxis, axisVotes, hz, hx, hy]

/-! ## Claim C10: `weldVertices` drops merged triangles -/

/-- Invariant of the weld state: grid buckets hold valid pool indices,
every pool point is registered in its home cell, and pool points are
pairwise distinct. -/
def WeldInv (cellSize : ℚ) (st : List V3 × Grid3) : Prop :=
  (∀ key idx, idx ∈ bucketGet st.2 key → idx < st.1.length) ∧
  (∀ i : ℕ, ∀ h : i < st.1.length,
    i ∈ bucketGet st.2 (weldHome cellSize (st.1.get ⟨i, h⟩))) ∧
  st.1.Nodup

theorem bucketGet_nil {K V : Type} [DecidableEq K] (k : K) :
    bucketGet ([] : List (K × List V)) k = [] := rfl

theorem bucketGet_cons {K V : Type} [DecidableEq K] (kh : K) (lh : List V)
    (t : List (K × List V)) (k : K) :
    bucketGet ((kh, lh) :: t) k = if k = kh then lh else bucketGet t k := by
  by_cases h : k = kh
  · subst h
    simp [bucketGet, List.find?]
  · have hd : (decide (kh = k)) = false := by
      simp [decide_eq_false_iff_not]
      exact fun heq => h heq.symm
    simp [bucketGet, List.find?, hd, h]

theorem bucketGet_bucketPush {K V : Type} [DecidableEq K]
    (m : List (K × List V)) (k k' : K) (v : V) :
    bucketGet (bucketPush m k v) k' =
      if k' = k then bucketGet m k' ++ [v] else bucketGet m k' := by
  induction m with
  | nil =>
      by_cases h : k' = k <;>
        simp [bucketPush, bucketGet_cons, bucketGet_nil, h]
  | cons hd tl ih =>
      obtain ⟨kh, lh⟩ := hd
      by_cases h1 : k = kh
      · subst h1
        by_cases h2 : k' = k <;>
          simp [bucketPush, bucketGet_cons, h2]
      · have hpush : bucketPush ((kh, lh) :: tl) k v =
            (kh, lh) :: bucketPush tl k v := by
          simp [bucketPush, h1]
        rw [hpush, bucketGet_cons]
        by_cases h2 : k' = kh
        · subst h2
          rw [if_pos rfl, if_neg (fun hh => h1 hh.symm), bucketGet_cons,
            if_pos rfl]
        · rw [if_neg h2, ih, bucketGet_cons, if_neg h2]

/-- The home cell itself is among the 27 scanned cells. -/
theorem home_mem_neighborCells (gx gy gz : ℤ) :
    (gx, gy, gz) ∈ neighborCells gx gy gz := by
  have h0 : (0 : ℤ) ∈ intRange (-1) 1 := by decide
  simp only [neighborCells, List.mem_flatMap, List.mem_map]
  exact ⟨0, h0, 0, h0, 0, h0, by simp⟩

/-- If `v` is already a pool point, the weld lookup finds something. -/
theorem weldLookup_isSome_of_mem (points : List V3) (grid : Grid3)
    (cellSize tolSq : ℚ) (v : V3) (htol : 0 ≤ tolSq)
    (hinv : WeldInv cellSize (points, grid)) (hv : v ∈ points) :
    (weldLookup points grid cellSize tolSq v).isSome := by
  obtain ⟨⟨i, hi⟩, rfl⟩ := List.mem_iff_get.mp hv
  rw [weldLookup, List.find?_isSome]
  refine ⟨i, ?_, ?_⟩
  · rw [List.mem_flatMap]
    exact ⟨weldHome cellSize (points.get ⟨i, hi⟩),
      home_mem_neighborCells _ _ _, hinv.2.1 i hi⟩
  · have h1 : points.getD i ⟨0, 0, 0⟩ = points[i] := by
      simp [List.getD_eq_getElem?_getD, List.getElem?_eq_getElem hi]
    have h2 : points.get ⟨i, hi⟩ = points[i] := rfl
    simp only [h1, h2, distSq3, decide_eq_true_eq]
    simpa using htol

/-- `getOrAddPoint` preserves the weld invariant, returns a valid index,
and only appends to the pool. -/
theorem getOrAddPoint_spec (cellSize tolSq : ℚ) (st : List V3 × Grid3)
    (v : V3) (htol : 0 ≤ tolSq) (hinv : WeldInv cellSize st) :
    WeldInv cellSize (getOrAddPoint cellSize tolSq st v).1 ∧
    (getOrAddPoint cellSize tolSq st v).2 <
      (getOrAddPoint cellSize tolSq st v).1.1.length ∧
    (∃ tail, (getOrAddPoint cellSize tolSq st v).1.1 = st.1 ++ tail) := by
  obtain ⟨pts, grid⟩ := st
  cases hl : weldLookup pts grid cellSize tolSq v with
  | some idx =>
      simp only [getOrAddPoint, hl]
      refine ⟨hinv, ?_, ⟨[], by simp⟩⟩
      have hmem := List.mem_of_find?_eq_some hl
      rw [List.mem_flatMap] at hmem
      obtain ⟨key, _, hkey⟩ := hmem
      exact hinv.1 key idx hkey
  | none =>
      have hvnot : v ∉ pts := by
        intro hv
        have := weldLookup_isSome_of_mem pts grid cellSize tolSq v htol hinv hv
        rw [hl] at this
        simp at this
      simp only [getOrAddPoint, hl]
      refine ⟨⟨?_, ?_, ?_⟩, ?_, ⟨[v], rfl⟩⟩
      · intro key idx hmem
        simp only [bucketGet_bucketPush] at hmem
        simp only [List.length_append, List.length_singleton]
        by_cases hk : key = weldHome cellSize v
        · rw [if_pos hk] at hmem
          rcases List.mem_append.mp hmem with h | h
          · exact Nat.lt_succ_of_lt (hinv.1 key idx h)
          · simp only [List.mem_singleton] at h
            simp [h]
        · rw [if_neg hk] at hmem
          exact Nat.lt_succ_of_lt (hinv.1 key idx hmem)
      · intro i hi
        simp only [bucketGet_bucketPush]
        have hi' : i < pts.length + 1 := by simpa using hi
        rcases Nat.lt_succ_iff_lt_or_eq.mp hi' with h | h
        · have hget : (pts ++ [v]).get ⟨i, hi⟩ = pts.get ⟨i, h⟩ := by
            simp [List.getElem_append_left h]
          rw [hget]
          by_cases hk : weldHome cellSize (pts.get ⟨i, h⟩) = weldHome cellSize v
          · rw [if_pos hk]
            exact List.mem_append_left _ (hinv.2.1 i h)
          · rw [if_neg hk]
            exact hinv.2.1 i h
        · subst h
          have hget : (pts ++ [v]).get ⟨pts.length, hi⟩ = v := by
            simp
          rw [hget, if_pos rfl]
          exact List.mem_append_right _ (by simp)
      · refine List.nodup_append.mpr ⟨hinv.2.2, List.nodup_singleton v, ?_⟩
        intro a ha hav
        rw [List.mem_singleton] at hav
        subst hav
        exact hvnot ha
      · simp

/-- Pairwise-distinct stored vertices of a welded triangle. -/
def WeldedTri.distinct (t : WeldedTri) : Prop :=
  t.w0 ≠ t.w1 ∧ t.w1 ≠ t.w2 ∧ t.w0 ≠ t.w2

theorem getD_eq_get_of_lt {α : Type} (l : List α) (d : α) (i : ℕ)
    (h : i < l.length) : l.getD i d = l.get ⟨i, h⟩ := by
  simp [List.getD_eq_getElem?_getD, List.getElem?_eq_getElem h]

/-- Definitional unfolding of `weldStep`. -/
theorem weldStep_eq (cellSize tolSq : ℚ)
    (st : (List V3 × Grid3) × List WeldedTri) (tri : Tri) :
    weldStep cellSize tolSq st tri =
      if (getOrAddPoint cellSize tolSq st.1 tri.v0).2 =
          (getOrAddPoint cellSize tolSq
            (getOrAddPoint cellSize tolSq st.1 tri.v0).1 tri.v1).2 ∨
        (getOrAddPoint cellSize tolSq
            (getOrAddPoint cellSize tolSq st.1 tri.v0).1 tri.v1).2 =
          (getOrAddPoint cellSize tolSq (getOrAddPoint cellSize tolSq
            (getOrAddPoint cellSize tolSq st.1 tri.v0).1 tri.v1).1 tri.v2).2 ∨
        (getOrAddPoint cellSize tolSq st.1 tri.v0).2 =
          (getOrAddPoint cellSize tolSq (getOrAddPoint cellSize tolSq
            (getOrAddPoint cellSize tolSq st.1 tri.v0).1 tri.v1).1 tri.v2).2 then
        ((getOrAddPoint cellSize tolSq (getOrAddPoint cellSize tolSq
          (getOrAddPoint cellSize tolSq st.1 tri.v0).1 tri.v1).1 tri.v2).1, st.2)
      else
        ((getOrAddPoint cellSize tolSq (getOrAddPoint cellSize tolSq
          (getOrAddPoint cellSize tolSq st.1 tri.v0).1 tri.v1).1 tri.v2).1,
         st.2 ++ [⟨(getOrAddPoint cellSize tolSq (getOrAddPoint cellSize tolSq
             (getOrAddPoint cellSize tolSq st.1 tri.v0).1 tri.v1).1 tri.v2).1.1.getD
             (getOrAddPoint cellSize tolSq st.1 tri.v0).2 ⟨0, 0, 0⟩,
           (getOrAddPoint cellSize tolSq (getOrAddPoint cellSize tolSq
             (getOrAddPoint cellSize tolSq st.1 tri.v0).1 tri.v1).1 tri.v2).1.1.getD
             (getOrAddPoint cellSize tolSq
               (getOrAddPoint cellSize tolSq st.1 tri.v0).1 tri.v1).2 ⟨0, 0, 0⟩,
           (getOrAddPoint cellSize tolSq (getOrAddPoint cellSize tolSq
             (getOrAddPoint cellSize tolSq st.1 tri.v0).1 tri.v1).1 tri.v2).1.1.getD
             (getOrAddPoint cellSize tolSq (getOrAddPoint cellSize tolSq
               (getOrAddPoint cellSize tolSq st.1 tri.v0).1 tri.v1).1 tri.v2).2
             ⟨0, 0, 0⟩⟩]) := rfl

/-- One weld step preserves the invariant, appends at most one triangle,
and any appended triangle has pairwise-distinct vertices. -/
theorem weldStep_spec (cellSize tolSq : ℚ) (htol : 0 ≤ tolSq)
    (st : (List V3 × Grid3) × List WeldedTri) (tri : Tri)
    (hinv : WeldInv cellSize st.1)
    (hts : ∀ t ∈ st.2, t.distinct) :
    WeldInv cellSize (weldStep cellSize tolSq st tri).1 ∧
    (∀ t ∈ (weldStep cellSize tolSq st tri).2, t.distinct) ∧
    (weldStep cellSize tolSq st tri).2.length ≤ st.2.length + 1 := by
  obtain ⟨hinv0, hlt0, t0, ht0⟩ :=
    getOrAddPoint_spec cellSize tolSq st.1 tri.v0 htol hinv
  rw [weldStep_eq]
  generalize hg0 : getOrAddPoint cellSize tolSq st.1 tri.v0 = r0 at hinv0 hlt0 ht0 ⊢
  obtain ⟨hinv1, hlt1, t1, ht1⟩ :=
    getOrAddPoint_spec cellSize tolSq r0.1 tri.v1 htol hinv0
  generalize hg1 : getOrAddPoint cellSize tolSq r0.1 tri.v1 = r1 at hinv1 hlt1 ht1 ⊢
  obtain ⟨hinv2, hlt2, t2, ht2⟩ :=
    getOrAddPoint_spec cellSize tolSq r1.1 tri.v2 htol hinv1
  generalize hg2 : getOrAddPoint cellSize tolSq r1.1 tri.v2 = r2 at hinv2 hlt2 ht2 ⊢
  have hlen01 : r0.1.1.length ≤ r1.1.1.length := by
    rw [ht1]
    simp
  have hlen12 : r1.1.1.length ≤ r2.1.1.length := by
    rw [ht2]
    simp
  have hb0 : r0.2 < r2.1.1.length := lt_of_lt_of_le hlt0 (le_trans hlen01 hlen12)
  have hb1 : r1.2 < r2.1.1.length := lt_of_lt_of_le hlt1 hlen12
  have hb2 : r2.2 < r2.1.1.length := hlt2
  split_ifs with hguard
  · exact ⟨hinv2, hts, Nat.le_succ_of_le le_rfl⟩
  · push_neg at hguard
    have hnd := hinv2.2.2
    have hne : ∀ i j : ℕ, ∀ hi : i < r2.1.1.length, ∀ hj : j < r2.1.1.length,
        i ≠ j → r2.1.1.getD i ⟨0, 0, 0⟩ ≠ r2.1.1.getD j ⟨0, 0, 0⟩ := by
      intro i j hi hj hij
      rw [getD_eq_get_of_lt _ _ _ hi, getD_eq_get_of_lt _ _ _ hj]
      intro heq
      have := (List.Nodup.get_inj_iff hnd).mp heq
      exact hij (by simpa using this)
    refine ⟨hinv2, ?_, by simp⟩
    intro t ht
    rcases List.mem_append.mp ht with h | h
    · exact hts t h
    · rw [List.mem_singleton] at h
      subst h
      exact ⟨hne _ _ hb0 hb1 hguard.1, hne _ _ hb1 hb2 hguard.2.1,
        hne _ _ hb0 hb2 hguard.2.2⟩

/-- C10.  For every soup and every tolerance `> 0`, `weldVertices` emits an
indexed triangle only when its three vertices weld to three pairwise
distinct pool points — every emitted triangle stores three pairwise
distinct vertices — and triangles that merge to fewer than three points are
silently dropped, so the output triangle list is at most as long as the
input soup. -/
theorem weldVertices_drops_merged (tris : List Tri) (tol : ℚ)
    (htol : 0 < tol) :
    (weldVertices tris tol).triangles.length ≤ tris.length ∧
    ∀ t ∈ (weldVertices tris tol).triangles, t.distinct := by
  have hfold : ∀ (l : List Tri) (st : (List V3 × Grid3) × List WeldedTri),
      WeldInv (max (tol * 2) (2 / 1000)) st.1 → (∀ t ∈ st.2, t.distinct) →
      (∀ t ∈ (l.foldl (weldStep (max (tol * 2) (2 / 1000)) (tol * tol)) st).2,
        t.distinct) ∧
      (l.foldl (weldStep (max (tol * 2) (2 / 1000)) (tol * tol)) st).2.length ≤
        st.2.length + l.length := by
    intro l
    induction l with
    | nil =>
        intro st hinv hts
        exact ⟨hts, by simp⟩
    | cons hd tl ih =>
        intro st hinv hts
        obtain ⟨hinv2, hts2, hlen2⟩ := weldStep_spec (max (tol * 2) (2 / 1000))
          (tol * tol) (mul_self_nonneg tol) st hd hinv hts
        obtain ⟨ha, hb⟩ := ih _ hinv2 hts2
        refine ⟨by simpa using ha, ?_⟩
        simp only [List.foldl_cons, List.length_cons]
        omega
  have hinit : WeldInv (max (tol * 2) (2 / 1000)) (([] : List V3), ([] : Grid3)) := by
    refine ⟨?_, ?_, List.nodup_nil⟩
    · intro key idx h
      simp [bucketGet_nil] at h
    · intro i hi
      simp at hi
  have hmain := hfold tris ((([] : List V3), ([] : Grid3)), ([] : List WeldedTri))
    hinit (by simp)
  have hne2 : ¬ tol ≤ 0 := not_le.mpr htol
  simp only [weldVertices, if_neg hne2]
  exact ⟨by simpa using hmain.2, hmain.1⟩

unseal Rat.add Rat.mul Rat.sub Rat.inv in
/-- C10 witness: tolerance `10⁻³`, one healthy triangle plus one sliver
whose short edge welds shut (the output keeps only the healthy triangle,
with distinct vertices). -/
theorem weldVertices_drops_merged_witness :
    (0 : ℚ) < 1 / 1000 ∧
    ((weldVertices [⟨⟨0,0,0⟩,⟨2,0,0⟩,⟨1,2,0⟩⟩,
        ⟨⟨0,0,0⟩,⟨0,0,1/10^5⟩,⟨1,0,0⟩⟩] (1/1000)).triangles.length ≤ 2 ∧
      ∀ t ∈ (weldVertices [⟨⟨0,0,0⟩,⟨2,0,0⟩,⟨1,2,0⟩⟩,
        ⟨⟨0,0,0⟩,⟨0,0,1/10^5⟩,⟨1,0,0⟩⟩] (1/1000)).triangles, t.distinct) :=
  ⟨by norm_num, weldVertices_drops_merged _ _ (by norm_num)⟩

/-! ## Claim C8: failure behaviour of `retriangulateWithSteinerPoints` -/

/-- C8.  `retriangulateWithSteinerPoints` always returns a non-empty list,
and in each failure case — degenerate 2-D frame or barycentric determinant
(any length or `|det|` below `1e-12`, i.e. `triFrame` rejects), no Steiner
endpoint surviving validation, failure of the Delaunay triangulation, or
the centroid/area filter discarding every sub-triangle — it returns exactly
`[tri]`, the parent triangle unchanged. -/
theorem retriangulate_failure_spec (F : DelaunayModel) (sq : SqrtFn)
    (tri : Tri) (segments : List TaggedSeg) :
    retriangulateWithSteinerPoints F sq tri segments ≠ [] ∧
    (triFrame sq tri = none →
      retriangulateWithSteinerPoints F sq tri segments = [tri]) ∧
    (∀ fr, triFrame sq tri = some fr →
      collectSteiner fr tri segments = [] →
      retriangulateWithSteinerPoints F sq tri segments = [tri]) ∧
    (∀ fr, triFrame sq tri = some fr →
      F ((steinerPts tri (collectSteiner fr tri segments)).map fr.toLocal)
        (steinerConstraints tri (collectSteiner fr tri segments) segments) =
          none →
      retriangulateWithSteinerPoints F sq tri segments = [tri]) ∧
    (∀ fr delTris, triFrame sq tri = some fr →
      F ((steinerPts tri (collectSteiner fr tri segments)).map fr.toLocal)
        (steinerConstraints tri (collectSteiner fr tri segments) segments) =
          some delTris →
      filterSubTris fr (steinerPts tri (collectSteiner fr tri segments))
        ((steinerPts tri (collectSteiner fr tri segments)).map fr.toLocal)
        delTris = [] →
      retriangulateWithSteinerPoints F sq tri segments = [tri]) := by
  refine ⟨?_, ?_, ?_, ?_, ?_⟩
  · by_cases h1 : segments.isEmpty
    · simp [retriangulateWithSteinerPoints, h1]
    · cases h2 : triFrame sq tri with
      | none => simp [retriangulateWithSteinerPoints, h1, h2]
      | some fr =>
        by_cases h3 : (collectSteiner fr tri segments).isEmpty
        · simp [retriangulateWithSteinerPoints, h1, h2, h3]
        · cases h4 : F ((steinerPts tri (collectSteiner fr tri segments)).map
              fr.toLocal)
              (steinerConstraints tri (collectSteiner fr tri segments)
                segments) with
          | none => simp [retriangulateWithSteinerPoints, h1, h2, h3, h4]
          | some delTris =>
            by_cases h5 : (filterSubTris fr
                (steinerPts tri (collectSteiner fr tri segments))
                ((steinerPts tri (collectSteiner fr tri segments)).map
                  fr.toLocal) delTris).isEmpty
            · simp [retriangulateWithSteinerPoints, h1, h2, h3, h4, h5]
            · have h5' : filterSubTris fr
                  (steinerPts tri (collectSteiner fr tri segments))
                  ((steinerPts tri (collectSteiner fr tri segments)).map
                    fr.toLocal) delTris ≠ [] := by
                simpa [List.isEmpty_iff] using h5
              simp [retriangulateWithSteinerPoints, h1, h2, h3, h4, h5, h5']
  · intro hfr
    simp [retriangulateWithSteinerPoints, hfr]
  · intro fr hfr hcs
    simp [retriangulateWithSteinerPoints, hfr, hcs]
  · intro fr hfr hF
    simp [retriangulateWithSteinerPoints, hfr, hF]
  · intro fr delTris hfr hF hfl
    simp [retriangulateWithSteinerPoints, hfr, hF, hfl]

unseal Rat.add Rat.mul Rat.sub Rat.inv in
/-- C8 witness: a degenerate (zero-area) parent triangle with one crossing
segment is returned unchanged via the degenerate-frame case. -/
theorem retriangulate_failure_spec_witness :
    triFrame jsSqrt ⟨⟨0,0,0⟩,⟨0,0,0⟩,⟨0,0,0⟩⟩ = none ∧
    retriangulateWithSteinerPoints (fun _ _ => none) jsSqrt
      ⟨⟨0,0,0⟩,⟨0,0,0⟩,⟨0,0,0⟩⟩
      [⟨⟨0,0,0⟩, ⟨1,0,0⟩, 0, 0⟩] = [⟨⟨0,0,0⟩,⟨0,0,0⟩,⟨0,0,0⟩⟩] :=
  ⟨by decide, (retriangulate_failure_spec (fun _ _ => none) jsSqrt
      ⟨⟨0,0,0⟩,⟨0,0,0⟩,⟨0,0,0⟩⟩ [⟨⟨0,0,0⟩, ⟨1,0,0⟩, 0, 0⟩]).2.1 (by decide)⟩

/-! ## Claim C7: winding propagation on manifold groups -/

/-- The claim's conclusion as a checker: for every edge key shared by
exactly two half-edges, the two triangles traverse the edge in opposite
directions (their directed half-edges start at different keys). -/
def orientedGroup (tris : List Tri) : Bool :=
  (propEdgeMap tris).all fun bucket =>
    match bucket.2 with
    | [h1, h2] => decide (h1.src ≠ h2.src)
    | _ => true

/-- The manifold test used by `propagateNormals`: every edge key shared by
exactly two half-edges. -/
def manifoldGroup (tris : List Tri) : Bool :=
  (propEdgeMap tris).all fun b => b.2.length = 2

theorem mem_of_mem_getD {α : Type} (ls : List (List α)) (i : ℕ) (e : α)
    (he : e ∈ ls.getD i []) : ∃ l ∈ ls, e ∈ l := by
  by_cases h : i < ls.length
  · rw [getD_eq_get_of_lt _ _ _ h] at he
    exact ⟨ls.get ⟨i, h⟩, List.get_mem _ _ _, he⟩
  · rw [List.getD_eq_getElem?_getD, List.getElem?_eq_none (le_of_not_lt h)] at he
    simp at he

theorem getD_false_of_allfalse (l : List Bool) (h : ∀ b ∈ l, b = false)
    (i : ℕ) : l.getD i false = false := by
  by_cases hi : i < l.length
  · rw [getD_eq_get_of_lt _ _ _ hi]
    exact h _ (List.get_mem _ _ _)
  · rw [List.getD_eq_getElem?_getD, List.getElem?_eq_none (le_of_not_lt hi)]
    rfl

theorem allP_set {α : Type} (P : α → Prop) (l : List α)
    (h : ∀ x ∈ l, P x) (i : ℕ) (v : α) (hv : P v) : ∀ x ∈ l.set i v, P x :=
  fun x hx => (List.mem_or_eq_of_mem_set hx).elim (h x) (fun he => he ▸ hv)

theorem foldI_preserves {α β : Type} (P : α → Prop) (f : α → β → α)
    (l : List β) (hf : ∀ a, P a → ∀ b ∈ l, P (f a b)) :
    ∀ a, P a → P (l.foldI a f) := by
  induction l with
  | nil =>
      intro a ha
      exact ha
  | cons x xs ih =>
      intro a ha
      rw [List.foldI_cons]
      exact ih (fun a' ha' b hb => hf a' ha' b (List.mem_cons_of_mem _ hb)) _
        (hf a ha x (List.mem_cons_self _ _))

theorem doubleSet_preserves (nbrs : List (List (ℕ × Bool)))
    (hn : ∀ l ∈ nbrs, ∀ e ∈ l, e.2 = false) (i j a b : ℕ) :
    ∀ l ∈ (nbrs.set i ((nbrs.getD i []) ++ [(a, false)])).set j
        (((nbrs.set i ((nbrs.getD i []) ++ [(a, false)])).getD j []) ++
          [(b, false)]),
      ∀ e ∈ l, e.2 = false := by
  have step1 : ∀ l ∈ nbrs.set i ((nbrs.getD i []) ++ [(a, false)]),
      ∀ e ∈ l, e.2 = false := by
    apply allP_set _ _ hn
    intro e he
    rcases List.mem_append.mp he with h | h
    · obtain ⟨l', hl', hel'⟩ := mem_of_mem_getD _ _ _ h
      exact hn l' hl' e hel'
    · rw [List.mem_singleton] at h
      subst h
      rfl
  apply allP_set _ _ step1
  intro e he
  rcases List.mem_append.mp he with h | h
  · obtain ⟨l', hl', hel'⟩ := mem_of_mem_getD _ _ _ h
    exact step1 l' hl' e hel'
  · rw [List.mem_singleton] at h
    subst h
    rfl

/-- In an already consistently oriented group, every neighbour entry built
by `propNeighbors` carries `sameDirection = false`. -/
theorem propNeighbors_flags (n : ℕ)
    (edgeMap : List ((VKey × VKey) × List HalfEdge))
    (hem : ∀ bucket ∈ edgeMap, ∀ h1 h2 : HalfEdge, bucket.2 = [h1, h2] →
      h1.src ≠ h2.src) :
    ∀ l ∈ propNeighbors n edgeMap, ∀ e ∈ l, e.2 = false := by
  unfold propNeighbors
  refine foldI_preserves
    (fun nbrs : List (List (ℕ × Bool)) => ∀ l ∈ nbrs, ∀ e ∈ l, e.2 = false) _
    edgeMap ?_ _ ?_
  · intro nbrs hn bucket hbucket
    rcases hb : bucket.2 with _ | ⟨t0, _ | ⟨t1, _ | ⟨t2, ts⟩⟩⟩
    · simpa only [hb] using hn
    · simpa only [hb] using hn
    · have hsd : decide (t0.src = t1.src) = false := by
        rw [decide_eq_false_iff_not]
        exact hem bucket hbucket t0 t1 hb
      simp only [hb, hsd]
      exact doubleSet_preserves nbrs hn t0.triIdx t1.triIdx t1.triIdx t0.triIdx
    · simpa only [hb] using hn
  · intro l hl
    rw [List.eq_of_mem_replicate hl]
    intro e he
    simp at he

/-- With all `sameDirection` flags false, the winding BFS never sets a flip
flag. -/
theorem windingBFS_flips_false (neighbors : List (List (ℕ × Bool)))
    (hnb : ∀ l ∈ neighbors, ∀ e ∈ l, e.2 = false) :
    ∀ (fuel : ℕ) (queue : List ℕ) (visited flipped : List Bool),
      (∀ b ∈ flipped, b = false) →
      ∀ b ∈ (windingBFS neighbors fuel queue visited flipped).2, b = false := by
  intro fuel
  induction fuel with
  | zero =>
      intro queue visited flipped hf
      simpa [windingBFS] using hf
  | succ fuel ih =>
      intro queue visited flipped hf
      cases queue with
      | nil => simpa [windingBFS] using hf
      | cons cur rest =>
          rw [windingBFS]
          apply ih
          have aux : ∀ (lst : List (ℕ × Bool)), (∀ e ∈ lst, e.2 = false) →
              ∀ acc : List ℕ × List Bool × List Bool,
              (∀ b ∈ acc.2.2, b = false) →
              ∀ b ∈ (lst.foldl (windingVisit cur) acc).2.2, b = false := by
            intro lst
            induction lst with
            | nil =>
                intro _ acc hacc
                exact hacc
            | cons e es ihe =>
                intro hlst acc hacc
                simp only [List.foldl_cons]
                apply ihe (fun x hx => hlst x (List.mem_cons_of_mem _ hx))
                have he2 : e.2 = false := hlst e (List.mem_cons_self _ _)
                have hcf : acc.2.2.getD cur false = false :=
                  getD_false_of_allfalse _ hacc cur
                unfold windingVisit
                split_ifs with hvis hb2
                · exact hacc
                · rw [he2] at hb2
                  exact absurd hb2 (by simp)
                · simp only [hcf]
                  exact allP_set _ _ hacc _ _ rfl
          apply aux _ ?_ _ ?_
          · intro e he
            obtain ⟨l', hl', hel'⟩ := mem_of_mem_getD _ _ _ he
            exact hnb l' hl' e hel'
          · exact hf

theorem propagateNormals_unfold (sq : SqrtFn) (tris : List Tri) :
    propagateNormals sq tris =
      if tris.isEmpty then tris
      else if ¬ ((propEdgeMap tris).all fun b => b.2.length = 2) then
        ensureZUpNormals sq tris
      else
        tris.enum.map fun p =>
          if (windingBFS (propNeighbors tris.length (propEdgeMap tris))
              tris.length [0] ((List.replicate tris.length false).set 0 true)
              (List.replicate tris.length false)).2.getD p.1 false then
            ⟨p.2.v0, p.2.v2, p.2.v1⟩ else p.2 := rfl

/-- An already consistently oriented manifold group is a fixed point of the
propagator: no flip flag is ever set, so the group is returned unchanged. -/
theorem propagateNormals_id_of_oriented (sq : SqrtFn) (tris : List Tri)
    (hman : manifoldGroup tris = true) (hor : orientedGroup tris = true) :
    propagateNormals sq tris = tris ∧
    orientedGroup (propagateNormals sq tris) = true := by
  suffices heq : propagateNormals sq tris = tris by
    exact ⟨heq, by rw [heq]; exact hor⟩
  by_cases hnil : tris.isEmpty
  · simp [propagateNormals, hnil]
  · have hman' : ((propEdgeMap tris).all fun b => b.2.length = 2) = true := hman
    have hflips : ∀ b ∈ (windingBFS (propNeighbors tris.length (propEdgeMap tris))
        tris.length [0] ((List.replicate tris.length false).set 0 true)
        (List.replicate tris.length false)).2, b = false := by
      apply windingBFS_flips_false
      · apply propNeighbors_flags
        intro bucket hbucket h1 h2 hb2
        have := List.all_eq_true.mp hor bucket hbucket
        rw [hb2] at this
        simpa using this
      · intro b hb
        exact List.eq_of_mem_replicate hb
    have hmap : ∀ p ∈ tris.enum,
        (if (windingBFS (propNeighbors tris.length (propEdgeMap tris))
            tris.length [0] ((List.replicate tris.length false).set 0 true)
            (List.replicate tris.length false)).2.getD p.1 false then
          (⟨p.2.v0, p.2.v2, p.2.v1⟩ : Tri) else p.2) = p.2 := by
      intro p _
      rw [getD_false_of_allfalse _ hflips p.1]
      simp
    rw [propagateNormals_unfold, if_neg hnil, if_neg (not_not_intro hman'),
      List.map_congr_left hmap]
    exact List.enum_map_snd tris

unseal Rat.add Rat.mul Rat.sub Rat.inv in
/-- C7 counterexample: a manifold four-triangle group made of two
edge-connected components — a consistently oriented doubled triangle and a
same-winding doubled triangle.  The BFS starts at triangle 0 and never
reaches the second component, so the emitted group still traverses the
shared edges of triangles 2 and 3 in the same direction. -/
theorem propagateNormals_counterexample :
    manifoldGroup [⟨⟨0,0,0⟩,⟨1,0,0⟩,⟨0,1,0⟩⟩, ⟨⟨0,0,0⟩,⟨0,1,0⟩,⟨1,0,0⟩⟩,
      ⟨⟨5,0,0⟩,⟨6,0,0⟩,⟨5,1,0⟩⟩, ⟨⟨5,0,0⟩,⟨6,0,0⟩,⟨5,1,0⟩⟩] = true ∧
    orientedGroup (propagateNormals jsSqrt
      [⟨⟨0,0,0⟩,⟨1,0,0⟩,⟨0,1,0⟩⟩, ⟨⟨0,0,0⟩,⟨0,1,0⟩,⟨1,0,0⟩⟩,
       ⟨⟨5,0,0⟩,⟨6,0,0⟩,⟨5,1,0⟩⟩, ⟨⟨5,0,0⟩,⟨6,0,0⟩,⟨5,1,0⟩⟩]) = false := by
  constructor
  · decide
  · decide


/-! ### C7 machinery: list update helpers -/

theorem getD_set_ne {α : Type} (l : List α) (i j : ℕ) (v d : α)
    (hij : i ≠ j) : (l.set i v).getD j d = l.getD j d := by
  rw [List.getD_eq_getElem?_getD, List.getD_eq_getElem?_getD,
    List.getElem?_set_ne hij]

theorem getD_set_self_lt {α : Type} (l : List α) (i : ℕ) (v d : α)
    (h : i < l.length) : (l.set i v).getD i d = v := by
  rw [List.getD_eq_getElem?_getD, List.getElem?_set_self h]
  rfl

theorem getD_set_ge {α : Type} (l : List α) (i j : ℕ) (v d : α)
    (h : l.length ≤ i) : (l.set i v).getD j d = l.getD j d := by
  rw [List.set_eq_of_length_le h]

theorem getD_set_true_mono (l : List Bool) (i j : ℕ)
    (h : l.getD i false = true) : (l.set j true).getD i false = true := by
  by_cases hij : j = i
  · subst hij
    by_cases hl : j < l.length
    · rw [getD_set_self_lt _ _ _ _ hl]
    · rw [getD_set_ge _ _ _ _ _ (le_of_not_lt hl)]
      exact h
  · rw [getD_set_ne _ _ _ _ _ hij]
    exact h

theorem getD_replicate_set_zero (n i : ℕ)
    (h : ((List.replicate n false).set 0 true).getD i false = true) :
    i = 0 := by
  by_contra hne
  rw [getD_set_ne _ _ _ _ _ (fun he => hne he.symm),
    List.getD_eq_getElem?_getD] at h
  rcases hlt : (List.replicate n false)[i]? with _ | b
  · rw [hlt] at h
    simp at h
  · have : b = false := by
      have := List.getElem?_mem hlt
      exact List.eq_of_mem_replicate this
    rw [hlt, this] at h
    simp at h

/-! ### C7 machinery: association-map well-formedness -/

theorem bucketPush_keys_subset {K V : Type} [DecidableEq K]
    (m : List (K × List V)) (k : K) (v : V) :
    ∀ k' ∈ (bucketPush m k v).map Prod.fst, k' ∈ m.map Prod.fst ∨ k' = k := by
  induction m with
  | nil =>
      intro k' hk'
      simp [bucketPush] at hk'
      exact Or.inr hk'
  | cons hd tl ih =>
      obtain ⟨kh, lh⟩ := hd
      intro k' hk'
      by_cases h1 : k = kh
      · subst h1
        simp only [bucketPush, if_pos rfl] at hk'
        exact Or.inl hk'
      · simp only [bucketPush, if_neg h1, List.map_cons, List.mem_cons] at hk'
        rcases hk' with h | h
        · exact Or.inl (by simp [h])
        · rcases ih k' h with h2 | h2
          · exact Or.inl (List.mem_cons_of_mem _ h2)
          · exact Or.inr h2

theorem bucketPush_keys_nodup {K V : Type} [DecidableEq K]
    (m : List (K × List V)) (k : K) (v : V)
    (h : (m.map Prod.fst).Nodup) :
    ((bucketPush m k v).map Prod.fst).Nodup := by
  induction m with
  | nil => simp [bucketPush]
  | cons hd tl ih =>
      obtain ⟨kh, lh⟩ := hd
      simp only [List.map_cons, List.nodup_cons] at h
      by_cases h1 : k = kh
      · subst h1
        have hstep : bucketPush ((k, lh) :: tl) k v = (k, lh ++ [v]) :: tl := by
          simp [bucketPush]
        rw [hstep, List.map_cons, List.nodup_cons]
        exact h
      · simp only [bucketPush, if_neg h1, List.map_cons, List.nodup_cons]
        refine ⟨?_, ih h.2⟩
        intro hmem
        rcases bucketPush_keys_subset tl k v kh hmem with h2 | h2
        · exact h.1 h2
        · exact h1 h2.symm

theorem bucketGet_of_mem_nodup {K V : Type} [DecidableEq K]
    (m : List (K × List V)) (h : (m.map Prod.fst).Nodup) :
    ∀ p ∈ m, bucketGet m p.1 = p.2 := by
  induction m with
  | nil =>
      intro p hp
      simp at hp
  | cons hd tl ih =>
      obtain ⟨kh, lh⟩ := hd
      simp only [List.map_cons, List.nodup_cons] at h
      intro p hp
      rcases List.mem_cons.mp hp with h1 | h1
      · subst h1
        rw [bucketGet_cons, if_pos rfl]
      · have hne : p.1 ≠ kh := by
          intro he
          exact h.1 (he ▸ List.mem_map_of_mem Prod.fst h1)
        rw [bucketGet_cons, if_neg hne]
        exact ih h.2 p h1

theorem mem_of_bucketGet_ne_nil {K V : Type} [DecidableEq K]
    (m : List (K × List V)) (k : K) (h : bucketGet m k ≠ []) :
    (k, bucketGet m k) ∈ m := by
  induction m with
  | nil => exact absurd rfl h
  | cons hd tl ih =>
      obtain ⟨kh, lh⟩ := hd
      by_cases h1 : k = kh
      · subst h1
        rw [bucketGet_cons, if_pos rfl]
        exact List.mem_cons_self _ _
      · rw [bucketGet_cons, if_neg h1]
        rw [bucketGet_cons, if_neg h1] at h
        exact List.mem_cons_of_mem _ (ih h)

theorem bucketPush_entry_mem {K V : Type} [DecidableEq K]
    (m : List (K × List V)) (k : K) (v : V) :
    ∀ p ∈ bucketPush m k v, ∀ x ∈ p.2,
      (∃ q ∈ m, q.1 = p.1 ∧ x ∈ q.2) ∨ (p.1 = k ∧ x = v) := by
  induction m with
  | nil =>
      intro p hp x hx
      simp only [bucketPush, List.mem_singleton] at hp
      subst hp
      simp only [List.mem_singleton] at hx
      exact Or.inr ⟨rfl, hx⟩
  | cons hd tl ih =>
      obtain ⟨kh, lh⟩ := hd
      intro p hp x hx
      by_cases h1 : k = kh
      · subst h1
        have hstep : bucketPush ((k, lh) :: tl) k v = (k, lh ++ [v]) :: tl := by
          simp [bucketPush]
        rw [hstep, List.mem_cons] at hp
        rcases hp with h2 | h2
        · subst h2
          rcases List.mem_append.mp hx with h3 | h3
          · exact Or.inl ⟨(k, lh), List.mem_cons_self _ _, rfl, h3⟩
          · rw [List.mem_singleton] at h3
            exact Or.inr ⟨rfl, h3⟩
        · exact Or.inl ⟨p, List.mem_cons_of_mem _ h2, rfl, hx⟩
      · simp only [bucketPush, if_neg h1, List.mem_cons] at hp
        rcases hp with h2 | h2
        · subst h2
          exact Or.inl ⟨(kh, lh), List.mem_cons_self _ _, rfl, hx⟩
        · rcases ih p h2 x hx with ⟨q, hq, hq1, hq2⟩ | h3
          · exact Or.inl ⟨q, List.mem_cons_of_mem _ hq, hq1, hq2⟩
          · exact Or.inr h3

/-! ### C7 machinery: canonical edge keys -/

theorem keyLt_asymm (a b : VKey) (h : keyLt a b = true) : keyLt b a = false := by
  unfold keyLt at h ⊢
  rw [decide_eq_true_iff] at h
  rw [decide_eq_false_iff_not]
  omega

theorem edgeKey_comm (a b : VKey) : edgeKey a b = edgeKey b a := by
  unfold edgeKey
  by_cases h1 : keyLt a b = true
  · rw [if_pos h1, if_neg (by rw [keyLt_asymm a b h1]; exact Bool.false_ne_true)]
  · by_cases h2 : keyLt b a = true
    · rw [if_neg h1, if_pos h2]
    · rw [if_neg h1, if_neg h2]
      have hab : a = b := by
        simp only [keyLt, decide_eq_true_iff] at h1 h2
        have e1 : fxEnc a.1 = fxEnc b.1 := by omega
        have e2 : fxEnc a.2.1 = fxEnc b.2.1 := by omega
        have e3 : fxEnc a.2.2 = fxEnc b.2.2 := by omega
        have hinj : ∀ p q : Bool × ℕ, fxEnc p = fxEnc q → p = q := by
          intro p q hpq
          unfold fxEnc at hpq
          rcases p with ⟨pb, pn⟩
          rcases q with ⟨qb, qn⟩
          cases pb <;> cases qb <;> simp at hpq ⊢ <;> omega
        obtain ⟨a1, a2, a3⟩ := a
        obtain ⟨b1, b2, b3⟩ := b
        simp only [Prod.mk.injEq]
        exact ⟨hinj _ _ e1, hinj _ _ e2, hinj _ _ e3⟩
      rw [hab]

theorem edgeKey_eq_cases (a b c d : VKey) (h : edgeKey a b = edgeKey c d) :
    (c = a ∧ d = b) ∨ (c = b ∧ d = a) := by
  unfold edgeKey at h
  split_ifs at h <;>
    · rw [Prod.mk.injEq] at h
      tauto

/-! ### C7 machinery: structure of the half-edge map -/

/-- The per-triangle step of `propEdgeMap`, factored out by name. -/
def edgeStep (m : List ((VKey × VKey) × List HalfEdge)) (p : ℕ × Tri) :
    List ((VKey × VKey) × List HalfEdge) :=
  let k0 := vKey p.2.v0
  let k1 := vKey p.2.v1
  let k2 := vKey p.2.v2
  [(k0, k1), (k1, k2), (k2, k0)].foldI m fun m e =>
    bucketPush m (edgeKey e.1 e.2) ⟨p.1, e.1, e.2⟩

theorem propEdgeMap_eq_fold (tris : List Tri) :
    propEdgeMap tris = tris.enum.foldI [] edgeStep := rfl

theorem edgeStep_expand (m : List ((VKey × VKey) × List HalfEdge))
    (p : ℕ × Tri) :
    edgeStep m p =
      bucketPush
        (bucketPush
          (bucketPush m (edgeKey (vKey p.2.v0) (vKey p.2.v1))
            ⟨p.1, vKey p.2.v0, vKey p.2.v1⟩)
          (edgeKey (vKey p.2.v1) (vKey p.2.v2))
          ⟨p.1, vKey p.2.v1, vKey p.2.v2⟩)
        (edgeKey (vKey p.2.v2) (vKey p.2.v0))
        ⟨p.1, vKey p.2.v2, vKey p.2.v0⟩ := rfl

theorem edgeStep_keys_nodup (m : List ((VKey × VKey) × List HalfEdge))
    (p : ℕ × Tri) (h : (m.map Prod.fst).Nodup) :
    ((edgeStep m p).map Prod.fst).Nodup := by
  rw [edgeStep_expand]
  exact bucketPush_keys_nodup _ _ _
    (bucketPush_keys_nodup _ _ _ (bucketPush_keys_nodup _ _ _ h))

theorem propEdgeMap_keys_nodup (tris : List Tri) :
    ((propEdgeMap tris).map Prod.fst).Nodup := by
  rw [propEdgeMap_eq_fold]
  refine foldI_preserves
    (fun m : List ((VKey × VKey) × List HalfEdge) => (m.map Prod.fst).Nodup)
    edgeStep tris.enum ?_ [] (by simp)
  intro m hm p _
  exact edgeStep_keys_nodup m p hm

/-- Provenance of the half-edge map's entries: every entry of a bucket has
that bucket's canonical key, an in-range triangle index, and is one of the
three directed edges of a triangle of the soup. -/
theorem propEdgeMap_entries (tris : List Tri) :
    ∀ p ∈ propEdgeMap tris, ∀ h ∈ p.2,
      edgeKey h.src h.dst = p.1 ∧ h.triIdx < tris.length ∧
      ∃ t ∈ tris, (h.src, h.dst) ∈
        [(vKey t.v0, vKey t.v1), (vKey t.v1, vKey t.v2),
         (vKey t.v2, vKey t.v0)] := by
  rw [propEdgeMap_eq_fold]
  refine foldI_preserves
    (fun m : List ((VKey × VKey) × List HalfEdge) =>
      ∀ p ∈ m, ∀ h ∈ p.2,
        edgeKey h.src h.dst = p.1 ∧ h.triIdx < tris.length ∧
        ∃ t ∈ tris, (h.src, h.dst) ∈
          [(vKey t.v0, vKey t.v1), (vKey t.v1, vKey t.v2),
           (vKey t.v2, vKey t.v0)])
    edgeStep tris.enum ?_ [] (by intro p hp; simp at hp)
  intro m hm q hq
  have hql : q.1 < tris.length := by
    have := List.mem_enum_iff_get?.mp hq
    have hlt := List.get?_eq_some.mp this
    exact hlt.1
  have hqt : q.2 ∈ tris := by
    have := List.mem_enum_iff_get?.mp hq
    exact List.get?_mem this
  have hpush : ∀ (m' : List ((VKey × VKey) × List HalfEdge)) (a b : VKey),
      (∀ p ∈ m', ∀ h ∈ p.2,
        edgeKey h.src h.dst = p.1 ∧ h.triIdx < tris.length ∧
        ∃ t ∈ tris, (h.src, h.dst) ∈
          [(vKey t.v0, vKey t.v1), (vKey t.v1, vKey t.v2),
           (vKey t.v2, vKey t.v0)]) →
      (a, b) ∈ [(vKey q.2.v0, vKey q.2.v1), (vKey q.2.v1, vKey q.2.v2),
        (vKey q.2.v2, vKey q.2.v0)] →
      ∀ p ∈ bucketPush m' (edgeKey a b) (⟨q.1, a, b⟩ : HalfEdge), ∀ h ∈ p.2,
        edgeKey h.src h.dst = p.1 ∧ h.triIdx < tris.length ∧
        ∃ t ∈ tris, (h.src, h.dst) ∈
          [(vKey t.v0, vKey t.v1), (vKey t.v1, vKey t.v2),
           (vKey t.v2, vKey t.v0)] := by
    intro m' a b hm' hab p hp h hh
    rcases bucketPush_entry_mem m' (edgeKey a b) ⟨q.1, a, b⟩ p hp h hh with
      ⟨r, hr, hr1, hr2⟩ | ⟨hk, hv⟩
    · obtain ⟨he, hi, ht⟩ := hm' r hr h hr2
      exact ⟨hr1 ▸ he, hi, ht⟩
    · subst hv
      exact ⟨hk ▸ rfl, hql, q.2, hqt, hab⟩
  rw [edgeStep_expand]
  refine hpush _ _ _ (hpush _ _ _ (hpush _ _ _ hm ?_) ?_) ?_
  · simp
  · simp
  · simp

/-! ### C7 machinery: flip assignments -/

/-- Apply a flip assignment to one half-edge record: flipping a triangle
reverses the direction of each of its directed edges. -/
def flipHE (F : List Bool) (h : HalfEdge) : HalfEdge :=
  if F.getD h.triIdx false then ⟨h.triIdx, h.dst, h.src⟩ else h

/-- `G` is a consistent orientation of the soup: applying the flips `G`
makes every edge shared by exactly two half-edges traversed in opposite
directions.  (The necessary and sufficient condition for any winding
repair to exist.) -/
def flipsOrient (tris : List Tri) (G : List Bool) : Bool :=
  (propEdgeMap tris).all fun bucket =>
    match bucket.2 with
    | [h0, h1] => decide ((flipHE G h0).src ≠ (flipHE G h1).src)
    | _ => true

/-- The winding BFS exactly as `propagateNormals` invokes it. -/
def windingBFSResult (tris : List Tri) : List Bool × List Bool :=
  windingBFS (propNeighbors tris.length (propEdgeMap tris)) tris.length [0]
    ((List.replicate tris.length false).set 0 true)
    (List.replicate tris.length false)

/-- The group's adjacency graph is connected from triangle 0: the winding
BFS of `propagateNormals` marks every triangle visited. -/
def connectedGroup (tris : List Tri) : Bool :=
  (windingBFSResult tris).1.all (fun b => b)

/-- No triangle collapses an edge at key precision: the three vertex keys
of every triangle are pairwise distinct. -/
def distinctVertexKeys (tris : List Tri) : Bool :=
  tris.all fun t =>
    decide (vKey t.v0 ≠ vKey t.v1) && decide (vKey t.v1 ≠ vKey t.v2) &&
      decide (vKey t.v2 ≠ vKey t.v0)

theorem flipHE_src (F : List Bool) (h : HalfEdge) :
    (flipHE F h).src = if F.getD h.triIdx false then h.dst else h.src := by
  unfold flipHE
  split <;> rfl

/-- For two half-edges over the same nondegenerate unordered edge, the
flipped traversals differ exactly when the xor of the two flip flags
matches the `sameDirection` flag of the unflipped pair. -/
theorem flip_src_ne_iff (h0 h1 : HalfEdge) (A B : Bool)
    (hsh : (h1.src = h0.src ∧ h1.dst = h0.dst) ∨
      (h1.src = h0.dst ∧ h1.dst = h0.src))
    (hnd : h0.src ≠ h0.dst) :
    ((if A then h0.dst else h0.src) ≠ (if B then h1.dst else h1.src)) ↔
      xor A B = decide (h0.src = h1.src) := by
  rcases hsh with ⟨hs, hd⟩ | ⟨hs, hd⟩ <;> rw [hs, hd] <;>
    cases A <;> cases B <;>
      simp [hnd, Ne.symm hnd]

/-! ### C7 machinery: the neighbour lists carry the xor of any consistent
assignment -/

theorem setAppend_xorP (G : List Bool) (nbrs : List (List (ℕ × Bool)))
    (i j : ℕ) (s : Bool)
    (hP : ∀ a, ∀ e ∈ nbrs.getD a [], xor (G.getD a false) (G.getD e.1 false) = e.2)
    (hnew : xor (G.getD i false) (G.getD j false) = s) :
    ∀ a, ∀ e ∈ (nbrs.set i ((nbrs.getD i []) ++ [(j, s)])).getD a [],
      xor (G.getD a false) (G.getD e.1 false) = e.2 := by
  intro a e he
  by_cases hai : i = a
  · subst hai
    by_cases hlen : i < nbrs.length
    · rw [getD_set_self_lt _ _ _ _ hlen] at he
      rcases List.mem_append.mp he with h | h
      · exact hP i e h
      · rw [List.mem_singleton] at h
        subst h
        exact hnew
    · rw [getD_set_ge _ _ _ _ _ (le_of_not_lt hlen)] at he
      exact hP i e he
  · rw [getD_set_ne _ _ _ _ _ hai] at he
    exact hP a e he

theorem propNeighbors_xor (n : ℕ)
    (edgeMap : List ((VKey × VKey) × List HalfEdge)) (G : List Bool)
    (hx : ∀ p ∈ edgeMap, ∀ h0 h1 : HalfEdge, p.2 = [h0, h1] →
      xor (G.getD h0.triIdx false) (G.getD h1.triIdx false) =
        decide (h0.src = h1.src)) :
    ∀ i : ℕ, ∀ e ∈ (propNeighbors n edgeMap).getD i [],
      xor (G.getD i false) (G.getD e.1 false) = e.2 := by
  unfold propNeighbors
  refine foldI_preserves
    (fun nbrs : List (List (ℕ × Bool)) =>
      ∀ i : ℕ, ∀ e ∈ nbrs.getD i [],
        xor (G.getD i false) (G.getD e.1 false) = e.2)
    _ edgeMap ?_ _ ?_
  · intro nbrs hn bucket hbucket
    rcases hb : bucket.2 with _ | ⟨t0, _ | ⟨t1, _ | ⟨t2, ts⟩⟩⟩
    · simpa only [hb] using hn
    · simpa only [hb] using hn
    · have hxb := hx bucket hbucket t0 t1 hb
      simp only [hb]
      refine setAppend_xorP G _ _ _ _ ?_ ?_
      · exact setAppend_xorP G nbrs _ _ _ hn hxb
      · rw [Bool.xor_comm]
        exact hxb
    · simpa only [hb] using hn
  · intro i e he
    by_cases hi : i < (List.replicate n ([] : List (ℕ × Bool))).length
    · rw [getD_eq_get_of_lt _ _ _ hi] at he
      rw [List.get_replicate] at he
      simp at he
    · rw [List.getD_eq_getElem?_getD,
        List.getElem?_eq_none (le_of_not_lt hi)] at he
      simp at he

theorem propNeighbors_length (n : ℕ)
    (edgeMap : List ((VKey × VKey) × List HalfEdge)) :
    (propNeighbors n edgeMap).length = n := by
  unfold propNeighbors
  refine foldI_preserves
    (fun nbrs : List (List (ℕ × Bool)) => nbrs.length = n)
    _ edgeMap ?_ _ (by simp)
  intro nbrs hn bucket _
  rcases hb : bucket.2 with _ | ⟨t0, _ | ⟨t1, _ | ⟨t2, ts⟩⟩⟩ <;>
    simp only [hb, List.length_set] <;> exact hn

/-! ### C7 machinery: the winding BFS preserves lengths -/

theorem windingVisit_lengths (cur : ℕ) (acc : List ℕ × List Bool × List Bool)
    (nb : ℕ × Bool) :
    (windingVisit cur acc nb).2.1.length = acc.2.1.length ∧
    (windingVisit cur acc nb).2.2.length = acc.2.2.length := by
  unfold windingVisit
  split_ifs <;> simp [List.length_set]

theorem foldl_windingVisit_lengths (cur : ℕ) (lst : List (ℕ × Bool)) :
    ∀ acc : List ℕ × List Bool × List Bool,
      (lst.foldl (windingVisit cur) acc).2.1.length = acc.2.1.length ∧
      (lst.foldl (windingVisit cur) acc).2.2.length = acc.2.2.length := by
  induction lst with
  | nil =>
      intro acc
      exact ⟨rfl, rfl⟩
  | cons e es ih =>
      intro acc
      rw [List.foldl_cons]
      obtain ⟨h1, h2⟩ := ih (windingVisit cur acc e)
      obtain ⟨g1, g2⟩ := windingVisit_lengths cur acc e
      exact ⟨h1.trans g1, h2.trans g2⟩

theorem windingBFS_lengths (neighbors : List (List (ℕ × Bool))) :
    ∀ (fuel : ℕ) (queue : List ℕ) (visited flipped : List Bool),
      (windingBFS neighbors fuel queue visited flipped).1.length =
        visited.length ∧
      (windingBFS neighbors fuel queue visited flipped).2.length =
        flipped.length := by
  intro fuel
  induction fuel with
  | zero =>
      intro queue visited flipped
      exact ⟨rfl, rfl⟩
  | succ fuel ih =>
      intro queue visited flipped
      cases queue with
      | nil => exact ⟨rfl, rfl⟩
      | cons cur rest =>
          rw [windingBFS]
          obtain ⟨h1, h2⟩ := ih
            ((neighbors.getD cur []).foldl (windingVisit cur)
              (rest, visited, flipped)).1
            ((neighbors.getD cur []).foldl (windingVisit cur)
              (rest, visited, flipped)).2.1
            ((neighbors.getD cur []).foldl (windingVisit cur)
              (rest, visited, flipped)).2.2
          obtain ⟨g1, g2⟩ :=
            foldl_windingVisit_lengths cur (neighbors.getD cur [])
              (rest, visited, flipped)
          exact ⟨h1.trans g1, h2.trans g2⟩

/-! ### C7 machinery: the BFS computes any consistent assignment up to a
global flip -/

/-- Invariant carried through the winding BFS: lengths agree, queue members
are visited (or have no neighbour list), every visited triangle's flip flag
agrees with the consistent assignment `G` up to the constant `c`, and the
currently dequeued triangle stays visited. -/
def BFSInv (G : List Bool) (c : Bool) (neighbors : List (List (ℕ × Bool)))
    (cur : ℕ) (acc : List ℕ × List Bool × List Bool) : Prop :=
  acc.2.1.length = acc.2.2.length ∧
  neighbors.length ≤ acc.2.1.length ∧
  (∀ i ∈ acc.1, acc.2.1.getD i false = true ∨ neighbors.getD i [] = []) ∧
  (∀ i : ℕ, acc.2.1.getD i false = true →
    xor (acc.2.2.getD i false) (G.getD i false) = c) ∧
  acc.2.1.getD cur false = true

theorem windingVisit_eq (cur : ℕ) (acc : List ℕ × List Bool × List Bool)
    (nb : ℕ × Bool) :
    windingVisit cur acc nb =
      if acc.2.1.getD nb.1 false then acc
      else (acc.1 ++ [nb.1], acc.2.1.set nb.1 true,
        acc.2.2.set nb.1 (if nb.2 then !(acc.2.2.getD cur false)
          else acc.2.2.getD cur false)) := rfl

theorem windingVisit_inv (G : List Bool) (c : Bool)
    (neighbors : List (List (ℕ × Bool))) (cur : ℕ)
    (acc : List ℕ × List Bool × List Bool) (nb : ℕ × Bool)
    (hnb : xor (G.getD cur false) (G.getD nb.1 false) = nb.2)
    (h : BFSInv G c neighbors cur acc) :
    BFSInv G c neighbors cur (windingVisit cur acc nb) := by
  obtain ⟨hlen, hnlen, hq, hmain, hcur⟩ := h
  rw [windingVisit_eq]
  by_cases hvis : acc.2.1.getD nb.1 false = true
  · rw [if_pos hvis]
    exact ⟨hlen, hnlen, hq, hmain, hcur⟩
  · rw [if_neg hvis]
    refine ⟨?_, ?_, ?_, ?_, ?_⟩
    · simp [List.length_set, hlen]
    · simpa [List.length_set] using hnlen
    · intro i hi
      rcases List.mem_append.mp hi with hio | hinew
      · rcases hq i hio with hvt | hnil
        · exact Or.inl (getD_set_true_mono _ _ _ hvt)
        · exact Or.inr hnil
      · rw [List.mem_singleton] at hinew
        subst hinew
        by_cases hr : nb.1 < acc.2.1.length
        · exact Or.inl (by rw [getD_set_self_lt _ _ _ _ hr])
        · refine Or.inr ?_
          rw [List.getD_eq_getElem?_getD,
            List.getElem?_eq_none (le_trans hnlen (le_of_not_lt hr))]
          rfl
    · intro i hvt
      by_cases hii : nb.1 = i
      · subst hii
        by_cases hr : nb.1 < acc.2.1.length
        · rw [getD_set_self_lt _ _ _ _ (hlen ▸ hr)]
          have hfc : xor (acc.2.2.getD cur false) (G.getD cur false) = c :=
            hmain cur hcur
          rw [← hnb]
          have key : ∀ fc gc gn cc : Bool,
              xor fc gc = cc →
              xor (if xor gc gn then !fc else fc) gn = cc := by decide
          exact key _ _ _ _ hfc
        · rw [getD_set_ge _ _ _ _ _ (le_of_not_lt hr)] at hvt
          exact absurd hvt hvis
      · rw [getD_set_ne _ _ _ _ _ hii] at hvt
        rw [getD_set_ne _ _ _ _ _ hii]
        exact hmain i hvt
    · exact getD_set_true_mono _ _ _ hcur

theorem foldl_windingVisit_inv (G : List Bool) (c : Bool)
    (neighbors : List (List (ℕ × Bool))) (cur : ℕ) :
    ∀ lst : List (ℕ × Bool),
      (∀ e ∈ lst, xor (G.getD cur false) (G.getD e.1 false) = e.2) →
      ∀ acc : List ℕ × List Bool × List Bool,
        BFSInv G c neighbors cur acc →
        BFSInv G c neighbors cur (lst.foldl (windingVisit cur) acc) := by
  intro lst
  induction lst with
  | nil =>
      intro _ acc h
      exact h
  | cons e es ih =>
      intro hl acc h
      rw [List.foldl_cons]
      exact ih (fun x hx => hl x (List.mem_cons_of_mem _ hx)) _
        (windingVisit_inv G c neighbors cur acc e
          (hl e (List.mem_cons_self _ _)) h)

theorem windingBFS_consistent (neighbors : List (List (ℕ × Bool)))
    (G : List Bool) (c : Bool)
    (hnb : ∀ i : ℕ, ∀ e ∈ neighbors.getD i [],
      xor (G.getD i false) (G.getD e.1 false) = e.2) :
    ∀ (fuel : ℕ) (queue : List ℕ) (visited flipped : List Bool),
      visited.length = flipped.length →
      neighbors.length ≤ visited.length →
      (∀ i ∈ queue, visited.getD i false = true ∨ neighbors.getD i [] = []) →
      (∀ i : ℕ, visited.getD i false = true →
        xor (flipped.getD i false) (G.getD i false) = c) →
      ∀ i : ℕ,
        (windingBFS neighbors fuel queue visited flipped).1.getD i false =
          true →
        xor ((windingBFS neighbors fuel queue visited flipped).2.getD i false)
          (G.getD i false) = c := by
  intro fuel
  induction fuel with
  | zero =>
      intro queue visited flipped _ _ _ hmain i hvis
      exact hmain i hvis
  | succ fuel ih =>
      intro queue visited flipped hvf hnv hq hmain i
      cases queue with
      | nil =>
          intro hvis
          exact hmain i hvis
      | cons cur rest =>
          rw [windingBFS]
          rcases hq cur (List.mem_cons_self _ _) with hv | hnil
          · have hinv := foldl_windingVisit_inv G c neighbors cur
              (neighbors.getD cur []) (fun e he => hnb cur e he)
              (rest, visited, flipped)
              ⟨hvf, hnv, fun j hj => hq j (List.mem_cons_of_mem _ hj),
                hmain, hv⟩
            obtain ⟨l1, l2, l3, l4, _⟩ := hinv
            exact ih _ _ _ l1 l2 l3 l4 i
          · rw [hnil]
            exact ih rest visited flipped hvf hnv
              (fun j hj => hq j (List.mem_cons_of_mem _ hj)) hmain i

/-! ### C7 machinery: the half-edge map of a flipped soup -/

theorem edgeStep_flips (F : List Bool)
    (m m' : List ((VKey × VKey) × List HalfEdge)) (p : ℕ × Tri)
    (hkp : vKey p.2.v0 ≠ vKey p.2.v1 ∧ vKey p.2.v1 ≠ vKey p.2.v2 ∧
      vKey p.2.v2 ≠ vKey p.2.v0)
    (hmm : ∀ k, bucketGet m' k = (bucketGet m k).map (flipHE F)) :
    ∀ k, bucketGet (edgeStep m' (p.1,
        if F.getD p.1 false then (⟨p.2.v0, p.2.v2, p.2.v1⟩ : Tri)
        else p.2)) k =
      (bucketGet (edgeStep m p) k).map (flipHE F) := by
  intro k
  obtain ⟨hk01, hk12, hk20⟩ := hkp
  have hne1 : edgeKey (vKey p.2.v0) (vKey p.2.v1) ≠
      edgeKey (vKey p.2.v1) (vKey p.2.v2) := by
    intro he
    rcases edgeKey_eq_cases _ _ _ _ he with ⟨h1, _⟩ | ⟨_, h2⟩
    · exact hk01 h1.symm
    · exact hk20 h2
  have hne2 : edgeKey (vKey p.2.v1) (vKey p.2.v2) ≠
      edgeKey (vKey p.2.v2) (vKey p.2.v0) := by
    intro he
    rcases edgeKey_eq_cases _ _ _ _ he with ⟨h1, _⟩ | ⟨_, h2⟩
    · exact hk12 h1.symm
    · exact hk01 h2
  have hne3 : edgeKey (vKey p.2.v2) (vKey p.2.v0) ≠
      edgeKey (vKey p.2.v0) (vKey p.2.v1) := by
    intro he
    rcases edgeKey_eq_cases _ _ _ _ he with ⟨h1, _⟩ | ⟨_, h2⟩
    · exact hk20 h1.symm
    · exact hk12 h2
  by_cases hF : F.getD p.1 false = true
  · have hflip1 : flipHE F ⟨p.1, vKey p.2.v0, vKey p.2.v1⟩ =
        ⟨p.1, vKey p.2.v1, vKey p.2.v0⟩ := by
      unfold flipHE
      rw [if_pos hF]
    have hflip2 : flipHE F ⟨p.1, vKey p.2.v1, vKey p.2.v2⟩ =
        ⟨p.1, vKey p.2.v2, vKey p.2.v1⟩ := by
      unfold flipHE
      rw [if_pos hF]
    have hflip3 : flipHE F ⟨p.1, vKey p.2.v2, vKey p.2.v0⟩ =
        ⟨p.1, vKey p.2.v0, vKey p.2.v2⟩ := by
      unfold flipHE
      rw [if_pos hF]
    rw [if_pos hF, edgeStep_expand, edgeStep_expand]
    simp only
    rw [edgeKey_comm (vKey p.2.v0) (vKey p.2.v2),
      edgeKey_comm (vKey p.2.v2) (vKey p.2.v1),
      edgeKey_comm (vKey p.2.v1) (vKey p.2.v0)]
    simp only [bucketGet_bucketPush,
      apply_ite (List.map (flipHE F)), List.map_append, List.map_cons,
      List.map_nil, hflip1, hflip2, hflip3, hmm]
    by_cases ha : k = edgeKey (vKey p.2.v0) (vKey p.2.v1) <;>
      by_cases hb : k = edgeKey (vKey p.2.v1) (vKey p.2.v2) <;>
        by_cases hc : k = edgeKey (vKey p.2.v2) (vKey p.2.v0)
    · exact absurd (ha.symm.trans hb) hne1
    · exact absurd (ha.symm.trans hb) hne1
    · exact absurd (hc.symm.trans ha) hne3
    · simp [ha, hb, hc, hne1, hne2, hne3,
        Ne.symm hne1, Ne.symm hne2, Ne.symm hne3]
    · exact absurd (hb.symm.trans hc) hne2
    · simp [ha, hb, hc, hne1, hne2, hne3,
        Ne.symm hne1, Ne.symm hne2, Ne.symm hne3]
    · simp [ha, hb, hc, hne1, hne2, hne3,
        Ne.symm hne1, Ne.symm hne2, Ne.symm hne3]
    · simp [ha, hb, hc, hne1, hne2, hne3,
        Ne.symm hne1, Ne.symm hne2, Ne.symm hne3]
  · have hF' : F.getD p.1 false = false := Bool.eq_false_iff.mpr hF
    have hflip1 : flipHE F ⟨p.1, vKey p.2.v0, vKey p.2.v1⟩ =
        ⟨p.1, vKey p.2.v0, vKey p.2.v1⟩ := by
      unfold flipHE
      rw [if_neg (by rw [hF']; exact Bool.false_ne_true)]
    have hflip2 : flipHE F ⟨p.1, vKey p.2.v1, vKey p.2.v2⟩ =
        ⟨p.1, vKey p.2.v1, vKey p.2.v2⟩ := by
      unfold flipHE
      rw [if_neg (by rw [hF']; exact Bool.false_ne_true)]
    have hflip3 : flipHE F ⟨p.1, vKey p.2.v2, vKey p.2.v0⟩ =
        ⟨p.1, vKey p.2.v2, vKey p.2.v0⟩ := by
      unfold flipHE
      rw [if_neg (by rw [hF']; exact Bool.false_ne_true)]
    rw [if_neg (by rw [hF']; exact Bool.false_ne_true),
      edgeStep_expand, edgeStep_expand]
    simp only [bucketGet_bucketPush,
      apply_ite (List.map (flipHE F)), List.map_append, List.map_cons,
      List.map_nil, hflip1, hflip2, hflip3, hmm]

theorem edgeFold_flips (F : List Bool) :
    ∀ l : List (ℕ × Tri),
      (∀ p ∈ l, vKey (p.2 : Tri).v0 ≠ vKey p.2.v1 ∧
        vKey p.2.v1 ≠ vKey p.2.v2 ∧ vKey p.2.v2 ≠ vKey p.2.v0) →
      ∀ m m' : List ((VKey × VKey) × List HalfEdge),
        (∀ k, bucketGet m' k = (bucketGet m k).map (flipHE F)) →
        ∀ k, bucketGet
            ((l.map fun p => ((p.1 : ℕ),
              if F.getD p.1 false then
                (⟨p.2.v0, p.2.v2, p.2.v1⟩ : Tri) else p.2)).foldI m'
              edgeStep) k =
          (bucketGet (l.foldI m edgeStep) k).map (flipHE F) := by
  intro l
  induction l with
  | nil =>
      intro _ m m' hmm k
      exact hmm k
  | cons p ps ih =>
      intro hk m m' hmm k
      rw [List.map_cons, List.foldI_cons, List.foldI_cons]
      exact ih (fun q hq => hk q (List.mem_cons_of_mem _ hq)) _ _
        (edgeStep_flips F m m' p (hk p (List.mem_cons_self _ _)) hmm) k

theorem enum_map_enum {α β : Type} (l : List α) (g : ℕ × α → β) :
    (l.enum.map g).enum = l.enum.map fun p => (p.1, g p) := by
  apply List.ext_get
  · simp
  · intro i h1 h2
    simp only [List.get_eq_getElem, List.getElem_enum, List.getElem_map]

theorem propEdgeMap_flips (tris : List Tri) (F : List Bool)
    (hkeys : ∀ t ∈ tris, vKey t.v0 ≠ vKey t.v1 ∧ vKey t.v1 ≠ vKey t.v2 ∧
      vKey t.v2 ≠ vKey t.v0) :
    ∀ k, bucketGet (propEdgeMap (tris.enum.map fun p =>
        if F.getD p.1 false then (⟨p.2.v0, p.2.v2, p.2.v1⟩ : Tri)
        else p.2)) k =
      (bucketGet (propEdgeMap tris) k).map (flipHE F) := by
  intro k
  rw [propEdgeMap_eq_fold, propEdgeMap_eq_fold, enum_map_enum]
  have hk : ∀ p ∈ tris.enum, vKey (p.2 : Tri).v0 ≠ vKey p.2.v1 ∧
      vKey p.2.v1 ≠ vKey p.2.v2 ∧ vKey p.2.v2 ≠ vKey p.2.v0 := by
    intro p hp
    have := List.mem_enum_iff_get?.mp hp
    exact hkeys p.2 (List.get?_mem this)
  exact edgeFold_flips F tris.enum hk [] [] (fun _ => rfl) k

/-! ### C7: assembly -/

theorem halfEdge_src_ne_dst (tris : List Tri)
    (hkeys : ∀ t ∈ tris, vKey t.v0 ≠ vKey t.v1 ∧ vKey t.v1 ≠ vKey t.v2 ∧
      vKey t.v2 ≠ vKey t.v0)
    (t : Tri) (ht : t ∈ tris) (h : HalfEdge)
    (hsd : (h.src, h.dst) ∈ [(vKey t.v0, vKey t.v1), (vKey t.v1, vKey t.v2),
      (vKey t.v2, vKey t.v0)]) : h.src ≠ h.dst := by
  obtain ⟨d01, d12, d20⟩ := hkeys t ht
  simp only [List.mem_cons, List.not_mem_nil, or_false,
    Prod.mk.injEq] at hsd
  rcases hsd with ⟨e1, e2⟩ | ⟨e1, e2⟩ | ⟨e1, e2⟩ <;> rw [e1, e2] <;>
    assumption

/-- A consistent orientation induces, on every two-triangle edge bucket, the
xor relation between its flip flags and the bucket's same-direction flag. -/
theorem flipsOrient_xor (tris : List Tri) (G : List Bool)
    (hkeys : ∀ t ∈ tris, vKey t.v0 ≠ vKey t.v1 ∧ vKey t.v1 ≠ vKey t.v2 ∧
      vKey t.v2 ≠ vKey t.v0)
    (hG : flipsOrient tris G = true) :
    ∀ p ∈ propEdgeMap tris, ∀ h0 h1 : HalfEdge, p.2 = [h0, h1] →
      xor (G.getD h0.triIdx false) (G.getD h1.triIdx false) =
        decide (h0.src = h1.src) := by
  intro p hp h0 h1 hb
  have hE := propEdgeMap_entries tris p hp
  obtain ⟨hk0, _, t0, ht0, hsd0⟩ :=
    hE h0 (by rw [hb]; exact List.mem_cons_self _ _)
  obtain ⟨hk1, _, _⟩ :=
    hE h1 (by rw [hb]; exact List.mem_cons_of_mem _ (List.mem_cons_self _ _))
  have hshape := edgeKey_eq_cases h0.src h0.dst h1.src h1.dst
    (hk0.trans hk1.symm)
  have hnd := halfEdge_src_ne_dst tris hkeys t0 ht0 h0 hsd0
  have horb := List.all_eq_true.mp hG p hp
  rw [hb] at horb
  simp only [decide_eq_true_iff] at horb
  rw [flipHE_src, flipHE_src] at horb
  exact (flip_src_ne_iff h0 h1 _ _ hshape hnd).mp horb

/-- C7 (amended).  `propagateNormals` repairs the winding of every manifold
group that is connected (its BFS from triangle 0 reaches every triangle),
does not collapse an edge at key precision, and admits *some* consistent
orientation (a flip assignment making all shared edges opposite — without
one, e.g. on a Möbius-style soup or an edge with equal endpoint keys, no
propagator could orient the group): the emitted group traverses every edge
shared by exactly two triangles in opposite directions. -/
theorem propagateNormals_oriented_spec (sq : SqrtFn) (tris : List Tri)
    (hman : manifoldGroup tris = true)
    (hconn : connectedGroup tris = true)
    (hkeys : distinctVertexKeys tris = true)
    (G : List Bool) (hG : flipsOrient tris G = true) :
    orientedGroup (propagateNormals sq tris) = true := by
  have hkeys' : ∀ t ∈ tris, vKey t.v0 ≠ vKey t.v1 ∧ vKey t.v1 ≠ vKey t.v2 ∧
      vKey t.v2 ≠ vKey t.v0 := by
    intro t ht
    have := List.all_eq_true.mp hkeys t ht
    simp only [Bool.and_eq_true, decide_eq_true_iff] at this
    exact ⟨this.1.1, this.1.2, this.2⟩
  by_cases hnil : tris.isEmpty
  · have hnil' : tris = [] := by
      cases tris with
      | nil => rfl
      | cons a l => simp [List.isEmpty] at hnil
    subst hnil'
    rfl
  · have hn : 0 < tris.length := by
      cases tris with
      | nil => simp [List.isEmpty] at hnil
      | cons a l => simp
    have hman' : ((propEdgeMap tris).all fun b => b.2.length = 2) = true := hman
    have hrw : windingBFSResult tris =
        windingBFS (propNeighbors tris.length (propEdgeMap tris)) tris.length
          [0] ((List.replicate tris.length false).set 0 true)
          (List.replicate tris.length false) := rfl
    unfold connectedGroup at hconn
    rw [hrw] at hconn
    -- per-bucket xor facts for G
    have hGx := flipsOrient_xor tris G hkeys' hG
    -- the neighbour lists carry the xor of G
    have hnbAll := propNeighbors_xor tris.length (propEdgeMap tris) G hGx
    -- visited-all from connectivity
    have hlen := windingBFS_lengths
      (propNeighbors tris.length (propEdgeMap tris)) tris.length [0]
      ((List.replicate tris.length false).set 0 true)
      (List.replicate tris.length false)
    have hvlen : ((windingBFS (propNeighbors tris.length (propEdgeMap tris))
        tris.length [0] ((List.replicate tris.length false).set 0 true)
        (List.replicate tris.length false)).1).length = tris.length := by
      rw [hlen.1]
      simp
    have hvisall : ∀ i, i < tris.length →
        ((windingBFS (propNeighbors tris.length (propEdgeMap tris))
          tris.length [0] ((List.replicate tris.length false).set 0 true)
          (List.replicate tris.length false)).1).getD i false = true := by
      intro i hi
      have hall := List.all_eq_true.mp hconn
      rw [getD_eq_get_of_lt _ _ _ (by rw [hvlen]; exact hi)]
      exact hall _ (List.get_mem _ _ _)
    -- BFS agrees with G up to the global constant
    have hbfs := windingBFS_consistent
      (propNeighbors tris.length (propEdgeMap tris)) G (G.getD 0 false)
      hnbAll tris.length [0]
      ((List.replicate tris.length false).set 0 true)
      (List.replicate tris.length false)
      (by simp)
      (by rw [propNeighbors_length]; simp)
      (by
        intro i hi
        rw [List.mem_singleton] at hi
        subst hi
        exact Or.inl (getD_set_self_lt _ _ _ _ (by simpa using hn)))
      (by
        intro i hvt
        have hi0 := getD_replicate_set_zero tris.length i hvt
        subst hi0
        rw [getD_false_of_allfalse _
          (fun b hb => List.eq_of_mem_replicate hb) 0]
        simp)
    -- rewrite the goal into the flipped-soup form
    rw [propagateNormals_unfold, if_neg hnil, if_neg (not_not_intro hman')]
    unfold orientedGroup
    rw [List.all_eq_true]
    intro bucket hbucket
    have hwf := bucketGet_of_mem_nodup _ (propEdgeMap_keys_nodup _)
      bucket hbucket
    have htrans := propEdgeMap_flips tris
      ((windingBFS (propNeighbors tris.length (propEdgeMap tris)) tris.length
        [0] ((List.replicate tris.length false).set 0 true)
        (List.replicate tris.length false)).2) hkeys' bucket.1
    have heq := hwf.symm.trans htrans
    rcases hbin : bucketGet (propEdgeMap tris) bucket.1 with _ | ⟨h0, rest⟩
    · rw [hbin] at heq
      rw [heq]
      rfl
    · rcases rest with _ | ⟨h1, rest2⟩
      · rw [hbin] at heq
        rw [heq]
        rfl
      · rcases rest2 with _ | ⟨h2, rest3⟩
        · -- the two-half-edge case
          rw [hbin] at heq
          simp only [List.map_cons, List.map_nil] at heq
          rw [heq]
          simp only [decide_eq_true_iff]
          -- provenance of the two input half-edges
          have hmem : (bucket.1, [h0, h1]) ∈ propEdgeMap tris := by
            have := mem_of_bucketGet_ne_nil (propEdgeMap tris) bucket.1
              (by rw [hbin]; simp)
            rw [hbin] at this
            exact this
          have hE := propEdgeMap_entries tris (bucket.1, [h0, h1]) hmem
          obtain ⟨hk0, hidx0, t0, ht0, hsd0⟩ :=
            hE h0 (List.mem_cons_self _ _)
          obtain ⟨hk1, hidx1, _, _, _⟩ :=
            hE h1 (List.mem_cons_of_mem _ (List.mem_cons_self _ _))
          have hshape := edgeKey_eq_cases h0.src h0.dst h1.src h1.dst
            (hk0.trans hk1.symm)
          have hnd := halfEdge_src_ne_dst tris hkeys' t0 ht0 h0 hsd0
          -- xor facts
          have hG2 := hGx (bucket.1, [h0, h1]) hmem h0 h1 rfl
          have hF0 := hbfs h0.triIdx (hvisall h0.triIdx hidx0)
          have hF1 := hbfs h1.triIdx (hvisall h1.triIdx hidx1)
          have key2 : ∀ a b a' b' cc : Bool,
              xor a a' = cc → xor b b' = cc → xor a b = xor a' b' := by
            decide
          have hxorF := key2 _ _ _ _ _ hF0 hF1
          rw [flipHE_src, flipHE_src]
          exact (flip_src_ne_iff h0 h1 _ _ hshape hnd).mpr
            (hxorF.trans hG2)
        · rw [hbin] at heq
          rw [heq]
          rfl


unseal Rat.add Rat.mul Rat.sub Rat.inv in
/-- C7 witness: a doubled triangle whose two copies have the *same* winding
— the input is not oriented, every hypothesis holds (with the explicit
consistent assignment `[false, true]`), and the propagator's BFS actually
flips the second copy, emitting an oriented group. -/
theorem propagateNormals_oriented_spec_witness :
    manifoldGroup [⟨⟨0,0,0⟩,⟨1,0,0⟩,⟨0,1,0⟩⟩,
      ⟨⟨0,0,0⟩,⟨1,0,0⟩,⟨0,1,0⟩⟩] = true ∧
    connectedGroup [⟨⟨0,0,0⟩,⟨1,0,0⟩,⟨0,1,0⟩⟩,
      ⟨⟨0,0,0⟩,⟨1,0,0⟩,⟨0,1,0⟩⟩] = true ∧
    distinctVertexKeys [⟨⟨0,0,0⟩,⟨1,0,0⟩,⟨0,1,0⟩⟩,
      ⟨⟨0,0,0⟩,⟨1,0,0⟩,⟨0,1,0⟩⟩] = true ∧
    flipsOrient [⟨⟨0,0,0⟩,⟨1,0,0⟩,⟨0,1,0⟩⟩,
      ⟨⟨0,0,0⟩,⟨1,0,0⟩,⟨0,1,0⟩⟩] [false, true] = true ∧
    orientedGroup [⟨⟨0,0,0⟩,⟨1,0,0⟩,⟨0,1,0⟩⟩,
      ⟨⟨0,0,0⟩,⟨1,0,0⟩,⟨0,1,0⟩⟩] = false ∧
    orientedGroup (propagateNormals jsSqrt
      [⟨⟨0,0,0⟩,⟨1,0,0⟩,⟨0,1,0⟩⟩, ⟨⟨0,0,0⟩,⟨1,0,0⟩,⟨0,1,0⟩⟩]) = true :=
  ⟨by decide, by decide, by decide, by decide, by decide,
    propagateNormals_oriented_spec jsSqrt _ (by decide) (by decide)
      (by decide) [false, true] (by decide)⟩


/-! ## Claim C3: three grids per mesh and multi-axis classification -/

theorem getD_eq_of_all {α : Type} (l : List α) (d : α) (h : ∀ x ∈ l, x = d)
    (i : ℕ) : l.getD i d = d := by
  by_cases hi : i < l.length
  · rw [getD_eq_get_of_lt _ _ _ hi]
    exact h _ (List.get_mem _ _ _)
  · rw [List.getD_eq_getElem?_getD, List.getElem?_eq_none (le_of_not_lt hi)]
    rfl

theorem foldI_fixed {α β : Type} (f : α → β → α) :
    ∀ (l : List β) (a : α), (∀ x ∈ l, f a x = a) → l.foldI a f = a := by
  intro l
  induction l with
  | nil =>
      intro a _
      rfl
  | cons x xs ih =>
      intro a h
      rw [List.foldI_cons, h x (List.mem_cons_self _ _)]
      exact ih a (fun y hy => h y (List.mem_cons_of_mem _ hy))

theorem setAppend_preserves {α : Type} (P : α → Prop)
    (nbrs : List (List α)) (hn : ∀ l ∈ nbrs, ∀ e ∈ l, P e) (i : ℕ) (v : α)
    (hv : P v) :
    ∀ l ∈ nbrs.set i ((nbrs.getD i []) ++ [v]), ∀ e ∈ l, P e := by
  apply allP_set _ _ hn
  intro e he
  rcases List.mem_append.mp he with h | h
  · obtain ⟨l', hl', hel'⟩ := mem_of_mem_getD _ _ _ h
    exact hn l' hl' e hel'
  · rw [List.mem_singleton] at h
    subst h
    exact hv

theorem bucketPush_forall {K V : Type} [DecidableEq K] (P : V → Prop) :
    ∀ (m : List (K × List V)) (k : K) (v : V),
      (∀ b ∈ m, ∀ x ∈ b.2, P x) → P v →
      ∀ b ∈ bucketPush m k v, ∀ x ∈ b.2, P x := by
  intro m
  induction m with
  | nil =>
      intro k v _ hv b hb x hx
      rw [bucketPush, List.mem_singleton] at hb
      subst hb
      rw [List.mem_singleton] at hx
      subst hx
      exact hv
  | cons p t ih =>
      intro k v hm hv b hb
      obtain ⟨k', l⟩ := p
      rw [bucketPush] at hb
      by_cases hk : k = k'
      · rw [if_pos hk] at hb
        rcases List.mem_cons.mp hb with h | h
        · subst h
          intro x hx
          rcases List.mem_append.mp hx with h | h
          · exact hm (k', l) (List.mem_cons_self _ _) x h
          · rw [List.mem_singleton] at h
            subst h
            exact hv
        · exact hm b (List.mem_cons_of_mem _ h)
      · rw [if_neg hk] at hb
        rcases List.mem_cons.mp hb with h | h
        · subst h
          exact hm (k', l) (List.mem_cons_self _ _)
        · exact ih k v (fun b' hb' => hm b' (List.mem_cons_of_mem _ hb')) hv b h

/-- In a one-triangle mesh every edge bucket holds only index 0. -/
theorem edgeToTris_single (t : Tri) :
    ∀ b ∈ edgeToTrisNonCrossed [t] [], ∀ i ∈ b.2, i = 0 := by
  have hred : edgeToTrisNonCrossed [t] [] =
      (triEdgeKeys t).foldI [] (fun m ek => bucketPush m ek 0) := rfl
  rw [hred]
  refine foldI_preserves
    (fun m : List ((VKey × VKey) × List ℕ) => ∀ b ∈ m, ∀ i ∈ b.2, i = 0) _
    (triEdgeKeys t) ?_ _ ?_
  · intro m hm ek _
    exact bucketPush_forall _ m ek 0 hm rfl
  · intro b hb
    simp at hb

/-- In a one-triangle mesh every neighbour entry is index 0. -/
theorem buildNeighbors_single (e2t : List ((VKey × VKey) × List ℕ))
    (he : ∀ b ∈ e2t, ∀ i ∈ b.2, i = 0) :
    ∀ l ∈ buildNeighbors 1 e2t, ∀ i ∈ l, i = 0 := by
  unfold buildNeighbors
  refine foldI_preserves
    (fun nbrs : List (List ℕ) => ∀ l ∈ nbrs, ∀ i ∈ l, i = 0) _ e2t ?_ _ ?_
  · intro nbrs hn bucket hbucket
    refine foldI_preserves
      (fun nbrs : List (List ℕ) => ∀ l ∈ nbrs, ∀ i ∈ l, i = 0) _ _ ?_ _ hn
    intro nbrs1 hn1 a _
    refine foldI_preserves
      (fun nbrs : List (List ℕ) => ∀ l ∈ nbrs, ∀ i ∈ l, i = 0) _ _ ?_ _ hn1
    intro nbrs2 hn2 b _
    by_cases hab : a < b
    · simp only [if_pos hab]
      have hta : bucket.2.getD a 0 = 0 := getD_eq_of_all _ _ (he bucket hbucket) a
      have htb : bucket.2.getD b 0 = 0 := getD_eq_of_all _ _ (he bucket hbucket) b
      rw [hta, htb]
      exact setAppend_preserves _ _ (setAppend_preserves _ _ hn2 0 0 rfl) 0 0 rfl
    · simp only [if_neg hab]
      exact hn2
  · intro l hl
    rw [List.eq_of_mem_replicate hl]
    intro i hi
    simp at hi

theorem floodBFS_empty_queue (neighbors : List (List ℕ)) (s : ℤ)
    (fuel : ℕ) (visited : List Bool) (result : List ℤ) :
    floodBFS neighbors s fuel [] visited result = (visited, result) := by
  cases fuel with
  | zero => rfl
  | succ fuel => rfl

/-- Dequeuing a triangle all of whose neighbours are already visited
changes nothing. -/
theorem floodBFS_all_visited (neighbors : List (List ℕ)) (s : ℤ)
    (fuel : ℕ) (q : ℕ) (visited : List Bool) (result : List ℤ)
    (h : ∀ nb ∈ neighbors.getD q [], visited.getD nb false = true) :
    floodBFS neighbors s (fuel + 1) [q] visited result = (visited, result) := by
  rw [floodBFS]
  have hstep : (neighbors.getD q []).foldI
      (([] : List ℕ), visited, result)
      (fun acc nb => if acc.2.1.getD nb false then acc
        else (acc.1 ++ [nb], acc.2.1.set nb true, acc.2.2.set nb s)) =
      ([], visited, result) := by
    apply foldI_fixed
    intro nb hnb
    exact if_pos (h nb hnb)
  rw [hstep]
  exact floodBFS_empty_queue neighbors s fuel visited result

/-- C3.  Per-mesh grid construction and multi-axis classification:
`buildGrids` produces exactly three grids, one per projection plane —
XY, YZ (accessors `y`/`z`) and XZ (accessors `x`/`z`) — all sharing the
cell size `max(2·avgEdge(mesh), 0.1)`; and `classifyByFloodFill`
classifies a non-crossed triangle with `classifyPointMultiAxis` of §4.4
seeded at the triangle's centroid against the other mesh's grids (stated
on a one-triangle component), while a crossed triangle is skipped and
keeps class 0. -/
theorem boolean_grids_and_classification_spec :
    (∀ (sq : SqrtFn) (tris : List Tri),
      (buildGrids sq tris).xy.cellSize =
        max (estimateAvgEdge sq tris * 2) (1 / 10) ∧
      (buildGrids sq tris).yz.cellSize = (buildGrids sq tris).xy.cellSize ∧
      (buildGrids sq tris).xz.cellSize = (buildGrids sq tris).xy.cellSize ∧
      (buildGrids sq tris).xy.grid = buildSpatialGridOnAxes tris
        ((buildGrids sq tris).xy.cellSize) (fun v => v.x) (fun v => v.y) ∧
      (buildGrids sq tris).yz.grid = buildSpatialGridOnAxes tris
        ((buildGrids sq tris).xy.cellSize) (fun v => v.y) (fun v => v.z) ∧
      (buildGrids sq tris).xz.grid = buildSpatialGridOnAxes tris
        ((buildGrids sq tris).xy.cellSize) (fun v => v.x) (fun v => v.z)) ∧
    (∀ (t : Tri) (other : List Tri) (grids : Grids),
      classifyByFloodFill [t] [] other grids =
        [classifyPointMultiAxis (triCentroid t) other grids]) ∧
    (∀ (t : Tri) (segs : List TaggedSeg) (other : List Tri) (grids : Grids),
      classifyByFloodFill [t] [(0, segs)] other grids = [0]) := by
  refine ⟨fun sq tris => ⟨rfl, rfl, rfl, rfl, rfl, rfl⟩, ?_, ?_⟩
  · intro t other grids
    have hseed : ∀ nb ∈ (buildNeighbors 1 (edgeToTrisNonCrossed [t] [])).getD 0 [],
        ([true] : List Bool).getD nb false = true := by
      intro nb hnb
      obtain ⟨l, hl, hnl⟩ := mem_of_mem_getD _ _ _ hnb
      have h0 := buildNeighbors_single _ (edgeToTris_single t) l hl nb hnl
      subst h0
      rfl
    show (floodBFS (buildNeighbors 1 (edgeToTrisNonCrossed [t] []))
        (classifyPointMultiAxis (triCentroid t) other grids) 1 [0] [true]
        [classifyPointMultiAxis (triCentroid t) other grids]).2 =
      [classifyPointMultiAxis (triCentroid t) other grids]
    exact congrArg Prod.snd (floodBFS_all_visited
      (buildNeighbors 1 (edgeToTrisNonCrossed [t] []))
      (classifyPointMultiAxis (triCentroid t) other grids) 0 0 [true]
      [classifyPointMultiAxis (triCentroid t) other grids] hseed)
  · intro t segs other grids
    rfl

/-! ## Claim C9: the detailed intersector accepts exactly the plain one's
inputs

The two cascades differ only in the last guard: the plain variant rejects
when `Math.sqrt(dx²+dy²+dz²) < 1e-8` while the detailed one rejects when
the parametric length `overlapMax − overlapMin < 1e-8`.  In exact
arithmetic those coincide because `lineDir` has been scaled by
`1/lineDirLen`; the equivalence is proved for every square-root function
satisfying the exact scaling law `sq (a²·b) = a · sq b` (for `a > 0`),
which real `Math.sqrt` obeys up to rounding.  A model square root with
that law is constructed below from the square-class quotient of ℚ to
witness satisfiability. -/

theorem sq_seg_eq (sq : SqrtFn)
    (hmul : ∀ a b : ℚ, 0 < a → sq (a ^ 2 * b) = a * sq b)
    (ldx ldy ldz L px py pz mn mx : ℚ)
    (hL : sq (ldx * ldx + ldy * ldy + ldz * ldz) = L)
    (hLpos : 0 < L) (ht : 0 < mx - mn) :
    sq ((px + ldx / L * mn - (px + ldx / L * mx)) *
        (px + ldx / L * mn - (px + ldx / L * mx)) +
        (py + ldy / L * mn - (py + ldy / L * mx)) *
        (py + ldy / L * mn - (py + ldy / L * mx)) +
        (pz + ldz / L * mn - (pz + ldz / L * mx)) *
        (pz + ldz / L * mn - (pz + ldz / L * mx))) =
      mx - mn := by
  have hQ : (px + ldx / L * mn - (px + ldx / L * mx)) *
        (px + ldx / L * mn - (px + ldx / L * mx)) +
        (py + ldy / L * mn - (py + ldy / L * mx)) *
        (py + ldy / L * mn - (py + ldy / L * mx)) +
        (pz + ldz / L * mn - (pz + ldz / L * mx)) *
        (pz + ldz / L * mn - (pz + ldz / L * mx)) =
      ((mx - mn) / L) ^ 2 * (ldx * ldx + ldy * ldy + ldz * ldz) := by
    ring
  rw [hQ, hmul _ _ (div_pos ht hLpos), hL,
    div_mul_cancel₀ _ (ne_of_gt hLpos)]

/-- C9.  For every square-root function obeying the exact scaling law,
the detailed Möller variant accepts exactly the same triangle pairs as the
plain one: `triTriIntersectionDetailed` is non-null iff
`triTriIntersection` is non-null. -/
theorem triTri_detailed_iff_plain (sq : SqrtFn)
    (hmul : ∀ a b : ℚ, 0 < a → sq (a ^ 2 * b) = a * sq b)
    (triA triB : Tri) :
    (triTriIntersectionDetailed sq triA triB).isSome =
      (triTriIntersection sq triA triB).isSome := by
  show
    let nB := triNormal sq triB
    let dB := -(nB.x * triB.v0.x + nB.y * triB.v0.y + nB.z * triB.v0.z)
    let dA0 := nB.x * triA.v0.x + nB.y * triA.v0.y + nB.z * triA.v0.z + dB
    let dA1 := nB.x * triA.v1.x + nB.y * triA.v1.y + nB.z * triA.v1.z + dB
    let dA2 := nB.x * triA.v2.x + nB.y * triA.v2.y + nB.z * triA.v2.z + dB
    let nA := triNormal sq triA
    let dA := -(nA.x * triA.v0.x + nA.y * triA.v0.y + nA.z * triA.v0.z)
    let dB0 := nA.x * triB.v0.x + nA.y * triB.v0.y + nA.z * triB.v0.z + dA
    let dB1 := nA.x * triB.v1.x + nA.y * triB.v1.y + nA.z * triB.v1.z + dA
    let dB2 := nA.x * triB.v2.x + nA.y * triB.v2.y + nA.z * triB.v2.z + dA
    let dotN := nA.x * nB.x + nA.y * nB.y + nA.z * nB.z
    let ld := cross nA nB
    let lineDirLen := sq (ld.x * ld.x + ld.y * ld.y + ld.z * ld.z)
    let lineDir : V3 :=
      ⟨ld.x / lineDirLen, ld.y / lineDirLen, ld.z / lineDirLen⟩
    (if dA0 > 0 ∧ dA1 > 0 ∧ dA2 > 0 then (none : Option TriTriDetail)
     else if dA0 < 0 ∧ dA1 < 0 ∧ dA2 < 0 then none
     else if dB0 > 0 ∧ dB1 > 0 ∧ dB2 > 0 then none
     else if dB0 < 0 ∧ dB1 < 0 ∧ dB2 < 0 then none
     else if |dotN| > 9999 / 10000 then none
     else if lineDirLen < 1 / 10 ^ 12 then none
     else
       match findLinePoint nA dA nB dB lineDir with
       | none => none
       | some linePoint =>
         match computeTriInterval triA lineDir linePoint dA0 dA1 dA2 with
         | none => none
         | some intervalA =>
           match computeTriInterval triB lineDir linePoint dB0 dB1 dB2 with
           | none => none
           | some intervalB =>
             if max intervalA.1 intervalB.1 ≥
                 min intervalA.2 intervalB.2 - 1 / 10 ^ 10 then none
             else if min intervalA.2 intervalB.2 -
                 max intervalA.1 intervalB.1 < 1 / 10 ^ 8 then none
             else some ⟨(dA0, dA1, dA2), (dB0, dB1, dB2),
               min intervalA.2 intervalB.2 -
                 max intervalA.1 intervalB.1⟩).isSome =
    (if dA0 > 0 ∧ dA1 > 0 ∧ dA2 > 0 then (none : Option Seg)
     else if dA0 < 0 ∧ dA1 < 0 ∧ dA2 < 0 then none
     else if dB0 > 0 ∧ dB1 > 0 ∧ dB2 > 0 then none
     else if dB0 < 0 ∧ dB1 < 0 ∧ dB2 < 0 then none
     else if |dotN| > 9999 / 10000 then none
     else if lineDirLen < 1 / 10 ^ 12 then none
     else
       match findLinePoint nA dA nB dB lineDir with
       | none => none
       | some linePoint =>
         match computeTriInterval triA lineDir linePoint dA0 dA1 dA2 with
         | none => none
         | some intervalA =>
           match computeTriInterval triB lineDir linePoint dB0 dB1 dB2 with
           | none => none
           | some intervalB =>
             if max intervalA.1 intervalB.1 ≥
                 min intervalA.2 intervalB.2 - 1 / 10 ^ 10 then none
             else if sq
                 ((linePoint.x + ld.x / lineDirLen *
                     (max intervalA.1 intervalB.1) -
                   (linePoint.x + ld.x / lineDirLen *
                     (min intervalA.2 intervalB.2))) *
                  (linePoint.x + ld.x / lineDirLen *
                     (max intervalA.1 intervalB.1) -
                   (linePoint.x + ld.x / lineDirLen *
                     (min intervalA.2 intervalB.2))) +
                  (linePoint.y + ld.y / lineDirLen *
                     (max intervalA.1 intervalB.1) -
                   (linePoint.y + ld.y / lineDirLen *
                     (min intervalA.2 intervalB.2))) *
                  (linePoint.y + ld.y / lineDirLen *
                     (max intervalA.1 intervalB.1) -
                   (linePoint.y + ld.y / lineDirLen *
                     (min intervalA.2 intervalB.2))) +
                  (linePoint.z + ld.z / lineDirLen *
                     (max intervalA.1 intervalB.1) -
                   (linePoint.z + ld.z / lineDirLen *
                     (min intervalA.2 intervalB.2))) *
                  (linePoint.z + ld.z / lineDirLen *
                     (max intervalA.1 intervalB.1) -
                   (linePoint.z + ld.z / lineDirLen *
                     (min intervalA.2 intervalB.2)))) < 1 / 10 ^ 8 then none
             else some ⟨⟨linePoint.x + ld.x / lineDirLen *
                   (max intervalA.1 intervalB.1),
                 linePoint.y + ld.y / lineDirLen *
                   (max intervalA.1 intervalB.1),
                 linePoint.z + ld.z / lineDirLen *
                   (max intervalA.1 intervalB.1)⟩,
               ⟨linePoint.x + ld.x / lineDirLen *
                   (min intervalA.2 intervalB.2),
                 linePoint.y + ld.y / lineDirLen *
                   (min intervalA.2 intervalB.2),
                 linePoint.z + ld.z / lineDirLen *
                   (min intervalA.2 intervalB.2)⟩⟩).isSome
  extract_lets nB dB dA0 dA1 dA2 nA dA dB0 dB1 dB2 dotN ld lineDirLen lineDir
  split
  · rfl
  · split
    · rfl
    · split
      · rfl
      · split
        · rfl
        · split
          · rfl
          · split
            · rfl
            · split
              · rfl
              · split
                · rfl
                · split
                  · rfl
                  · rename_i h6 xL lp heqL xA iA heqA xB iB heqB
                    split
                    · rfl
                    · rename_i hov
                      rw [sq_seg_eq sq hmul]
                      · split
                        · rfl
                        · rfl
                      · rfl
                      · exact lt_of_lt_of_le (by norm_num) (not_lt.mp h6)
                      · have ht : max iA.1 iB.1 < min iA.2 iB.2 - 1 / 10 ^ 10 :=
                          not_le.mp hov
                        have h10 : (0 : ℚ) < 1 / 10 ^ 10 := by norm_num
                        linarith

/-- Square-class relation on ℚ: `q'` is `q` scaled by a positive square.
Used only to build a model square root witnessing the scaling law of the
C9 equivalence; it is not part of the embedded program. -/
def srel (q q' : ℚ) : Prop := ∃ a : ℚ, 0 < a ∧ q' = a ^ 2 * q

theorem srel_refl (q : ℚ) : srel q q := ⟨1, one_pos, by ring⟩

theorem srel_symm {q q' : ℚ} (h : srel q q') : srel q' q := by
  obtain ⟨a, ha, h1⟩ := h
  refine ⟨a⁻¹, inv_pos.mpr ha, ?_⟩
  rw [h1]
  field_simp

theorem srel_trans {q q' q'' : ℚ} (h : srel q q') (h' : srel q' q'') :
    srel q q'' := by
  obtain ⟨a, ha, h1⟩ := h
  obtain ⟨b, hb, h2⟩ := h'
  exact ⟨b * a, mul_pos hb ha, by rw [h2, h1]; ring⟩

/-- The square-class setoid on ℚ. -/
def sqSetoid : Setoid ℚ := ⟨srel, srel_refl, srel_symm, srel_trans⟩

/-- A fixed representative of each square class. -/
noncomputable def sqrep (q : ℚ) : ℚ := (Quotient.mk sqSetoid q).out

theorem sqrep_rel (q : ℚ) : ∃ a : ℚ, 0 < a ∧ q = a ^ 2 * sqrep q :=
  Quotient.exact ((Quotient.mk sqSetoid q).out_eq)

/-- Model square root: the positive scale factor of `q` over its class
representative (`0` at `0`).  It satisfies the exact scaling law
`sqrtModel (a²·b) = a · sqrtModel b` and so witnesses the C9 hypothesis. -/
noncomputable def sqrtModel (q : ℚ) : ℚ :=
  if q = 0 then 0 else (sqrep_rel q).choose

theorem sqrtModel_pos (q : ℚ) (hq : q ≠ 0) : 0 < sqrtModel q := by
  rw [sqrtModel, if_neg hq]
  exact (sqrep_rel q).choose_spec.1

theorem sqrtModel_eq (q : ℚ) (hq : q ≠ 0) :
    q = (sqrtModel q) ^ 2 * sqrep q := by
  rw [sqrtModel, if_neg hq]
  exact (sqrep_rel q).choose_spec.2

theorem sqrep_scale (a b : ℚ) (ha : 0 < a) : sqrep (a ^ 2 * b) = sqrep b := by
  unfold sqrep
  have h : Quotient.mk sqSetoid (a ^ 2 * b) = Quotient.mk sqSetoid b := by
    apply Quotient.sound
    refine ⟨a⁻¹, inv_pos.mpr ha, ?_⟩
    field_simp
  rw [h]

theorem sqrtModel_hmul :
    ∀ a b : ℚ, 0 < a → sqrtModel (a ^ 2 * b) = a * sqrtModel b := by
  intro a b ha
  by_cases hb : b = 0
  · subst hb
    simp [sqrtModel]
  · have hab : a ^ 2 * b ≠ 0 := mul_ne_zero (pow_ne_zero 2 ha.ne') hb
    have h2 := sqrtModel_eq (a ^ 2 * b) hab
    have h4 := sqrtModel_eq b hb
    rw [sqrep_scale a b ha] at h2
    have hrep : sqrep b ≠ 0 := by
      intro h0
      rw [h0, mul_zero] at h4
      exact hb h4
    have h5 : (sqrtModel (a ^ 2 * b)) ^ 2 * sqrep b =
        (a * sqrtModel b) ^ 2 * sqrep b := by
      linear_combination -h2 + a ^ 2 * h4
    have h6 := mul_right_cancel₀ hrep h5
    have hpos1 : 0 < sqrtModel (a ^ 2 * b) := sqrtModel_pos _ hab
    have hpos2 : 0 < a * sqrtModel b := mul_pos ha (sqrtModel_pos _ hb)
    have h8 : (sqrtModel (a ^ 2 * b) - a * sqrtModel b) *
        (sqrtModel (a ^ 2 * b) + a * sqrtModel b) = 0 := by
      linear_combination h6
    rcases mul_eq_zero.mp h8 with h9 | h9
    · exact sub_eq_zero.mp h9
    · exact absurd h9 (ne_of_gt (add_pos hpos1 hpos2))

/-- C9 witness: the scaling-law hypothesis is satisfiable — the model
square root obeys it — and the equivalence then holds at a concrete
triangle pair. -/
theorem triTri_detailed_iff_plain_witness :
    (∀ a b : ℚ, 0 < a → sqrtModel (a ^ 2 * b) = a * sqrtModel b) ∧
    (triTriIntersectionDetailed sqrtModel
        ⟨⟨0,0,0⟩,⟨2,0,0⟩,⟨0,2,0⟩⟩ ⟨⟨0,0,-1⟩,⟨1,0,1⟩,⟨0,1,1⟩⟩).isSome =
      (triTriIntersection sqrtModel
        ⟨⟨0,0,0⟩,⟨2,0,0⟩,⟨0,2,0⟩⟩ ⟨⟨0,0,-1⟩,⟨1,0,1⟩,⟨0,1,1⟩⟩).isSome :=
  ⟨sqrtModel_hmul, triTri_detailed_iff_plain sqrtModel sqrtModel_hmul
    ⟨⟨0,0,0⟩,⟨2,0,0⟩,⟨0,2,0⟩⟩ ⟨⟨0,0,-1⟩,⟨1,0,1⟩,⟨0,1,1⟩⟩⟩

/-! ## Claim C5: what the tagged mesh intersector emits -/

theorem foldI_flatMap_general {β A : Type} {f : List A → β → List A}
    (row : β → List A) (hstep : ∀ acc b, f acc b = acc ++ row b) :
    ∀ (l : List β) (acc : List A), l.foldI acc f = acc ++ l.flatMap row := by
  intro l
  induction l with
  | nil =>
      intro acc
      simp [List.foldI_nil]
  | cons b bs ih =>
      intro acc
      rw [List.foldI_cons, hstep, ih, List.flatMap_cons, List.append_assoc]

/-- One row of the tagged intersector: the segments triangle `i` of A
contributes against its grid candidates into B. -/
def taggedRow (sq : SqrtFn) (trisB : List Tri) (i : ℕ) (triA : Tri)
    (cands : List ℕ) : List TaggedSeg :=
  cands.flatMap fun j =>
    match triTriIntersection sq triA
        (trisB.getD j ⟨⟨0,0,0⟩,⟨0,0,0⟩,⟨0,0,0⟩⟩) with
    | some seg => [⟨seg.p0, seg.p1, i, j⟩]
    | none => []

/-- The tagged intersector, row by row. -/
theorem intersectMeshPairTagged_eq (sq : SqrtFn) (trisA trisB : List Tri) :
    intersectMeshPairTagged sq trisA trisB =
      trisA.enum.flatMap fun p =>
        taggedRow sq trisB p.1 p.2
          (queryGrid
            (buildSpatialGrid trisB
              (max (estimateAvgEdge sq trisB * 2) (1 / 10)))
            (triBBox p.2).toBB2
            (max (estimateAvgEdge sq trisB * 2) (1 / 10))) := by
  simp only [intersectMeshPairTagged]
  refine Eq.trans (foldI_flatMap_general
    (fun p => taggedRow sq trisB p.1 p.2
      (queryGrid
        (buildSpatialGrid trisB (max (estimateAvgEdge sq trisB * 2) (1 / 10)))
        (triBBox p.2).toBB2
        (max (estimateAvgEdge sq trisB * 2) (1 / 10))))
    ?_ trisA.enum []) (by simp)
  intro acc p
  refine Eq.trans (foldI_flatMap_general
    (fun j => match triTriIntersection sq p.2
        (trisB.getD j ⟨⟨0,0,0⟩,⟨0,0,0⟩,⟨0,0,0⟩⟩) with
      | some seg => [⟨seg.p0, seg.p1, p.1, j⟩]
      | none => []) ?_ _ acc) ?_
  · intro acc' j
    cases h : triTriIntersection sq p.2
        (trisB.getD j ⟨⟨0,0,0⟩,⟨0,0,0⟩,⟨0,0,0⟩⟩) with
    | none =>
        simp only [h]
        simp
    | some seg =>
        simp only [h]
  · rfl

theorem queryGrid_nodup (g : Grid) (bb : BB2) (c : ℚ) :
    (queryGrid g bb c).Nodup := by
  simp only [queryGrid]
  refine foldI_preserves (fun acc : List ℕ => acc.Nodup) _ _ ?_ _ List.nodup_nil
  intro acc hacc gx _
  refine foldI_preserves (fun acc : List ℕ => acc.Nodup) _ _ ?_ _ hacc
  intro acc1 h1 gy _
  refine foldI_preserves (fun acc : List ℕ => acc.Nodup) _ _ ?_ _ h1
  intro acc2 h2 idx _
  by_cases hmem : idx ∈ acc2
  · simp only [if_pos hmem]
    exact h2
  · simp only [if_neg hmem]
    rw [List.nodup_append]
    refine ⟨h2, List.nodup_singleton _, ?_⟩
    intro a ha hb
    rw [List.mem_singleton] at hb
    subst hb
    exact hmem ha

theorem mem_taggedRow {sq : SqrtFn} {trisB : List Tri} {i : ℕ} {triA : Tri}
    {cands : List ℕ} {s : TaggedSeg}
    (hs : s ∈ taggedRow sq trisB i triA cands) :
    s.idxA = i ∧ s.idxB ∈ cands ∧
      triTriIntersection sq triA
          (trisB.getD s.idxB ⟨⟨0,0,0⟩,⟨0,0,0⟩,⟨0,0,0⟩⟩) =
        some ⟨s.p0, s.p1⟩ := by
  unfold taggedRow at hs
  obtain ⟨j, hj, hin⟩ := List.mem_flatMap.mp hs
  cases h : triTriIntersection sq triA
      (trisB.getD j ⟨⟨0,0,0⟩,⟨0,0,0⟩,⟨0,0,0⟩⟩) with
  | none =>
      rw [h] at hin
      simp at hin
  | some seg =>
      rw [h] at hin
      rw [List.mem_singleton] at hin
      subst hin
      exact ⟨rfl, hj, h⟩

theorem enum_mem_getD {l : List Tri} {p : ℕ × Tri} (hp : p ∈ l.enum) :
    p.1 < l.length ∧ l.getD p.1 ⟨⟨0,0,0⟩,⟨0,0,0⟩,⟨0,0,0⟩⟩ = p.2 := by
  have h := List.mem_enum_iff_get?.mp hp
  obtain ⟨hlt, hget⟩ := List.get?_eq_some.mp h
  refine ⟨hlt, ?_⟩
  rw [getD_eq_get_of_lt _ _ _ hlt, hget]

theorem enum_mem_of_lt {l : List Tri} {i : ℕ} (hi : i < l.length) :
    (i, l.getD i ⟨⟨0,0,0⟩,⟨0,0,0⟩,⟨0,0,0⟩⟩) ∈ l.enum := by
  apply List.mem_enum_iff_get?.mpr
  rw [getD_eq_get_of_lt _ _ _ hi]
  exact List.get?_eq_some.mpr ⟨hi, rfl⟩

/-- C5 (amended).  What `intersectMeshPairTagged` actually guarantees:
every emitted segment carries valid tags, its pair was surfaced by the
grid query for its A-triangle, and the pair's Möller test yields exactly
its endpoints; conversely every pair the grid surfaces whose Möller test
is non-null is emitted; and no pair of tags is ever emitted twice.  The
spec's unconditional completeness over all non-null pairs fails (see the
counterexample): completeness holds only relative to the grid's candidate
sets. -/
theorem intersectMeshPairTagged_spec (sq : SqrtFn) (trisA trisB : List Tri) :
    (∀ s ∈ intersectMeshPairTagged sq trisA trisB,
      s.idxA < trisA.length ∧
      s.idxB ∈ queryGrid
        (buildSpatialGrid trisB (max (estimateAvgEdge sq trisB * 2) (1 / 10)))
        (triBBox (trisA.getD s.idxA ⟨⟨0,0,0⟩,⟨0,0,0⟩,⟨0,0,0⟩⟩)).toBB2
        (max (estimateAvgEdge sq trisB * 2) (1 / 10)) ∧
      triTriIntersection sq (trisA.getD s.idxA ⟨⟨0,0,0⟩,⟨0,0,0⟩,⟨0,0,0⟩⟩)
          (trisB.getD s.idxB ⟨⟨0,0,0⟩,⟨0,0,0⟩,⟨0,0,0⟩⟩) =
        some ⟨s.p0, s.p1⟩) ∧
    (∀ i, i < trisA.length →
      ∀ j ∈ queryGrid
        (buildSpatialGrid trisB (max (estimateAvgEdge sq trisB * 2) (1 / 10)))
        (triBBox (trisA.getD i ⟨⟨0,0,0⟩,⟨0,0,0⟩,⟨0,0,0⟩⟩)).toBB2
        (max (estimateAvgEdge sq trisB * 2) (1 / 10)),
      ∀ seg : Seg,
        triTriIntersection sq (trisA.getD i ⟨⟨0,0,0⟩,⟨0,0,0⟩,⟨0,0,0⟩⟩)
            (trisB.getD j ⟨⟨0,0,0⟩,⟨0,0,0⟩,⟨0,0,0⟩⟩) = some seg →
        (⟨seg.p0, seg.p1, i, j⟩ : TaggedSeg) ∈
          intersectMeshPairTagged sq trisA trisB) ∧
    (intersectMeshPairTagged sq trisA trisB).Pairwise
      (fun s t => s.idxA ≠ t.idxA ∨ s.idxB ≠ t.idxB) := by
  refine ⟨?_, ?_, ?_⟩
  · intro s hs
    rw [intersectMeshPairTagged_eq] at hs
    obtain ⟨p, hp, hrow⟩ := List.mem_flatMap.mp hs
    obtain ⟨hA, hB, hseg⟩ := mem_taggedRow hrow
    obtain ⟨hlt, hgd⟩ := enum_mem_getD hp
    rw [hA, hgd]
    exact ⟨hlt, hB, hseg⟩
  · intro i hi j hj seg hseg
    rw [intersectMeshPairTagged_eq]
    apply List.mem_flatMap.mpr
    refine ⟨(i, trisA.getD i ⟨⟨0,0,0⟩,⟨0,0,0⟩,⟨0,0,0⟩⟩), enum_mem_of_lt hi, ?_⟩
    unfold taggedRow
    apply List.mem_flatMap.mpr
    refine ⟨j, hj, ?_⟩
    rw [hseg]
    exact List.mem_singleton.mpr rfl
  · rw [intersectMeshPairTagged_eq, List.flatMap_def, List.pairwise_flatten]
    constructor
    · intro l' hl'
      obtain ⟨p, hp, hpe⟩ := List.mem_map.mp hl'
      subst hpe
      unfold taggedRow
      rw [List.flatMap_def, List.pairwise_flatten]
      constructor
      · intro l2 hl2
        obtain ⟨j, hj, hje⟩ := List.mem_map.mp hl2
        subst hje
        cases h : triTriIntersection sq p.2
            (trisB.getD j ⟨⟨0,0,0⟩,⟨0,0,0⟩,⟨0,0,0⟩⟩) with
        | none => simp [h]
        | some seg => simp [h]
      · rw [List.pairwise_map]
        have hnd : (queryGrid
            (buildSpatialGrid trisB
              (max (estimateAvgEdge sq trisB * 2) (1 / 10)))
            (triBBox p.2).toBB2
            (max (estimateAvgEdge sq trisB * 2) (1 / 10))).Pairwise (· ≠ ·) :=
          queryGrid_nodup _ _ _
        refine hnd.imp ?_
        intro j j' hjj' x hx y hy
        right
        cases h : triTriIntersection sq p.2
            (trisB.getD j ⟨⟨0,0,0⟩,⟨0,0,0⟩,⟨0,0,0⟩⟩) with
        | none =>
            rw [h] at hx
            simp at hx
        | some seg =>
            rw [h] at hx
            rw [List.mem_singleton] at hx
            cases h' : triTriIntersection sq p.2
                (trisB.getD j' ⟨⟨0,0,0⟩,⟨0,0,0⟩,⟨0,0,0⟩⟩) with
            | none =>
                rw [h'] at hy
                simp at hy
            | some seg' =>
                rw [h'] at hy
                rw [List.mem_singleton] at hy
                subst hx
                subst hy
                exact hjj'
    · rw [List.pairwise_map]
      have henum : trisA.enum.Pairwise (fun a b => a.1 ≠ b.1) := by
        have h1 : (trisA.enum.map Prod.fst).Pairwise (· ≠ ·) := by
          rw [List.enum_map_fst]
          exact List.nodup_range trisA.length
        rwa [List.pairwise_map] at h1
      refine henum.imp ?_
      intro p q hpq x hx y hy
      left
      rw [(mem_taggedRow hx).1, (mem_taggedRow hy).1]
      exact hpq

/-- A "phantom intersection" pair.  `phantomA` lies in the plane `z = 0`;
its first vertex is within `1e-10` of `phantomB`'s plane (signed distance
`≈ 6e-11`) while being far (in the line parameter) from the segment where
`phantomA` truly meets that plane, so `computeTriInterval`'s
near-plane-vertex rule inflates A's parametric interval until it overlaps
B's.  `triTriIntersection` therefore returns a segment although the two
triangles are disjoint — and because they are disjoint their bounding
boxes fall into different grid columns, so the spatial grid never
surfaces the pair. -/
def phantomA : Tri :=
  ⟨⟨-2/10^11, -1/10^7, 0⟩, ⟨-1/124999995, 2/10^5, 0⟩, ⟨-10, 0, 0⟩⟩

/-- The second triangle of the phantom pair: it lies in the vertical
plane with exact unit normal `(-24999999/25000001, -10^4/25000001, 0)`
(a Pythagorean normal, so `triNormal` computes it exactly), crosses the
plane `z = 0` near the origin, and sits entirely in the grid column
`x ≥ 0` while `phantomA` sits in columns `x < 0`. -/
def phantomB : Tri :=
  ⟨⟨1/99999996, -1/40000, -1/10^11⟩, ⟨0, 0, 1/10^11⟩,
   ⟨1/49999998, -1/20000, -(10^7-1)/10^11⟩⟩

/-- Translate a triangle by `0.1` (one grid cell of the `phantomB` mesh,
whose cell size is exactly the `0.1` floor) along `x`. -/
def shiftTri (t : Tri) : Tri :=
  ⟨⟨t.v0.x + 1/10, t.v0.y, t.v0.z⟩, ⟨t.v1.x + 1/10, t.v1.y, t.v1.z⟩,
   ⟨t.v2.x + 1/10, t.v2.y, t.v2.z⟩⟩

unseal Rat.add Rat.mul Rat.sub Rat.inv in
/-- C5 counterexample: the Möller test on the phantom pair returns a
segment, yet the tagged mesh intersector emits nothing — the grid's
candidate search misses an intersecting pair, refuting the claim's
unconditional completeness.  (Both triangles' boxes fall in disjoint
`x`-columns of the grid built on `[phantomB]`.) -/
theorem intersectMeshPairTagged_misses_pair :
    (triTriIntersection jsSqrt phantomA phantomB).isSome = true ∧
    intersectMeshPairTagged jsSqrt [phantomA] [phantomB] = [] := by
  constructor
  · decide
  · decide

/-! ## Claim C6: symmetry of the pair intersector -/

theorem findLinePoint_swap (nA : V3) (dA : ℚ) (nB : V3) (dB : ℚ)
    (x y z : ℚ) :
    findLinePoint nB dB nA dA ⟨-x, -y, -z⟩ =
      findLinePoint nA dA nB dB ⟨x, y, z⟩ := by
  unfold findLinePoint
  have hd1 : nB.x * nA.y - nB.y * nA.x = -(nA.x * nB.y - nA.y * nB.x) := by
    ring
  have hd2 : nB.x * nA.z - nB.z * nA.x = -(nA.x * nB.z - nA.z * nB.x) := by
    ring
  have hd3 : nB.y * nA.z - nB.z * nA.y = -(nA.y * nB.z - nA.z * nB.y) := by
    ring
  simp only [hd1, hd2, hd3, abs_neg]
  split_ifs with h1 h2 h3 h4 h5 h6
  · rfl
  · simp only [Option.some.injEq, V3.mk.injEq]
    refine ⟨?_, ?_, trivial⟩
    · rw [div_neg, ← neg_div]
      congr 1
      ring
    · rw [div_neg, ← neg_div]
      congr 1
      ring
  · rfl
  · simp only [Option.some.injEq, V3.mk.injEq]
    refine ⟨?_, trivial, ?_⟩
    · rw [div_neg, ← neg_div]
      congr 1
      ring
    · rw [div_neg, ← neg_div]
      congr 1
      ring
  · rfl
  · simp only [Option.some.injEq, V3.mk.injEq]
    refine ⟨trivial, ?_, ?_⟩
    · rw [div_neg, ← neg_div]
      congr 1
      ring
    · rw [div_neg, ← neg_div]
      congr 1
      ring

theorem foldl_min_neg :
    ∀ (l : List ℚ) (p : ℚ),
      (l.map (fun q => -q)).foldl min (-p) = -(l.foldl max p) := by
  intro l
  induction l with
  | nil =>
      intro p
      rfl
  | cons r rs ih =>
      intro p
      simp only [List.map_cons, List.foldl_cons, min_neg_neg]
      exact ih (max p r)

theorem foldl_max_neg :
    ∀ (l : List ℚ) (p : ℚ),
      (l.map (fun q => -q)).foldl max (-p) = -(l.foldl min p) := by
  intro l
  induction l with
  | nil =>
      intro p
      rfl
  | cons r rs ih =>
      intro p
      simp only [List.map_cons, List.foldl_cons, max_neg_neg]
      exact ih (min p r)

theorem foldI_map_rel {α β : Type} (g : α → α) {f f' : List α → β → List α}
    (hstep : ∀ ps b, f' (ps.map g) b = (f ps b).map g) :
    ∀ (l : List β) (ps : List α),
      l.foldI (ps.map g) f' = (l.foldI ps f).map g := by
  intro l
  induction l with
  | nil =>
      intro ps
      rfl
  | cons b bs ih =>
      intro ps
      rw [List.foldI_cons, List.foldI_cons, hstep]
      exact ih (f ps b)

/-- The loop body of `computeTriInterval`, factored out by name so the fold
can be reasoned about without higher-order pattern matching. -/
def triIntervalStep (tri : Tri) (lineDir linePoint : V3) (d0 d1 d2 : ℚ)
    (ps : List ℚ) (i : ℕ) : List ℚ :=
  let j := (i + 1) % 3
  let di := [d0, d1, d2].getD i 0
  let dj := [d0, d1, d2].getD j 0
  let vi := [tri.v0, tri.v1, tri.v2].getD i ⟨0, 0, 0⟩
  let vj := [tri.v0, tri.v1, tri.v2].getD j ⟨0, 0, 0⟩
  if (di > 0 ∧ dj < 0) ∨ (di < 0 ∧ dj > 0) then
    let t := di / (di - dj)
    let pt : V3 := ⟨vi.x + t * (vj.x - vi.x), vi.y + t * (vj.y - vi.y),
      vi.z + t * (vj.z - vi.z)⟩
    let param := (pt.x - linePoint.x) * lineDir.x +
      (pt.y - linePoint.y) * lineDir.y + (pt.z - linePoint.z) * lineDir.z
    ps ++ [param]
  else if |di| < 1 / 10 ^ 10 then
    let param := (vi.x - linePoint.x) * lineDir.x +
      (vi.y - linePoint.y) * lineDir.y + (vi.z - linePoint.z) * lineDir.z
    ps ++ [param]
  else ps

theorem computeTriInterval_eq (tri : Tri) (lineDir linePoint : V3)
    (d0 d1 d2 : ℚ) :
    computeTriInterval tri lineDir linePoint d0 d1 d2 =
      (if ((List.range 3).foldI ([] : List ℚ)
            (triIntervalStep tri lineDir linePoint d0 d1 d2)).length < 2 then
        none
      else
        match (List.range 3).foldI ([] : List ℚ)
            (triIntervalStep tri lineDir linePoint d0 d1 d2) with
        | [] => none
        | p :: rest => some (rest.foldl min p, rest.foldl max p)) := rfl

theorem triIntervalStep_neg (tri : Tri) (lp : V3) (x y z d0 d1 d2 : ℚ)
    (ps : List ℚ) (i : ℕ) :
    triIntervalStep tri ⟨-x, -y, -z⟩ lp d0 d1 d2 (ps.map (fun q => -q)) i =
      (triIntervalStep tri ⟨x, y, z⟩ lp d0 d1 d2 ps i).map (fun q => -q) := by
  simp only [triIntervalStep]
  split_ifs with hc1 hc2
  · rw [List.map_append]
    congr 1
    simp only [List.map_cons, List.map_nil, List.cons.injEq, and_true]
    ring
  · rw [List.map_append]
    congr 1
    simp only [List.map_cons, List.map_nil, List.cons.injEq, and_true]
    ring
  · rfl

/-- Negating the line direction negates every collected parameter and
flips the resulting interval. -/
theorem computeTriInterval_neg (tri : Tri) (lp : V3) (x y z d0 d1 d2 : ℚ) :
    computeTriInterval tri ⟨-x, -y, -z⟩ lp d0 d1 d2 =
      (computeTriInterval tri ⟨x, y, z⟩ lp d0 d1 d2).map
        (fun iv => (-iv.2, -iv.1)) := by
  rw [computeTriInterval_eq, computeTriInterval_eq]
  have key : (List.range 3).foldI ([] : List ℚ)
      (triIntervalStep tri ⟨-x, -y, -z⟩ lp d0 d1 d2) =
      ((List.range 3).foldI ([] : List ℚ)
        (triIntervalStep tri ⟨x, y, z⟩ lp d0 d1 d2)).map (fun q => -q) :=
    foldI_map_rel (fun q => -q)
      (fun ps i => triIntervalStep_neg tri lp x y z d0 d1 d2 ps i)
      (List.range 3) []
  rw [key, List.length_map]
  generalize (List.range 3).foldI ([] : List ℚ)
    (triIntervalStep tri ⟨x, y, z⟩ lp d0 d1 d2) = params
  by_cases hlen : params.length < 2
  · rw [if_pos hlen, if_pos hlen]
    rfl
  · rw [if_neg hlen, if_neg hlen]
    cases params with
    | nil => rfl
    | cons p rest =>
        simp only [List.map_cons]
        rw [foldl_min_neg, foldl_max_neg]
        rfl

/-- The overlap-interval tail of `triTriIntersection`, factored out by name:
given the line frame and the two parametric intervals it produces the final
segment (or rejects on degenerate overlap or short segment). -/
def triTriTail (sq : SqrtFn) (lineDir linePoint : V3)
    (intervalA intervalB : ℚ × ℚ) : Option Seg :=
  let overlapMin := max intervalA.1 intervalB.1
  let overlapMax := min intervalA.2 intervalB.2
  if overlapMin ≥ overlapMax - 1 / 10 ^ 10 then none
  else
    let p0 : V3 := ⟨linePoint.x + lineDir.x * overlapMin,
      linePoint.y + lineDir.y * overlapMin,
      linePoint.z + lineDir.z * overlapMin⟩
    let p1 : V3 := ⟨linePoint.x + lineDir.x * overlapMax,
      linePoint.y + lineDir.y * overlapMax,
      linePoint.z + lineDir.z * overlapMax⟩
    let dx := p0.x - p1.x
    let dy := p0.y - p1.y
    let dz := p0.z - p1.z
    if sq (dx * dx + dy * dy + dz * dz) < 1 / 10 ^ 8 then none
    else some ⟨p0, p1⟩

/-- The post-rejection portion of `triTriIntersection` (line point, the two
parametric intervals, and the overlap tail), factored out by name. -/
def triTriLine (sq : SqrtFn) (triA triB : Tri) (nA : V3) (dA : ℚ)
    (nB : V3) (dB : ℚ) (dA0 dA1 dA2 dB0 dB1 dB2 : ℚ) (lineDir : V3) :
    Option Seg :=
  match findLinePoint nA dA nB dB lineDir with
  | none => none
  | some linePoint =>
    match computeTriInterval triA lineDir linePoint dA0 dA1 dA2 with
    | none => none
    | some intervalA =>
      match computeTriInterval triB lineDir linePoint dB0 dB1 dB2 with
      | none => none
      | some intervalB => triTriTail sq lineDir linePoint intervalA intervalB

theorem triTriIntersection_line_eq (sq : SqrtFn) (triA triB : Tri) :
    triTriIntersection sq triA triB =
      (let nB := triNormal sq triB
       let dB := -(nB.x * triB.v0.x + nB.y * triB.v0.y + nB.z * triB.v0.z)
       let dA0 := nB.x * triA.v0.x + nB.y * triA.v0.y + nB.z * triA.v0.z + dB
       let dA1 := nB.x * triA.v1.x + nB.y * triA.v1.y + nB.z * triA.v1.z + dB
       let dA2 := nB.x * triA.v2.x + nB.y * triA.v2.y + nB.z * triA.v2.z + dB
       if dA0 > 0 ∧ dA1 > 0 ∧ dA2 > 0 then none
       else if dA0 < 0 ∧ dA1 < 0 ∧ dA2 < 0 then none
       else
         let nA := triNormal sq triA
         let dA := -(nA.x * triA.v0.x + nA.y * triA.v0.y + nA.z * triA.v0.z)
         let dB0 := nA.x * triB.v0.x + nA.y * triB.v0.y + nA.z * triB.v0.z + dA
         let dB1 := nA.x * triB.v1.x + nA.y * triB.v1.y + nA.z * triB.v1.z + dA
         let dB2 := nA.x * triB.v2.x + nA.y * triB.v2.y + nA.z * triB.v2.z + dA
         if dB0 > 0 ∧ dB1 > 0 ∧ dB2 > 0 then none
         else if dB0 < 0 ∧ dB1 < 0 ∧ dB2 < 0 then none
         else
           let dotN := nA.x * nB.x + nA.y * nB.y + nA.z * nB.z
           if |dotN| > 9999 / 10000 then none
           else
             let ld := cross nA nB
             let lineDirLen := sq (ld.x * ld.x + ld.y * ld.y + ld.z * ld.z)
             if lineDirLen < 1 / 10 ^ 12 then none
             else
               let lineDir : V3 :=
                 ⟨ld.x / lineDirLen, ld.y / lineDirLen, ld.z / lineDirLen⟩
               triTriLine sq triA triB nA dA nB dB dA0 dA1 dA2 dB0 dB1 dB2
                 lineDir) :=
  rfl

theorem triTriTail_swap (sq : SqrtFn) (lp : V3) (x y z : ℚ) (iA iB : ℚ × ℚ) :
    triTriTail sq ⟨-x, -y, -z⟩ lp (-iB.2, -iB.1) (-iA.2, -iA.1) =
      (triTriTail sq ⟨x, y, z⟩ lp iA iB).map
        (fun s : Seg => (⟨s.p1, s.p0⟩ : Seg)) := by
  simp only [triTriTail]
  rw [max_neg_neg, min_neg_neg, min_comm iB.2 iA.2, max_comm iB.1 iA.1]
  by_cases hov : max iA.1 iB.1 ≥ min iA.2 iB.2 - 1 / 10 ^ 10
  · rw [if_pos
        (show -(min iA.2 iB.2) ≥ -(max iA.1 iB.1) - 1 / 10 ^ 10 by linarith),
      if_pos hov]
    rfl
  · rw [if_neg
        (show ¬(-(min iA.2 iB.2) ≥ -(max iA.1 iB.1) - 1 / 10 ^ 10) from
          fun hcon => hov (by linarith)),
      if_neg hov]
    simp only [apply_ite (Option.map (fun s : Seg => (⟨s.p1, s.p0⟩ : Seg))),
      Option.map_some', Option.map_none']
    ring_nf

theorem triTriLine_swap (sq : SqrtFn) (T U : Tri) (nT nU : V3)
    (dT dU a0 a1 a2 b0 b1 b2 x y z : ℚ) :
    triTriLine sq U T nU dU nT dT b0 b1 b2 a0 a1 a2 ⟨-x, -y, -z⟩ =
      (triTriLine sq T U nT dT nU dU a0 a1 a2 b0 b1 b2 ⟨x, y, z⟩).map
        (fun s : Seg => (⟨s.p1, s.p0⟩ : Seg)) := by
  unfold triTriLine
  rw [findLinePoint_swap]
  cases hfp : findLinePoint nT dT nU dU ⟨x, y, z⟩ with
  | none => rfl
  | some lp =>
      show (match computeTriInterval U (⟨-x, -y, -z⟩ : V3) lp b0 b1 b2 with
          | none => none
          | some intervalA =>
            match computeTriInterval T (⟨-x, -y, -z⟩ : V3) lp a0 a1 a2 with
            | none => none
            | some intervalB =>
                triTriTail sq ⟨-x, -y, -z⟩ lp intervalA intervalB) =
        Option.map (fun s : Seg => (⟨s.p1, s.p0⟩ : Seg))
          (match computeTriInterval T (⟨x, y, z⟩ : V3) lp a0 a1 a2 with
          | none => none
          | some intervalA =>
            match computeTriInterval U (⟨x, y, z⟩ : V3) lp b0 b1 b2 with
            | none => none
            | some intervalB =>
                triTriTail sq ⟨x, y, z⟩ lp intervalA intervalB)
      rw [computeTriInterval_neg U lp x y z b0 b1 b2,
        computeTriInterval_neg T lp x y z a0 a1 a2]
      cases hA : computeTriInterval T ⟨x, y, z⟩ lp a0 a1 a2 with
      | none =>
          cases hB : computeTriInterval U ⟨x, y, z⟩ lp b0 b1 b2 with
          | none => rfl
          | some iB => rfl
      | some iA =>
          cases hB : computeTriInterval U ⟨x, y, z⟩ lp b0 b1 b2 with
          | none => rfl
          | some iB => exact triTriTail_swap sq lp x y z iA iB

/-- C6: the mesh-level symmetry claim is false as stated (see the
counterexample, which exploits the spatial grid being built on the second
mesh only), but the per-pair Möller test underlying the tagged intersector
is exactly symmetric: for every square-root model and every pair of
triangles, swapping the two arguments of `triTriIntersection` swaps the
endpoints of the reported segment and nothing else. -/
theorem triTriIntersection_swap (sq : SqrtFn) (T U : Tri) :
    triTriIntersection sq U T =
      (triTriIntersection sq T U).map (fun s : Seg => (⟨s.p1, s.p0⟩ : Seg)) := by
  simp only [triTriIntersection_line_eq]
  generalize triNormal sq T = nT
  generalize triNormal sq U = nU
  have hdot : nU.x * nT.x + nU.y * nT.y + nU.z * nT.z
      = nT.x * nU.x + nT.y * nU.y + nT.z * nU.z := by ring
  have hcx : (cross nU nT).x = -((cross nT nU).x) := by
    simp only [cross]
    ring
  have hcy : (cross nU nT).y = -((cross nT nU).y) := by
    simp only [cross]
    ring
  have hcz : (cross nU nT).z = -((cross nT nU).z) := by
    simp only [cross]
    ring
  rw [hdot, hcx, hcy, hcz]
  have hlen : -((cross nT nU).x) * -((cross nT nU).x)
      + -((cross nT nU).y) * -((cross nT nU).y)
      + -((cross nT nU).z) * -((cross nT nU).z)
      = (cross nT nU).x * (cross nT nU).x + (cross nT nU).y * (cross nT nU).y
        + (cross nT nU).z * (cross nT nU).z := by ring
  rw [hlen]
  simp only [neg_div]
  simp only [apply_ite (Option.map (fun s : Seg => (⟨s.p1, s.p0⟩ : Seg))),
    Option.map_none']
  split_ifs
  any_goals rfl
  exact triTriLine_swap sq T U _ _ _ _ _ _ _ _ _ _ _ _ _


unseal Rat.add Rat.mul Rat.sub Rat.inv in
/-- C6 counterexample: after translating both phantom triangles by one
tenth (exactly one grid cell of the mesh `[phantomB]`, whose cell size is
the `0.1` floor), the grids built on the two sides become asymmetric:
`intersectMeshPairTagged [A'] [B']` emits no segment while swapping the
arguments emits one, refuting the claimed symmetry of the mesh-level
intersector up to endpoint/tag swap. -/
theorem intersectMeshPairTagged_not_symmetric :
    intersectMeshPairTagged jsSqrt [shiftTri phantomA] [shiftTri phantomB]
      = [] ∧
    (intersectMeshPairTagged jsSqrt [shiftTri phantomB]
      [shiftTri phantomA]).length = 1 := by
  constructor
  · decide
  · decide

end TrimeshBoolean
